import Mathlib

/-!
Verification development for the label-normalization engine of the scandit-poc
repository.  The engine consists of:

* `gs1Parse.ts` — GS1 barcode decoding (`preprocess`, `parseConcatenatedGs1`,
  `parseGs1ToLabelJson`);
* `labelFormats.ts` — the OCR format registry (`normalizeExpiry`, the six
  `LabelFormat` matchers, `LABEL_FORMATS`, `score`, `extractLabelFromOcr`);
* `labelPatterns.ts` — the Scandit field definitions
  (`SCANDIT_FIELD_DEFINITIONS`, `normalizeExpiryForMapping`);
* the Scandit field mapper (`isLikelyYYMMDD`, `isProductCodeMisread`,
  `normalizeExpiry`, `parseLotAndExpiryFromRaw`, `parseSerialFromRaw`,
  `scanditFieldsToLabelJson`).

The TypeScript is embedded shallowly: JavaScript strings become Lean `String`
(all inputs of interest are ASCII), the string primitives used by the source
(`trim`, `toUpperCase`, `slice`, `padStart`, …) are modelled explicitly below,
and every regular expression of the source is either transcribed into a small
backtracking regex interpreter (`Rex`) that follows JavaScript semantics
(leftmost match, ordered alternation, greedy/lazy quantifiers) or — for the
anchored full-match date patterns — written as a direct pattern-match parser
equivalent to the anchored regex.  The external `@valentynb/gs1-parser`
library is not part of the repository; its observable outcome is a parameter
(`Gs1.LibOutcome`) of the embedding.
-/

/-! ## JavaScript string primitives -/

def jsIsDigit (c : Char) : Bool := '0' ≤ c && c ≤ '9'

def jsIsAlphaAscii (c : Char) : Bool := ('A' ≤ c && c ≤ 'Z') || ('a' ≤ c && c ≤ 'z')

def jsIsAlnum (c : Char) : Bool := jsIsDigit c || jsIsAlphaAscii c

/-- JavaScript `\s` (restricted to the ASCII whitespace actually occurring here). -/
def jsIsSpace (c : Char) : Bool :=
  c = ' ' || c = '\t' || c = '\n' || c = '\r' || c = '\x0b' || c = '\x0c'

/-- JavaScript `\w` (regex word character), used for `\b` boundaries. -/
def jsIsWordChar (c : Char) : Bool := jsIsAlnum c || c = '_'

/-- `String.prototype.toUpperCase` on one ASCII character. -/
def jsToUpperChar (c : Char) : Char :=
  if 'a' ≤ c && c ≤ 'z' then Char.ofNat (c.toNat - 32) else c

def jsUpper (s : String) : String := String.mk (s.data.map jsToUpperChar)

/-- `String.prototype.trim`. -/
def jsTrim (s : String) : String :=
  String.mk (((s.data.dropWhile jsIsSpace).reverse.dropWhile jsIsSpace).reverse)

/-- `s.slice(0, n)`. -/
def jsSlice0 (n : Nat) (s : String) : String := String.mk (s.data.take n)

/-- `s.length` (all strings involved are ASCII, so UTF-16 length = char count). -/
def jsLen (s : String) : Nat := s.data.length

/-- `s.padStart(2, '0')`. -/
def padStart2 (s : String) : String :=
  if jsLen s ≥ 2 then s else if jsLen s = 1 then "0" ++ s else "00"

/-- `parseInt(s, 10)` on an all-digit string. -/
def digitsToNat (s : String) : Nat :=
  s.data.foldl (fun acc c => acc * 10 + (c.toNat - 48)) 0

def listStarts : List Char → List Char → Bool
  | [], _ => true
  | _ :: _, [] => false
  | a :: as, b :: bs => a = b && listStarts as bs

/-- `s.startsWith(pre)`. -/
def jsStartsWith (pre s : String) : Bool := listStarts pre.data s.data

/-- `s.replace(/\s/g, '')`. -/
def stripWs (s : String) : String := String.mk (s.data.filter (fun c => !jsIsSpace c))

def collapseAux : Bool → List Char → List Char
  | _, [] => []
  | inWs, c :: rest =>
    if jsIsSpace c then
      if inWs then collapseAux true rest
      else ' ' :: collapseAux true rest
    else c :: collapseAux false rest

def collapseCore (l : List Char) : List Char := collapseAux false l

/-- `s.replace(/\s+/g, ' ')`. -/
def jsCollapseWs (s : String) : String := String.mk (collapseCore s.data)

def splitOnChar (c : Char) : List Char → List (List Char)
  | [] => [[]]
  | x :: xs =>
    let r := splitOnChar c xs
    if x = c then [] :: r
    else
      match r with
      | [] => [[x]]
      | y :: ys => (x :: y) :: ys

def dropTrailingCR (l : List Char) : List Char :=
  match l.getLast? with
  | some '\r' => l.dropLast
  | _ => l

def mapAllButLast (f : α → α) : List α → List α
  | [] => []
  | [x] => [x]
  | x :: y :: ys => f x :: mapAllButLast f (y :: ys)

/-- `s.split(/\r?\n/)`: split at `\n`, consuming one `\r` immediately before it. -/
def jsSplitLines (s : String) : List String :=
  (mapAllButLast dropTrailingCR (splitOnChar '\n' s.data)).map String.mk

/-- Truthiness of an optional JS string (`undefined` and `''` are falsy). -/
def jsTruthyO (o : Option String) : Bool := !(o.getD "").isEmpty

/-! ## A small backtracking regex interpreter (JavaScript semantics)

Regexes that *search* inside a string (as opposed to anchored whole-string
patterns) are transcribed into this AST and run by `mrun`, a CPS backtracking
matcher: alternatives are tried left to right, quantifiers are greedy unless
marked lazy, the leftmost successful start position wins — exactly the
semantics of JavaScript `RegExp.prototype.exec`.  All quantified subterms in
the source's regexes are single character classes, which keeps the matcher
structurally recursive. -/

namespace Rex

/-- Character classes occurring in the source regexes. -/
inductive CC
  | digit          -- \d
  | alnum          -- [A-Za-z0-9]
  | upperNum       -- [A-Z0-9]
  | alpha          -- [A-Za-z]
  | space          -- \s
  | ch (c : Char)
  | oneOf (cs : List Char)
deriving DecidableEq

def CC.matches (ci : Bool) (k : CC) (c : Char) : Bool :=
  match k with
  | .digit => jsIsDigit c
  | .alnum => jsIsAlnum c
  | .upperNum =>
    let c2 := if ci then jsToUpperChar c else c
    jsIsDigit c2 || ('A' ≤ c2 && c2 ≤ 'Z')
  | .alpha => jsIsAlphaAscii c
  | .space => jsIsSpace c
  | .ch a => if ci then jsToUpperChar c = jsToUpperChar a else c = a
  | .oneOf cs => cs.contains c

inductive Rx
  | rfail
  | eps
  | cls (k : CC)
  | lit (s : String)
  | seq (a b : Rx)
  | alt (a b : Rx)
  | opt (a : Rx)
  | rep (k : CC) (lo : Nat) (hi : Option Nat) (lazy : Bool)
  | grp (i : Nat) (a : Rx)
  | wb             -- \b
  | eos            -- $
deriving DecidableEq

/-- Sequence a list of regexes. -/
def rcat (l : List Rx) : Rx := l.foldr .seq .eps

/-- Ordered alternation of a list of regexes. -/
def ralt (l : List Rx) : Rx := l.foldr .alt .rfail

def rch (c : Char) : Rx := .cls (.ch c)

/-- `\s*` -/
def ws0 : Rx := .rep .space 0 none false

/-- `\s+` -/
def ws1 : Rx := .rep .space 1 none false

/-- `\d{lo,hi}` -/
def rdig (lo hi : Nat) : Rx := .rep .digit lo (some hi) false

def litMatch (ci : Bool) (inp : List Char) : List Char → Nat → Option Nat
  | [], pos => some pos
  | p :: ps, pos =>
    match inp.get? pos with
    | some c => if CC.matches ci (.ch p) c then litMatch ci inp ps (pos + 1) else none
    | none => none

def runLenAux (ci : Bool) (k : CC) : List Char → Nat
  | [] => 0
  | c :: cs => if CC.matches ci k c then 1 + runLenAux ci k cs else 0

/-- Candidate consumption counts for a quantifier, in exploration order. -/
def repCands (lo : Nat) (hi : Option Nat) (lazy : Bool) (run : Nat) : List Nat :=
  let maxN := min run (hi.getD run)
  if maxN < lo then []
  else (List.range (maxN - lo + 1)).map (fun i => if lazy then lo + i else maxN - i)

def wordAt (inp : List Char) (i : Nat) : Bool :=
  match inp.get? i with
  | some c => jsIsWordChar c
  | none => false

def isBoundary (inp : List Char) (pos : Nat) : Bool :=
  match pos with
  | 0 => wordAt inp 0
  | p + 1 => wordAt inp p != wordAt inp (p + 1)

/-- Captured groups: index ↦ captured substring (most recent first). -/
abbrev Caps := List (Nat × String)

/-- The CPS backtracking matcher. -/
def mrun (ci : Bool) (inp : List Char) :
    Rx → Nat → Caps → (Nat → Caps → Option (Nat × Caps)) → Option (Nat × Caps)
  | .rfail, _, _, _ => none
  | .eps, pos, caps, k => k pos caps
  | .cls kc, pos, caps, k =>
    match inp.get? pos with
    | some c => if CC.matches ci kc c then k (pos + 1) caps else none
    | none => none
  | .lit s, pos, caps, k =>
    match litMatch ci inp s.data pos with
    | some p2 => k p2 caps
    | none => none
  | .seq a b, pos, caps, k => mrun ci inp a pos caps (fun p c => mrun ci inp b p c k)
  | .alt a b, pos, caps, k =>
    match mrun ci inp a pos caps k with
    | some r => some r
    | none => mrun ci inp b pos caps k
  | .opt a, pos, caps, k =>
    match mrun ci inp a pos caps k with
    | some r => some r
    | none => k pos caps
  | .rep kc lo hi lz, pos, caps, k =>
    let run := runLenAux ci kc (inp.drop pos)
    (repCands lo hi lz run).findSome? (fun n => k (pos + n) caps)
  | .grp i a, pos, caps, k =>
    mrun ci inp a pos caps
      (fun p2 c2 => k p2 ((i, String.mk ((inp.drop pos).take (p2 - pos))) :: c2))
  | .wb, pos, caps, k => if isBoundary inp pos then k pos caps else none
  | .eos, pos, caps, k => if pos = inp.length then k pos caps else none

/-- One match result: the whole matched text and the captured groups. -/
structure MRes where
  start : Nat
  stop : Nat
  whole : String
  groups : Caps
deriving DecidableEq

def searchAux (ci : Bool) (rx : Rx) (inp : List Char) : Nat → Nat → Option MRes
  | _, 0 => none
  | pos, fuel + 1 =>
    match mrun ci inp rx pos [] (fun p c => some (p, c)) with
    | some (e, caps) =>
      some ⟨pos, e, String.mk ((inp.drop pos).take (e - pos)), caps⟩
    | none => searchAux ci rx inp (pos + 1) fuel

/-- `s.match(rx)` (no `g` flag): leftmost match. -/
def jsMatch (ci : Bool) (rx : Rx) (s : String) : Option MRes :=
  searchAux ci rx s.data 0 (s.data.length + 1)

/-- `rx.test(s)`. -/
def jsTest (ci : Bool) (rx : Rx) (s : String) : Bool := (jsMatch ci rx s).isSome

/-- Group accessor (`m[i]`); all accessed groups participate in our regexes. -/
def MRes.grp? (m : MRes) (i : Nat) : Option String :=
  (m.groups.find? (fun p => p.1 = i)).map Prod.snd

def MRes.grpD (m : MRes) (i : Nat) : String := (m.grp? i).getD ""

def matchAllAux (ci : Bool) (rx : Rx) (inp : List Char) : Nat → Nat → List MRes
  | _, 0 => []
  | pos, fuel + 1 =>
    match searchAux ci rx inp pos (inp.length + 1 - pos) with
    | some m =>
      m :: matchAllAux ci rx inp (if m.stop > m.start then m.stop else m.start + 1) fuel
    | none => []

/-- `s.match(rx)` with the `g` flag: the list of full match texts. -/
def jsMatchAll (ci : Bool) (rx : Rx) (s : String) : List String :=
  (matchAllAux ci rx s.data 0 (s.data.length + 1)).map MRes.whole

end Rex

/-! ## `gs1Parse.ts` — GS1 barcode decoding

The positional-fallback regexes `/01(\d{14})/`, `/21([A-Za-z0-9]{1,20})/`,
`/17(\d{6})/`, `/17\d{6}10([A-Za-z0-9]+?)21/` and `/17\d{6}10([A-Za-z0-9]+)/`
are deterministic (each quantifier is either of fixed width, or sits at the
end of the pattern, or is lazy up to a literal), so they are implemented as
direct leftmost-scan functions. -/

namespace Gs1

/-- Consume exactly `n` characters satisfying `p`. -/
def takeCount (p : Char → Bool) : Nat → List Char → Option (List Char × List Char)
  | 0, l => some ([], l)
  | _ + 1, [] => none
  | n + 1, c :: cs =>
    if p c then (takeCount p n cs).map (fun r => (c :: r.1, r.2)) else none

/-- Greedy run of characters satisfying `p`, capped at `n`. -/
def takeUpTo (p : Char → Bool) : Nat → List Char → List Char
  | 0, _ => []
  | _ + 1, [] => []
  | n + 1, c :: cs => if p c then c :: takeUpTo p n cs else []

/-- Leftmost occurrence of the two-character AI `ab` whose suffix parses with
`payload` (the JS semantics of `/ab.../.exec`). -/
def searchAi (a b : Char) (payload : List Char → Option α) : List Char → Option α
  | [] => none
  | c :: cs =>
    if c = a then
      match cs with
      | d :: ds =>
        if d = b then
          match payload ds with
          | some r => some r
          | none => searchAi a b payload cs
        else searchAi a b payload cs
      | [] => none
    else searchAi a b payload cs

/-- `/01(\d{14})/` -/
def searchGtin (l : List Char) : Option (List Char) :=
  searchAi '0' '1' (fun ds => (takeCount jsIsDigit 14 ds).map Prod.fst) l

/-- `/21([A-Za-z0-9]{1,20})/` -/
def searchSerial (l : List Char) : Option (List Char) :=
  searchAi '2' '1'
    (fun ds =>
      let run := takeUpTo jsIsAlnum 20 ds
      if run.length ≥ 1 then some run else none) l

/-- `/17(\d{6})/` -/
def searchExp17 (l : List Char) : Option (List Char) :=
  searchAi '1' '7' (fun ds => (takeCount jsIsDigit 6 ds).map Prod.fst) l

/-- The lazy part of `/17\d{6}10([A-Za-z0-9]+?)21/`: the shortest non-empty
alphanumeric prefix followed by the literal `21`. -/
def lazyAlnumTo21 (acc : List Char) : List Char → Option (List Char)
  | [] => none
  | c :: cs =>
    if jsIsAlnum c then
      match cs with
      | '2' :: '1' :: _ => some (acc ++ [c])
      | _ => lazyAlnumTo21 (acc ++ [c]) cs
    else none

/-- `/17\d{6}10([A-Za-z0-9]+?)21/` -/
def searchBatchBeforeSerial (l : List Char) : Option (List Char) :=
  searchAi '1' '7'
    (fun ds =>
      match takeCount jsIsDigit 6 ds with
      | some (_, '1' :: '0' :: rest2) => lazyAlnumTo21 [] rest2
      | _ => none) l

/-- `/17\d{6}10([A-Za-z0-9]+)/` -/
def searchBatchToEnd (l : List Char) : Option (List Char) :=
  searchAi '1' '7'
    (fun ds =>
      match takeCount jsIsDigit 6 ds with
      | some (_, '1' :: '0' :: rest2) =>
        let run := rest2.takeWhile jsIsAlnum
        if run.length ≥ 1 then some run else none
      | _ => none) l

structure Gs1LabelResult where
  batch_no : String
  lot_no : String
  expiry : String
  upc_gtin : Option String := none
  serial : Option String := none
deriving DecidableEq

/-- `parseConcatenatedGs1` — the positional fallback decoder. -/
def parseConcatenatedGs1 (s : String) : Option Gs1LabelResult :=
  let t := stripWs s
  if jsLen t < 20 then none
  else
    let batch : String :=
      match searchBatchBeforeSerial t.data with
      | some b => String.mk b
      | none =>
        match searchBatchToEnd t.data with
        | some b => String.mk b
        | none => ""
    let gtin : String := match searchGtin t.data with | some d => String.mk d | none => ""
    let serial : String := match searchSerial t.data with | some d => String.mk d | none => ""
    let expiry : String :=
      match searchExp17 t.data with
      | some cap =>
        let yy := String.mk (cap.take 2)
        let mm := String.mk ((cap.drop 2).take 2)
        let dd := String.mk ((cap.drop 4).take 2)
        let yyyy := if digitsToNat yy ≥ 50 then "19" ++ yy else "20" ++ yy
        yyyy ++ "-" ++ mm ++ "-" ++ dd
      | none => ""
    if gtin = "" && expiry = "" && batch = "" && serial = "" then none
    else
      some { batch_no := batch, lot_no := batch, expiry,
             upc_gtin := if gtin = "" then none else some gtin,
             serial := if serial = "" then none else some serial }

def GS1_GROUP_SEPARATOR : Char := Char.ofNat 29

/-- `preprocess`: substitute the pipe delimiter by the group separator, trim. -/
def preprocess (raw : String) : String :=
  jsTrim (String.mk (raw.data.map (fun c => if c = '|' then GS1_GROUP_SEPARATOR else c)))

/-- One decoded element of the external `@valentynb/gs1-parser` library
(`{ data?, dataString? }`), as observed through `elToStr`: absent, a string,
a JS `Date` (rendered by `toISOString()`), or any other value (rendered by
`String(...)`). -/
inductive LibEl
  | absent
  | str (s : String)
  | date (iso : String)
  | other (s : String)
deriving DecidableEq

/-- `elToStr`. -/
def elToStr : LibEl → String
  | .absent => ""
  | .str s => s
  | .date iso => jsSlice0 10 iso
  | .other s => s

/-- The fields of a successful library decode that the caller reads
(`data.batch`, `data.expDate`, `data.gtin`, `data.serial`), together with
whether `Object.keys(data).length > 0`. -/
structure LibData where
  nonEmptyKeys : Bool
  batch : LibEl
  expDate : LibEl
  gtin : LibEl
  serial : LibEl
deriving DecidableEq

/-- Outcome of `parser.decode`: an exception, or a result whose `data` may be
missing. The library is external to the repository, so the embedding is
parameterized by a function `String → LibOutcome`. -/
inductive LibOutcome
  | throws
  | ret (d : Option LibData)
deriving DecidableEq

/-- `parseGs1ToLabelJson`, parameterized by the external library decode. -/
def parseGs1ToLabelJson (lib : String → LibOutcome) (raw : String) :
    Option Gs1LabelResult :=
  let normalized := preprocess raw
  if normalized = "" then none
  else
    match lib normalized with
    | .ret (some data) =>
      if data.nonEmptyKeys then
        let batch := elToStr data.batch
        let expiryRaw := elToStr data.expDate
        let expiry :=
          if expiryRaw = "" then ""
          else if jsLen expiryRaw ≥ 10 then jsSlice0 10 expiryRaw else expiryRaw
        let gtin := elToStr data.gtin
        let serial := elToStr data.serial
        if batch ≠ "" || expiry ≠ "" || gtin ≠ "" || serial ≠ "" then
          some { batch_no := batch, lot_no := batch, expiry,
                 upc_gtin := if gtin = "" then none else some gtin,
                 serial := if serial = "" then none else some serial }
        else parseConcatenatedGs1 normalized
      else parseConcatenatedGs1 normalized
    | _ => parseConcatenatedGs1 normalized

/-- A library stand-in that always throws (used for closed evaluations in
which the library is never consulted or its failure path is intended). -/
def libThrows : String → LibOutcome := fun _ => .throws

end Gs1

/-! ## `labelFormats.ts` — the OCR format registry

`normalizeExpiry`'s regexes are all anchored whole-string patterns
(`^...$`) in which every quantifier is followed by a token disjoint from its
character class, so each is written as a direct pattern-match parser; the
matchers' searching regexes use the `Rex` interpreter. -/

namespace LabelFormats

open Rex

/-- Case-insensitive three-letter month name to a two-digit month (the `mon`
lookup table applied to an upper-cased regex capture). -/
def monLookup (a b c : Char) : Option String :=
  if jsToUpperChar a = 'J' ∧ jsToUpperChar b = 'A' ∧ jsToUpperChar c = 'N' then some "01"
  else if jsToUpperChar a = 'F' ∧ jsToUpperChar b = 'E' ∧ jsToUpperChar c = 'B' then some "02"
  else if jsToUpperChar a = 'M' ∧ jsToUpperChar b = 'A' ∧ jsToUpperChar c = 'R' then some "03"
  else if jsToUpperChar a = 'A' ∧ jsToUpperChar b = 'P' ∧ jsToUpperChar c = 'R' then some "04"
  else if jsToUpperChar a = 'M' ∧ jsToUpperChar b = 'A' ∧ jsToUpperChar c = 'Y' then some "05"
  else if jsToUpperChar a = 'J' ∧ jsToUpperChar b = 'U' ∧ jsToUpperChar c = 'N' then some "06"
  else if jsToUpperChar a = 'J' ∧ jsToUpperChar b = 'U' ∧ jsToUpperChar c = 'L' then some "07"
  else if jsToUpperChar a = 'A' ∧ jsToUpperChar b = 'U' ∧ jsToUpperChar c = 'G' then some "08"
  else if jsToUpperChar a = 'S' ∧ jsToUpperChar b = 'E' ∧ jsToUpperChar c = 'P' then some "09"
  else if jsToUpperChar a = 'O' ∧ jsToUpperChar b = 'C' ∧ jsToUpperChar c = 'T' then some "10"
  else if jsToUpperChar a = 'N' ∧ jsToUpperChar b = 'O' ∧ jsToUpperChar c = 'V' then some "11"
  else if jsToUpperChar a = 'D' ∧ jsToUpperChar b = 'E' ∧ jsToUpperChar c = 'C' then some "12"
  else none

/-- `^(\d{4})-(JAN|…|DEC)$/i` → (year, two-digit month). -/
def pYyyyMmm (s : String) : Option (String × String) :=
  match s.data with
  | [y1, y2, y3, y4, '-', m1, m2, m3] =>
    if jsIsDigit y1 && jsIsDigit y2 && jsIsDigit y3 && jsIsDigit y4 then
      (monLookup m1 m2 m3).map (fun m => (String.mk [y1, y2, y3, y4], m))
    else none
  | _ => none

/-- `\s+(\d{4})$` (after a month name): one or more spaces then 4 digits. -/
def afterSpaces4 : List Char → Option String
  | c :: cs =>
    if jsIsSpace c then
      match cs.dropWhile jsIsSpace with
      | [y1, y2, y3, y4] =>
        if jsIsDigit y1 && jsIsDigit y2 && jsIsDigit y3 && jsIsDigit y4 then
          some (String.mk [y1, y2, y3, y4])
        else none
      | _ => none
    else none
  | [] => none

/-- `^(JAN|…|DEC)\s+(\d{4})$/i` → (two-digit month, year). -/
def pMmmYyyy (s : String) : Option (String × String) :=
  match s.data with
  | m1 :: m2 :: m3 :: rest =>
    match monLookup m1 m2 m3 with
    | some m => (afterSpaces4 rest).map (fun y => (m, y))
    | none => none
  | _ => none

/-- `^(JAN|…|DEC)(\d{4})$/i` → (two-digit month, year). -/
def pMmmYyyyNoSpace (s : String) : Option (String × String) :=
  match s.data with
  | [m1, m2, m3, y1, y2, y3, y4] =>
    match monLookup m1 m2 m3 with
    | some m =>
      if jsIsDigit y1 && jsIsDigit y2 && jsIsDigit y3 && jsIsDigit y4 then
        some (m, String.mk [y1, y2, y3, y4])
      else none
    | none => none
  | _ => none

/-- `(\d{1,2})` followed by a non-digit (or the end): one or two digits. -/
def d12Then : List Char → Option (String × List Char)
  | [] => none
  | [a] => if jsIsDigit a then some (String.mk [a], []) else none
  | a :: b :: rest =>
    if jsIsDigit a then
      if jsIsDigit b then some (String.mk [a, b], rest)
      else some (String.mk [a], b :: rest)
    else none

/-- Exactly four digits, returning them and the remainder. -/
def d4Then : List Char → Option (String × List Char)
  | y1 :: y2 :: y3 :: y4 :: rest =>
    if jsIsDigit y1 && jsIsDigit y2 && jsIsDigit y3 && jsIsDigit y4 then
      some (String.mk [y1, y2, y3, y4], rest)
    else none
  | _ => none

/-- `^(\d{1,2})\/(\d{1,2})\/(\d{4})$` → (first, second, year). -/
def pSlashMdy (s : String) : Option (String × String × String) :=
  match d12Then s.data with
  | some (m, '/' :: r1) =>
    match d12Then r1 with
    | some (d, '/' :: r2) =>
      match d4Then r2 with
      | some (y, []) => some (m, d, y)
      | _ => none
    | _ => none
  | _ => none

/-- `^(\d{1,2})\/(\d{4})$` → (month, year). -/
def pMmYyyy (s : String) : Option (String × String) :=
  match d12Then s.data with
  | some (m, '/' :: r1) =>
    match d4Then r1 with
    | some (y, []) => some (m, y)
    | _ => none
  | _ => none

/-- `^(\d{4})\/(\d{1,2})$` → (year, month). -/
def pYyyyMmSlash (s : String) : Option (String × String) :=
  match d4Then s.data with
  | some (y, '/' :: r1) =>
    match d12Then r1 with
    | some (m, []) => some (y, m)
    | _ => none
  | _ => none

/-- `normalizeExpiry` of `labelFormats.ts`. -/
def normalizeExpiry (raw : String) : String :=
  match pYyyyMmm raw with
  | some (y, m) => y ++ "-" ++ m
  | none =>
  match pMmmYyyy raw with
  | some (m, y) => y ++ "-" ++ m
  | none =>
  match pMmmYyyyNoSpace raw with
  | some (m, y) => y ++ "-" ++ m
  | none =>
  match pSlashMdy raw with
  | some (m, d, y) => jsSlice0 7 (y ++ "-" ++ padStart2 m ++ "-" ++ padStart2 d)
  | none =>
  match pMmYyyy raw with
  | some (m, y) => y ++ "-" ++ padStart2 m
  | none =>
  match pYyyyMmSlash raw with
  | some (y, m) => y ++ "-" ++ padStart2 m
  | none => raw

structure LabelFormatResult where
  batch_no : Option String := none
  lot_no : Option String := none
  expiry : Option String := none
deriving DecidableEq

structure LabelFormat where
  id : String
  name : String
  extract : String → LabelFormatResult

/-- `JAN|FEB|…|DEC` -/
def monthsRx : Rx :=
  ralt (["JAN", "FEB", "MAR", "APR", "MAY", "JUN",
         "JUL", "AUG", "SEP", "OCT", "NOV", "DEC"].map Rx.lit)

/-- `/\d{4}-\d{2}(-\d{2})?/` -/
def eYyyyMmDash : Rx :=
  rcat [rdig 4 4, rch '-', rdig 2 2, .opt (rcat [rch '-', rdig 2 2])]

/-- `/Lot\s*No\.?\s*:?\s*(\d{6,14})/i` -/
def eGs1Lot : Rx :=
  rcat [.lit "Lot", ws0, .lit "No", .opt (rch '.'), ws0, .opt (rch ':'), ws0,
        .grp 1 (rdig 6 14)]

/-- `/\d{6,14}/g` -/
def eDigits614 : Rx := rdig 6 14

/-- `/\b([A-Za-z][A-Za-z0-9]{2,7})\b/g` -/
def eWord : Rx :=
  rcat [.wb, .grp 1 (rcat [.cls .alpha, .rep .alnum 2 (some 7) false]), .wb]

/-- `/\b(\d{6})\b/` -/
def eSix : Rx := rcat [.wb, .grp 1 (rdig 6 6), .wb]

/-- `/\b(\d{4}-(?:JAN|…|DEC))\b/i` -/
def eY4Mmm : Rx := rcat [.wb, .grp 1 (rcat [rdig 4 4, rch '-', monthsRx]), .wb]

/-- `/LOT\s+(\d{6})/i` -/
def eLotSix : Rx := rcat [.lit "LOT", ws1, .grp 1 (rdig 6 6)]

/-- `/EXP\s+(JAN|…|DEC)\s+(\d{4})/i` -/
def eExpMmmYyyy : Rx :=
  rcat [.lit "EXP", ws1, .grp 1 monthsRx, ws1, .grp 2 (rdig 4 4)]

/-- `/EXP\s+(JAN|…|DEC)(\d{4})/i` -/
def eExpMmmYyyyNoSpace : Rx :=
  rcat [.lit "EXP", ws1, .grp 1 monthsRx, .grp 2 (rdig 4 4)]

/-- `/LOT\s*NUMBER\s*:?\s*([A-Z0-9]{6,15})/i` -/
def eLotNumber : Rx :=
  rcat [.lit "LOT", ws0, .lit "NUMBER", ws0, .opt (rch ':'), ws0,
        .grp 1 (.rep .upperNum 6 (some 15) false)]

/-- `/EXPIRATION\s*DATE\s*:?\s*(\d{4}\/\d{1,2})/i` -/
def eExpirationDate : Rx :=
  rcat [.lit "EXPIRATION", ws0, .lit "DATE", ws0, .opt (rch ':'), ws0,
        .grp 1 (rcat [rdig 4 4, rch '/', rdig 1 2])]

/-- `/LOT\s*#?\s*:?\s*([A-Za-z0-9]{4,14})/i` -/
def eLotHash : Rx :=
  rcat [.lit "LOT", ws0, .opt (rch '#'), ws0, .opt (rch ':'), ws0,
        .grp 1 (.rep .alnum 4 (some 14) false)]

/-- `/(?:EXP?\.?\s*:?\s*)?(\d{1,2}\/\d{4})(?:\s|$)/i` -/
def eExpSlash : Rx :=
  rcat [.opt (rcat [.lit "EX", .opt (rch 'P'), .opt (rch '.'), ws0, .opt (rch ':'), ws0]),
        .grp 1 (rcat [rdig 1 2, rch '/', rdig 4 4]),
        .alt (.cls .space) .eos]

/-- `/(\d{1,2}\/\d{4})/` -/
def eSlashPlain : Rx := .grp 1 (rcat [rdig 1 2, rch '/', rdig 4 4])

/-- `/\b(\d{3,5})\b/g` -/
def eDigits35 : Rx := rcat [.wb, .grp 1 (rdig 3 5), .wb]

/-- Drop the dash characters (the source's global dash replace). -/
def stripDashes (s : String) : String := String.mk (s.data.filter (fun c => c ≠ '-'))

/-- Drop dash and slash characters (the source's global dash and slash replaces). -/
def stripDashSlash (s : String) : String :=
  String.mk (s.data.filter (fun c => c ≠ '-' && c ≠ '/'))

/-- `.sort((a, b) => b.length - a.length)[0]`: the head of a stable sort by
descending length is the first string of maximal length. -/
def pickLongest (l : List String) : Option String :=
  l.foldl
    (fun acc s =>
      match acc with
      | none => some s
      | some b => if jsLen s > jsLen b then some s else acc)
    none

/-- The `gs1Style` format. -/
def gs1Style : LabelFormat :=
  { id := "gs1_style", name := "GS1-style (Lot No., Exp. YYYY-MM)",
    extract := fun t =>
      let out0 : LabelFormatResult := {}
      let out1 :=
        match jsMatch false eYyyyMmDash t with
        | some m => { out0 with expiry := some (jsSlice0 7 m.whole) }
        | none => out0
      let out2 :=
        match jsMatch true eGs1Lot t with
        | some m => { out1 with lot_no := some (m.grpD 1) }
        | none =>
          let digitStrings := jsMatchAll false eDigits614 t
          let expiryDigits := stripDashes (out1.expiry.getD "")
          match pickLongest (digitStrings.filter (fun s => s ≠ expiryDigits)) with
          | some lot => { out1 with lot_no := some lot }
          | none => out1
      match (jsMatchAll false eWord t).find?
          (fun w => w.data.any jsIsAlphaAscii && w.data.any jsIsDigit) with
      | some w => { out2 with batch_no := some (jsUpper w) }
      | none => out2 }

/-- The `numericLotYyyyMmm` format. -/
def numericLotYyyyMmm : LabelFormat :=
  { id := "numeric_lot_yyyy_mmm", name := "6-digit batch/lot, YYYY-MMM expiry",
    extract := fun t =>
      let out0 : LabelFormatResult := {}
      let out1 :=
        match jsMatch false eSix t with
        | some m => { out0 with batch_no := some (m.grpD 1), lot_no := some (m.grpD 1) }
        | none => out0
      match jsMatch true eY4Mmm t with
      | some m => { out1 with expiry := some (normalizeExpiry (m.grpD 1)) }
      | none => out1 }

/-- The `lotExpMmmYyyy` format. -/
def lotExpMmmYyyy : LabelFormat :=
  { id := "lot_exp_mmm_yyyy", name := "LOT 6digits / EXP MMM YYYY",
    extract := fun t =>
      let out0 : LabelFormatResult := {}
      let out1 :=
        match jsMatch true eLotSix t with
        | some m => { out0 with lot_no := some (m.grpD 1) }
        | none => out0
      let out2 :=
        match jsMatch true eExpMmmYyyy t with
        | some m => { out1 with expiry := some (normalizeExpiry (m.grpD 1 ++ " " ++ m.grpD 2)) }
        | none => out1
      if !(jsTruthyO out2.expiry) then
        match jsMatch true eExpMmmYyyyNoSpace t with
        | some m => { out2 with expiry := some (normalizeExpiry (m.grpD 1 ++ m.grpD 2)) }
        | none => out2
      else out2 }

/-- The `lotNumberExpirationDate` format. -/
def lotNumberExpirationDate : LabelFormat :=
  { id := "lot_number_expiration_date", name := "LOT NUMBER / EXPIRATION DATE YYYY/MM",
    extract := fun t =>
      let out0 : LabelFormatResult := {}
      let out1 :=
        match jsMatch true eLotNumber t with
        | some m => { out0 with lot_no := some (jsTrim (m.grpD 1)) }
        | none => out0
      match jsMatch true eExpirationDate t with
      | some m => { out1 with expiry := some (normalizeExpiry (m.grpD 1)) }
      | none => out1 }

/-- The `lotHashExpSlash` format. -/
def lotHashExpSlash : LabelFormat :=
  { id := "lot_hash_exp_slash", name := "LOT # / EXP MM/YYYY",
    extract := fun t =>
      let out0 : LabelFormatResult := {}
      let out1 :=
        match jsMatch true eLotHash t with
        | some m => { out0 with lot_no := some (jsUpper (m.grpD 1)) }
        | none => out0
      let expSlash :=
        match jsMatch true eExpSlash t with
        | some m => some m
        | none => jsMatch false eSlashPlain t
      let out2 :=
        match expSlash with
        | some m => { out1 with expiry := some (normalizeExpiry (m.grpD 1)) }
        | none => out1
      let expiryDigits := stripDashSlash (out2.expiry.getD "")
      match (jsMatchAll false eDigits35 t).find?
          (fun s => out2.lot_no ≠ some s && !(jsStartsWith s expiryDigits)) with
      | some d => { out2 with batch_no := some d }
      | none => out2 }

/-- The `fallback` format. -/
def fallback : LabelFormat :=
  { id := "fallback", name := "Fallback (generic patterns)",
    extract := fun t =>
      let out0 : LabelFormatResult := {}
      let out1 :=
        match jsMatch false eYyyyMmDash t with
        | some m => { out0 with expiry := some (jsSlice0 7 m.whole) }
        | none =>
          match jsMatch false eSlashPlain t with
          | some m => { out0 with expiry := some (normalizeExpiry (m.grpD 1)) }
          | none => out0
      let expiryDigits := stripDashSlash (out1.expiry.getD "")
      let out2 :=
        if !(jsTruthyO out1.lot_no) then
          match jsMatch true eLotHash t with
          | some m => { out1 with lot_no := some (jsUpper (m.grpD 1)) }
          | none =>
            let digitStrings := jsMatchAll false eDigits614 t
            match pickLongest (digitStrings.filter
                (fun s => s ≠ expiryDigits && !(jsStartsWith s expiryDigits))) with
            | some lot => { out1 with lot_no := some lot }
            | none => out1
        else out1
      if !(jsTruthyO out2.batch_no) then
        match (jsMatchAll false eWord t).find?
            (fun w => w.data.any jsIsAlphaAscii && w.data.any jsIsDigit) with
        | some w => { out2 with batch_no := some (jsUpper w) }
        | none =>
          match (jsMatchAll false eDigits35 t).find?
              (fun s => out2.lot_no ≠ some s && !(jsStartsWith s expiryDigits)) with
          | some d => { out2 with batch_no := some d }
          | none => out2
      else out2 }

/-- `LABEL_FORMATS` — all formats in priority order. -/
def LABEL_FORMATS : List LabelFormat :=
  [gs1Style, numericLotYyyyMmm, lotExpMmmYyyy, lotNumberExpirationDate,
   lotHashExpSlash, fallback]

/-- `score`: the number of non-empty fields among batch, lot, expiry. -/
def score (r : LabelFormatResult) : Nat :=
  (if jsTruthyO (r.batch_no.map jsTrim) then 1 else 0) +
  (if jsTruthyO (r.lot_no.map jsTrim) then 1 else 0) +
  (if jsTruthyO (r.expiry.map jsTrim) then 1 else 0)

/-- One step of the selection loop: replace only on a strictly larger score. -/
def selStep (acc : LabelFormatResult × Nat) (r : LabelFormatResult) :
    LabelFormatResult × Nat :=
  if score r > acc.2 then (r, score r) else acc

/-- The selection loop of `extractLabelFromOcr`: start from `best = {}`,
`bestScore = 0`. -/
def selectBest (rs : List LabelFormatResult) : LabelFormatResult × Nat :=
  rs.foldl selStep ({}, 0)

/-- `/^[A-Z0-9]{2,10}$/i` as a whole-line test. -/
def isShortToken (s : String) : Bool :=
  2 ≤ jsLen s && jsLen s ≤ 10 && s.data.all jsIsAlnum

structure OcrOut where
  batch_no : String
  lot_no : String
  expiry : String
deriving DecidableEq

/-- `extractLabelFromOcr`. -/
def extractLabelFromOcr (ocrText : String) : OcrOut :=
  let t := jsTrim (jsCollapseWs ocrText)
  let lines := ((jsSplitLines ocrText).map jsTrim).filter (fun s => !s.isEmpty)
  let best := (selectBest (LABEL_FORMATS.map (fun f => f.extract t))).1
  let firstLine : Option String :=
    match lines with
    | [] => none
    | l0 :: _ => if isShortToken l0 then some l0 else none
  let best2 :=
    match firstLine with
    | some fl =>
      if !(jsTruthyO best.batch_no) && best.lot_no ≠ some fl && best.expiry ≠ some fl then
        { best with batch_no := some fl }
      else best
    | none => best
  { batch_no := jsTrim (best2.batch_no.getD ""),
    lot_no := jsTrim (best2.lot_no.getD ""),
    expiry := jsTrim (best2.expiry.getD "") }

end LabelFormats

/-! ## `labelPatterns.ts` — Scandit field definitions and
`normalizeExpiryForMapping` -/

namespace LabelPatterns

inductive OutputKey
  | batch_no | lot_no | expiry | serial | ref
deriving DecidableEq

structure ScanditFieldDefinition where
  scanditFieldName : String
  anchorRegexes : List String
  valueRegexes : List String
  optional : Bool
  outputKeys : List OutputKey

/-- `SCANDIT_FIELD_DEFINITIONS` (regex sources kept as data; only
`scanditFieldName` and `outputKeys` are read by the mapper). -/
def SCANDIT_FIELD_DEFINITIONS : List ScanditFieldDefinition :=
  [ { scanditFieldName := "Lot no",
      anchorRegexes := ["Lot\\s*(No\\.?|Number|#)?\\s*:?\\s*"],
      valueRegexes := ["[0-9]{4,14}", "[0-9A-Za-z]{4,14}"],
      optional := true, outputKeys := [.lot_no] },
    { scanditFieldName := "Expiry",
      anchorRegexes := ["(Exp\\.?|Expiry|Expiration|Use\\s*[- ]?By)\\s*:?\\s*"],
      valueRegexes := ["[0-9]{4}-[0-9]{2}(-[0-9]{2})?",
                       "[0-9]{2}/[0-9]{2}/[0-9]{4}",
                       "[0-9]{2}-[0-9]{2}-[0-9]{4}"],
      optional := true, outputKeys := [.expiry] },
    { scanditFieldName := "Product code",
      anchorRegexes := [],
      valueRegexes := ["[A-Za-z]+[0-9][A-Za-z0-9]{2,}"],
      optional := true, outputKeys := [.batch_no, .lot_no] },
    { scanditFieldName := "Batch no",
      anchorRegexes := ["Batch\\s*no\\s*:?"],
      valueRegexes := ["[0-9A-Za-z]{3,15}"],
      optional := true, outputKeys := [.batch_no] },
    { scanditFieldName := "Ref no",
      anchorRegexes := ["REF\\s*(No\\.?|Number|#)?\\s*:?\\s*", "Reference\\s*:?\\s*"],
      valueRegexes := ["[0-9]{4,12}", "[A-Za-z0-9]{4,15}"],
      optional := true, outputKeys := [.ref] },
    { scanditFieldName := "Batch/Lot (numeric)",
      anchorRegexes := [],
      valueRegexes := ["[0-9]{6}"],
      optional := true, outputKeys := [.batch_no, .lot_no] },
    { scanditFieldName := "Expiry (YYYY-MMM)",
      anchorRegexes := [],
      valueRegexes := ["[0-9]{4}-(JAN|FEB|MAR|APR|MAY|JUN|JUL|AUG|SEP|OCT|NOV|DEC)"],
      optional := true, outputKeys := [.expiry] },
    { scanditFieldName := "Lot no (LOT prefix)",
      anchorRegexes := ["LOT\\s+"],
      valueRegexes := ["[0-9]{6,15}"],
      optional := true, outputKeys := [.lot_no] },
    { scanditFieldName := "Expiry (EXP MMM YYYY)",
      anchorRegexes := ["EXP\\s+"],
      valueRegexes := ["(JAN|FEB|MAR|APR|MAY|JUN|JUL|AUG|SEP|OCT|NOV|DEC)\\s+[0-9]{4}",
                       "(JAN|FEB|MAR|APR|MAY|JUN|JUL|AUG|SEP|OCT|NOV|DEC)[0-9]{4}"],
      optional := true, outputKeys := [.expiry] },
    { scanditFieldName := "Expiry (EXP MM/YY)",
      anchorRegexes := ["EXP\\s+"],
      valueRegexes := ["[0-9]{1,2}/[0-9]{2}"],
      optional := true, outputKeys := [.expiry] },
    { scanditFieldName := "Lot no (LOT NUMBER)",
      anchorRegexes := ["LOT\\s*NUMBER\\s*:?\\s*"],
      valueRegexes := ["[A-Z0-9]{6,15}"],
      optional := true, outputKeys := [.lot_no] },
    { scanditFieldName := "Serial no",
      anchorRegexes := ["Serial\\s*(No\\.?|Number|#)?\\s*:?\\s*", "SN\\s*:?\\s*", "S/N\\s*:?\\s*"],
      valueRegexes := ["[0-9]{10,20}", "[A-Za-z0-9]{8,20}"],
      optional := true, outputKeys := [.serial] },
    { scanditFieldName := "Expiry (EXPIRATION DATE)",
      anchorRegexes := ["EXPIRATION\\s*DATE\\s*:?\\s*"],
      valueRegexes := ["[0-9]{4}/[0-9]{2}", "[0-9]{4}-[0-9]{2}"],
      optional := true, outputKeys := [.expiry] } ]

/-- `MONTH_NAME_TO_NUM` lookup (case-sensitive; the caller upper-cases first). -/
def monLookupCS (a b c : Char) : Option String :=
  if a = 'J' ∧ b = 'A' ∧ c = 'N' then some "01"
  else if a = 'F' ∧ b = 'E' ∧ c = 'B' then some "02"
  else if a = 'M' ∧ b = 'A' ∧ c = 'R' then some "03"
  else if a = 'A' ∧ b = 'P' ∧ c = 'R' then some "04"
  else if a = 'M' ∧ b = 'A' ∧ c = 'Y' then some "05"
  else if a = 'J' ∧ b = 'U' ∧ c = 'N' then some "06"
  else if a = 'J' ∧ b = 'U' ∧ c = 'L' then some "07"
  else if a = 'A' ∧ b = 'U' ∧ c = 'G' then some "08"
  else if a = 'S' ∧ b = 'E' ∧ c = 'P' then some "09"
  else if a = 'O' ∧ b = 'C' ∧ c = 'T' then some "10"
  else if a = 'N' ∧ b = 'O' ∧ c = 'V' then some "11"
  else if a = 'D' ∧ b = 'E' ∧ c = 'C' then some "12"
  else none

/-- `^(\d{4})-(JAN|…|DEC)$` (applied to the upper-cased input). -/
def pYyyyMmmU (s : String) : Option (String × String) :=
  match s.data with
  | [y1, y2, y3, y4, '-', m1, m2, m3] =>
    if jsIsDigit y1 && jsIsDigit y2 && jsIsDigit y3 && jsIsDigit y4 then
      (monLookupCS m1 m2 m3).map (fun m => (String.mk [y1, y2, y3, y4], m))
    else none
  | _ => none

/-- `^(JAN|…|DEC)\s+(\d{4})$` -/
def pMmmYyyyU (s : String) : Option (String × String) :=
  match s.data with
  | m1 :: m2 :: m3 :: rest =>
    match monLookupCS m1 m2 m3 with
    | some m => (LabelFormats.afterSpaces4 rest).map (fun y => (m, y))
    | none => none
  | _ => none

/-- `^(JAN|…|DEC)(\d{4})$` -/
def pMmmYyyyNoSpaceU (s : String) : Option (String × String) :=
  match s.data with
  | [m1, m2, m3, y1, y2, y3, y4] =>
    match monLookupCS m1 m2 m3 with
    | some m =>
      if jsIsDigit y1 && jsIsDigit y2 && jsIsDigit y3 && jsIsDigit y4 then
        some (m, String.mk [y1, y2, y3, y4])
      else none
    | none => none
  | _ => none

/-- `^(\d{1,2})\/(\d{2})$` → (month part, two-digit year). -/
def pMmYy (s : String) : Option (String × String) :=
  match LabelFormats.d12Then s.data with
  | some (m, '/' :: r1) =>
    match r1 with
    | [a, b] => if jsIsDigit a && jsIsDigit b then some (m, String.mk [a, b]) else none
    | _ => none
  | _ => none

/-- `normalizeExpiryForMapping`. -/
def normalizeExpiryForMapping (value : String) : String :=
  let v := jsUpper (jsTrim value)
  match pYyyyMmmU v with
  | some (y, m) => y ++ "-" ++ m
  | none =>
  match pMmmYyyyU v with
  | some (m, y) => y ++ "-" ++ m
  | none =>
  match pMmmYyyyNoSpaceU v with
  | some (m, y) => y ++ "-" ++ m
  | none =>
  match LabelFormats.pYyyyMmSlash v with
  | some (y, m) => y ++ "-" ++ padStart2 m
  | none =>
  match pMmYy v with
  | some (mmRaw, yyS) =>
    let mm := padStart2 mmRaw
    let yy := digitsToNat yyS
    let yyyy := if yy ≤ 99 then (if yy ≥ 50 then 1900 + yy else 2000 + yy) else yy
    let monthNum := digitsToNat mm
    if 1 ≤ monthNum && monthNum ≤ 12 then toString yyyy ++ "-" ++ mm else value
  | none => value

end LabelPatterns

/-! ## The Scandit field mapper (`scanditFieldsToLabelJson` and helpers) -/

namespace ScanditMap

open Rex LabelPatterns

structure LabelJson where
  batch_no : String
  lot_no : String
  expiry : String
  upc_gtin : Option String := none
  serial : Option String := none
  ref : Option String := none
deriving DecidableEq

structure ScanditField where
  name : String
  value : String
deriving DecidableEq

/-- `FIELD_TO_OUTPUT_KEYS[name]` — built by `Object.fromEntries` over the
definitions; field names are unique, so first-match lookup is the map. -/
def fieldToOutputKeys (name : String) : Option (List OutputKey) :=
  (SCANDIT_FIELD_DEFINITIONS.find? (fun d => d.scanditFieldName = name)).map
    (·.outputKeys)

/-- `isLikelyYYMMDD`. -/
def isLikelyYYMMDD (s : String) : Bool :=
  match s.data with
  | [a, b, c, d, e, f] =>
    if jsIsDigit a && jsIsDigit b && jsIsDigit c && jsIsDigit d &&
       jsIsDigit e && jsIsDigit f then
      let mm := digitsToNat (String.mk [c, d])
      let dd := digitsToNat (String.mk [e, f])
      1 ≤ mm && mm ≤ 12 && 1 ≤ dd && dd ≤ 31
    else false
  | _ => false

/-- `isProductCodeMisread`: ≤ 3 characters after trimming, or one of the
fixed OCR confusions (`/^L0?T$/`, `/^EXP?$/`, `/^E1P$/`, `LOT`,
`/^LAY0?UT$/`, `LAYOUT` on the upper-cased value). -/
def isProductCodeMisread (value : String) : Bool :=
  let s := jsTrim value
  if jsLen s ≤ 3 then true
  else
    let u := jsUpper s
    if u = "LT" || u = "L0T" || u = "EX" || u = "EXP" || u = "E1P" || u = "LOT" then true
    else if u = "LAYUT" || u = "LAY0UT" || u = "LAYOUT" then true
    else false

/-- `^(\d{4})-(\d{1,2})(-(\d{1,2}))?$` → (year, month part). -/
def pYyyyMmOpt (s : String) : Option (String × String) :=
  match LabelFormats.d4Then s.data with
  | some (y, '-' :: r1) =>
    match LabelFormats.d12Then r1 with
    | some (m, []) => some (y, m)
    | some (m, '-' :: r2) =>
      match LabelFormats.d12Then r2 with
      | some (_, []) => some (y, m)
      | _ => none
    | _ => none
  | _ => none

/-- `^(\d{1,2})-(\d{1,2})-(\d{4})$` → (first, second, year). -/
def pDashDmy (s : String) : Option (String × String × String) :=
  match LabelFormats.d12Then s.data with
  | some (d, '-' :: r1) =>
    match LabelFormats.d12Then r1 with
    | some (m, '-' :: r2) =>
      match LabelFormats.d4Then r2 with
      | some (y, []) => some (d, m, y)
      | _ => none
    | _ => none
  | _ => none

/-- The mapper's `normalizeExpiry`: `normalizeExpiryForMapping` first, then
`YYYY-M[M][-D[D]]`, `MM/DD/YYYY`, `DD-MM-YYYY`, `MM/YYYY`. -/
def normalizeExpiry (value : String) : String :=
  let v := jsTrim value
  let fromMmm := normalizeExpiryForMapping v
  if fromMmm ≠ v then fromMmm
  else
    match pYyyyMmOpt v with
    | some (y, m) => y ++ "-" ++ padStart2 m
    | none =>
    match LabelFormats.pSlashMdy v with
    | some (m, _, y) => y ++ "-" ++ padStart2 m
    | none =>
    match pDashDmy v with
    | some (_, m2, y) => y ++ "-" ++ padStart2 m2
    | none =>
    match LabelFormats.pMmYyyy v with
    | some (m, y) => y ++ "-" ++ padStart2 m
    | none => v

/-- The lot-anchor alternation of `parseLotAndExpiryFromRaw`:
`(?:Lot\s*(?:No\.?|Number|#)?\s*:?|LOT\s*NO\.?\s*:?|LOT\s*NUMBER\s*:?|LOT\s+)\s*([0-9A-Za-z]{4,15})`, case-insensitive. -/
def rLot : Rx :=
  rcat [ralt
          [rcat [.lit "Lot", ws0,
                 .opt (ralt [rcat [.lit "No", .opt (rch '.')], .lit "Number", rch '#']),
                 ws0, .opt (rch ':')],
           rcat [.lit "LOT", ws0, .lit "NO", .opt (rch '.'), ws0, .opt (rch ':')],
           rcat [.lit "LOT", ws0, .lit "NUMBER", ws0, .opt (rch ':')],
           rcat [.lit "LOT", ws1]],
        ws0, .grp 1 (.rep .alnum 4 (some 15) false)]

/-- The big expiry regex of `parseLotAndExpiryFromRaw`:
anchor `(?:Exp\.?|Expiry|Expiration(?:\s*DATE)?|Use\s*[- ]?By|EXP\s+)` then
`\s*:?\s*` then the seven date alternatives, case-insensitive. -/
def rExpiry : Rx :=
  rcat [ralt
          [rcat [.lit "Exp", .opt (rch '.')],
           .lit "Expiry",
           rcat [.lit "Expiration", .opt (rcat [ws0, .lit "DATE"])],
           rcat [.lit "Use", ws0, .opt (.cls (.oneOf ['-', ' '])), .lit "By"],
           rcat [.lit "EXP", ws1]],
        ws0, .opt (rch ':'), ws0,
        .grp 1 (ralt
          [rcat [rdig 4 4, rch '-', rdig 2 2, .opt (rcat [rch '-', rdig 2 2])],
           rcat [rdig 4 4, rch '/', rdig 1 2, .opt (rcat [rch '/', rdig 2 4])],
           rcat [rdig 4 4, rch '-', LabelFormats.monthsRx],
           rcat [LabelFormats.monthsRx, ws1, rdig 4 4],
           rcat [LabelFormats.monthsRx, rdig 4 4],
           rcat [rdig 1 2, rch '/', rdig 1 2, rch '/', rdig 4 4],
           rcat [rdig 1 2, rch '-', rdig 1 2, rch '-', rdig 4 4]])]

/-- `/\b(EXP\s+)?(JAN|…|DEC)\s+(\d{4})\b/i` -/
def rMmmY4wb : Rx :=
  rcat [.wb, .opt (.grp 1 (rcat [.lit "EXP", ws1])), .grp 2 LabelFormats.monthsRx,
        ws1, .grp 3 (rdig 4 4), .wb]

/-- `/\bEXP\s+(JAN|…|DEC)(\d{4})\b/i` -/
def rExpMmmY4NoSp : Rx :=
  rcat [.wb, .lit "EXP", ws1, .grp 1 LabelFormats.monthsRx, .grp 2 (rdig 4 4), .wb]

/-- `/\bEXP\s*(\d{1,2}\/\d{2})\b/i` -/
def rExpMmYy : Rx :=
  rcat [.wb, .lit "EXP", ws0, .grp 1 (rcat [rdig 1 2, rch '/', rdig 2 2]), .wb]

/-- `parseLotAndExpiryFromRaw`. -/
def parseLotAndExpiryFromRaw (raw : String) : String × String :=
  let lot1 :=
    match jsMatch true rLot raw with
    | some m => jsTrim (m.grpD 1)
    | none => ""
  let lot2 :=
    if lot1 = "" then
      match jsMatch false LabelFormats.eSix raw with
      | some m => m.grpD 1
      | none => ""
    else lot1
  let e1 :=
    match jsMatch true rExpiry raw with
    | some m => normalizeExpiry (m.grpD 1)
    | none => ""
  let e2 :=
    if e1 = "" then
      match jsMatch true LabelFormats.eY4Mmm raw with
      | some m => normalizeExpiry (m.grpD 1)
      | none => ""
    else e1
  let e3 :=
    if e2 = "" then
      match jsMatch true rMmmY4wb raw with
      | some m => normalizeExpiry (m.grpD 2 ++ " " ++ m.grpD 3)
      | none => ""
    else e2
  let e4 :=
    if e3 = "" then
      match jsMatch true rExpMmmY4NoSp raw with
      | some m => normalizeExpiry (m.grpD 1 ++ m.grpD 2)
      | none => ""
    else e3
  let e5 :=
    if e4 = "" then
      match jsMatch true rExpMmYy raw with
      | some m => normalizeExpiry (m.grpD 1)
      | none => ""
    else e4
  (lot2, e5)

/-- `SERIAL_FROM_RAW_REGEX`:
`(?:Serial\s*(?:No\.?|Number|#)?\s*:?|SN\s*:?|S\/N\s*:?)\s*([A-Za-z0-9]{8,20})`,
case-insensitive. -/
def rSerial : Rx :=
  rcat [ralt
          [rcat [.lit "Serial", ws0,
                 .opt (ralt [rcat [.lit "No", .opt (rch '.')], .lit "Number", rch '#']),
                 ws0, .opt (rch ':')],
           rcat [.lit "SN", ws0, .opt (rch ':')],
           rcat [.lit "S/N", ws0, .opt (rch ':')]],
        ws0, .grp 1 (.rep .alnum 8 (some 20) false)]

/-- `parseSerialFromRaw`. -/
def parseSerialFromRaw (raw : String) : String :=
  match jsMatch true rSerial raw with
  | some m => jsTrim (m.grpD 1)
  | none => ""

/-- Mutable state of the field loop of `scanditFieldsToLabelJson`. -/
structure MapState where
  json : LabelJson
  lines : List String
  barcodes : List String
deriving DecidableEq

def setKey (j : LabelJson) (k : OutputKey) (v : String) : LabelJson :=
  match k with
  | .batch_no => { j with batch_no := v }
  | .lot_no => { j with lot_no := v }
  | .expiry => { j with expiry := v }
  | .serial => { j with serial := some v }
  | .ref => { j with ref := some v }

/-- One iteration of the `for (const f of fields)` loop. -/
def processField (st : MapState) (f : ScanditField) : MapState :=
  let v := jsTrim f.value
  let isMisread := f.name = "Product code" && isProductCodeMisread v
  let lines := if !isMisread then st.lines ++ [f.name ++ ": " ++ f.value] else st.lines
  if f.name = "Barcode" then { st with lines, barcodes := st.barcodes ++ [v] }
  else
    match fieldToOutputKeys f.name with
    | some outputKeys =>
      let valueToSet := if outputKeys.contains OutputKey.expiry then normalizeExpiry v else v
      if f.name = "Product code" && isProductCodeMisread v then { st with lines }
      else if f.name = "Batch/Lot (numeric)" && isLikelyYYMMDD v then
        { st with lines, json := { st.json with expiry := v } }
      else
        { st with lines, json := outputKeys.foldl (fun j k => setKey j k valueToSet) st.json }
    | none =>
      if f.name = "Expiry Date" then
        { st with lines, json := { st.json with expiry := normalizeExpiry v } }
      else { st with lines }

/-- `^\d{5,7}$` on the whitespace-stripped value. -/
def isDigits57 (s : String) : Bool :=
  5 ≤ jsLen s && jsLen s ≤ 7 && s.data.all jsIsDigit

/-- `^\d{6,14}$` -/
def isDigits614 (s : String) : Bool :=
  6 ≤ jsLen s && jsLen s ≤ 14 && s.data.all jsIsDigit

/-- `^\(?01\)?\s*(\d{13,14})$` (each optional bracket is forced when present,
since skipping it cannot lead to a match). -/
def gtinFromAi (s : String) : Option String :=
  let l := s.data
  let l1 := match l with | '(' :: r => r | _ => l
  match l1 with
  | '0' :: '1' :: r2 =>
    let r3 := match r2 with | ')' :: r => r | _ => r2
    let r4 := r3.dropWhile jsIsSpace
    let run := r4.takeWhile jsIsDigit
    if (run.length = 13 || run.length = 14) && r4.drop run.length = [] then
      some (String.mk run)
    else none
  | _ => none

/-- The trailing clean-up of `scanditFieldsToLabelJson`: a barcode (`upc_gtin`)
or reference value must not appear as `batch_no` or `lot_no`. -/
def applyBarcodeRefClear (j : LabelJson) : LabelJson :=
  let j1 :=
    if jsTruthyO j.upc_gtin then
      { j with batch_no := if j.upc_gtin = some j.batch_no then "" else j.batch_no,
               lot_no := if j.upc_gtin = some j.lot_no then "" else j.lot_no }
    else j
  if jsTruthyO j1.ref then
    { j1 with batch_no := if j1.ref = some j1.batch_no then "" else j1.batch_no,
              lot_no := if j1.ref = some j1.lot_no then "" else j1.lot_no }
  else j1

structure ScanOut where
  labelJson : LabelJson
  raw : String
deriving DecidableEq

/-- `scanditFieldsToLabelJson`, parameterized by the external GS1 library. -/
def scanditFieldsToLabelJson (lib : String → Gs1.LibOutcome)
    (fields : List ScanditField) : ScanOut :=
  let st := fields.foldl processField
    ⟨{ batch_no := "", lot_no := "", expiry := "" }, [], []⟩
  let json0 := st.json
  let longGs1 : Option String :=
    st.barcodes.find? (fun val =>
      jsLen (stripWs val) ≥ 20 && (Gs1.searchGtin (stripWs val).data).isSome)
  let barcodeValue : String :=
    match longGs1 with
    | some v => v
    | none =>
      match st.barcodes with
      | [] => ""
      | b0 :: bs => bs.foldl (fun a b => if jsLen a ≥ jsLen b then a else b) b0
  let shortBarcode : Option String :=
    st.barcodes.find? (fun val => isDigits57 (stripWs val))
  let json1 :=
    if !(jsTruthyO json0.ref) && shortBarcode.isSome && longGs1.isSome then
      { json0 with ref := some (jsTrim (shortBarcode.getD "")) }
    else json0
  let json2 :=
    if jsLen barcodeValue ≥ 14 then
      match Gs1.parseGs1ToLabelJson lib barcodeValue with
      | some gs1 =>
        let ja := if gs1.batch_no ≠ "" then { json1 with batch_no := gs1.batch_no } else json1
        let jb := if gs1.lot_no ≠ "" then { ja with lot_no := gs1.lot_no } else ja
        let jc := if gs1.expiry ≠ "" then { jb with expiry := gs1.expiry } else jb
        let jd := if jsTruthyO gs1.upc_gtin then { jc with upc_gtin := gs1.upc_gtin } else jc
        if jsTruthyO gs1.serial then { jd with serial := gs1.serial } else jd
      | none => json1
    else json1
  let json3 :=
    if !(jsTruthyO json2.upc_gtin) && barcodeValue ≠ "" then
      let trimmed := jsTrim barcodeValue
      match gtinFromAi trimmed with
      | some g => { json2 with upc_gtin := some g }
      | none =>
        let digits := stripWs barcodeValue
        if isDigits614 digits then { json2 with upc_gtin := some digits } else json2
    else json2
  let raw0 := String.intercalate "\n" st.lines
  let raw1 :=
    if jsTruthyO json3.serial then
      (if raw0 ≠ "" then raw0 ++ "\nSerial: " ++ json3.serial.getD ""
       else "Serial: " ++ json3.serial.getD "")
    else raw0
  let json4 :=
    if json3.lot_no = "" || json3.expiry = "" then
      let parsed := parseLotAndExpiryFromRaw raw1
      let ja := if json3.lot_no = "" && parsed.1 ≠ "" then { json3 with lot_no := parsed.1 } else json3
      if ja.expiry = "" && parsed.2 ≠ "" then { ja with expiry := parsed.2 } else ja
    else json3
  let json5 :=
    if !(jsTruthyO json4.serial) then
      let s := parseSerialFromRaw raw1
      if s ≠ "" then { json4 with serial := some s } else json4
    else json4
  ⟨applyBarcodeRefClear json5, raw1⟩

end ScanditMap

/-! ## Canonical expiry shapes and supporting lemmas -/

/-- The spec's canonical month form `YYYY-MM` (four digits, dash, two digits). -/
def canonicalYM (s : String) : Bool :=
  match s.data with
  | [y1, y2, y3, y4, '-', m1, m2] =>
    jsIsDigit y1 && jsIsDigit y2 && jsIsDigit y3 && jsIsDigit y4 &&
    jsIsDigit m1 && jsIsDigit m2
  | _ => false

/-- The spec's canonical day form `YYYY-MM-DD`. -/
def canonicalYMD (s : String) : Bool :=
  match s.data with
  | [y1, y2, y3, y4, '-', m1, m2, '-', d1, d2] =>
    jsIsDigit y1 && jsIsDigit y2 && jsIsDigit y3 && jsIsDigit y4 &&
    jsIsDigit m1 && jsIsDigit m2 && jsIsDigit d1 && jsIsDigit d2
  | _ => false

theorem mk_append (a b : List Char) : String.mk a ++ String.mk b = String.mk (a ++ b) := rfl

theorem digit_bounds {c : Char} (h : jsIsDigit c = true) : '0' ≤ c ∧ c ≤ '9' := by
  simpa [jsIsDigit, Bool.and_eq_true, decide_eq_true_eq] using h

theorem digit_ne_of_lt {c d : Char} (h : jsIsDigit c = true) (hd : d < '0') : c ≠ d := by
  rintro rfl
  exact absurd (digit_bounds h).1 (not_le.mpr hd)

theorem digit_ne_of_gt {c d : Char} (h : jsIsDigit c = true) (hd : '9' < d) : c ≠ d := by
  rintro rfl
  exact absurd (digit_bounds h).2 (not_le.mpr hd)

theorem digit_toUpper {c : Char} (h : jsIsDigit c = true) : jsToUpperChar c = c := by
  have h2 := (digit_bounds h).2
  have : ¬('a' ≤ c ∧ c ≤ 'z') := by
    rintro ⟨ha, _⟩
    exact absurd (le_trans ha h2) (by decide)
  simp only [jsToUpperChar, Bool.and_eq_true, decide_eq_true_eq, ite_eq_right_iff]
  intro hc
  exact absurd hc this

theorem canonicalYM_build {y1 y2 y3 y4 p q : Char}
    (h1 : jsIsDigit y1 = true) (h2 : jsIsDigit y2 = true) (h3 : jsIsDigit y3 = true)
    (h4 : jsIsDigit y4 = true) (h5 : jsIsDigit p = true) (h6 : jsIsDigit q = true) :
    canonicalYM (String.mk [y1, y2, y3, y4] ++ "-" ++ String.mk [p, q]) = true := by
  show canonicalYM (String.mk [y1, y2, y3, y4, '-', p, q]) = true
  simp [canonicalYM, h1, h2, h3, h4, h5, h6]

theorem monLookup_digit_none {a b c : Char} (h : jsIsDigit a = true) :
    LabelFormats.monLookup a b c = none := by
  have hu := digit_toUpper h
  have hJ : a ≠ 'J' := digit_ne_of_gt h (by decide)
  have hF : a ≠ 'F' := digit_ne_of_gt h (by decide)
  have hM : a ≠ 'M' := digit_ne_of_gt h (by decide)
  have hA : a ≠ 'A' := digit_ne_of_gt h (by decide)
  have hS : a ≠ 'S' := digit_ne_of_gt h (by decide)
  have hO : a ≠ 'O' := digit_ne_of_gt h (by decide)
  have hN : a ≠ 'N' := digit_ne_of_gt h (by decide)
  have hD : a ≠ 'D' := digit_ne_of_gt h (by decide)
  simp [LabelFormats.monLookup, hu, hJ, hF, hM, hA, hS, hO, hN, hD]

theorem monLookupCS_digit_none {a b c : Char} (h : jsIsDigit a = true) :
    LabelPatterns.monLookupCS a b c = none := by
  have hJ : a ≠ 'J' := digit_ne_of_gt h (by decide)
  have hF : a ≠ 'F' := digit_ne_of_gt h (by decide)
  have hM : a ≠ 'M' := digit_ne_of_gt h (by decide)
  have hA : a ≠ 'A' := digit_ne_of_gt h (by decide)
  have hS : a ≠ 'S' := digit_ne_of_gt h (by decide)
  have hO : a ≠ 'O' := digit_ne_of_gt h (by decide)
  have hN : a ≠ 'N' := digit_ne_of_gt h (by decide)
  have hD : a ≠ 'D' := digit_ne_of_gt h (by decide)
  simp [LabelPatterns.monLookupCS, hJ, hF, hM, hA, hS, hO, hN, hD]

theorem monLookup_digits {a b c : Char} {m : String}
    (h : LabelFormats.monLookup a b c = some m) :
    ∃ p q, jsIsDigit p = true ∧ jsIsDigit q = true ∧ m = String.mk [p, q] := by
  unfold LabelFormats.monLookup at h
  by_cases h0 : jsToUpperChar a = 'J' ∧ jsToUpperChar b = 'A' ∧ jsToUpperChar c = 'N'
  · rw [if_pos h0] at h
    obtain rfl := Option.some.inj h
    exact ⟨'0', '1', by decide, by decide, by decide⟩
  rw [if_neg h0] at h
  by_cases h1 : jsToUpperChar a = 'F' ∧ jsToUpperChar b = 'E' ∧ jsToUpperChar c = 'B'
  · rw [if_pos h1] at h
    obtain rfl := Option.some.inj h
    exact ⟨'0', '2', by decide, by decide, by decide⟩
  rw [if_neg h1] at h
  by_cases h2 : jsToUpperChar a = 'M' ∧ jsToUpperChar b = 'A' ∧ jsToUpperChar c = 'R'
  · rw [if_pos h2] at h
    obtain rfl := Option.some.inj h
    exact ⟨'0', '3', by decide, by decide, by decide⟩
  rw [if_neg h2] at h
  by_cases h3 : jsToUpperChar a = 'A' ∧ jsToUpperChar b = 'P' ∧ jsToUpperChar c = 'R'
  · rw [if_pos h3] at h
    obtain rfl := Option.some.inj h
    exact ⟨'0', '4', by decide, by decide, by decide⟩
  rw [if_neg h3] at h
  by_cases h4 : jsToUpperChar a = 'M' ∧ jsToUpperChar b = 'A' ∧ jsToUpperChar c = 'Y'
  · rw [if_pos h4] at h
    obtain rfl := Option.some.inj h
    exact ⟨'0', '5', by decide, by decide, by decide⟩
  rw [if_neg h4] at h
  by_cases h5 : jsToUpperChar a = 'J' ∧ jsToUpperChar b = 'U' ∧ jsToUpperChar c = 'N'
  · rw [if_pos h5] at h
    obtain rfl := Option.some.inj h
    exact ⟨'0', '6', by decide, by decide, by decide⟩
  rw [if_neg h5] at h
  by_cases h6 : jsToUpperChar a = 'J' ∧ jsToUpperChar b = 'U' ∧ jsToUpperChar c = 'L'
  · rw [if_pos h6] at h
    obtain rfl := Option.some.inj h
    exact ⟨'0', '7', by decide, by decide, by decide⟩
  rw [if_neg h6] at h
  by_cases h7 : jsToUpperChar a = 'A' ∧ jsToUpperChar b = 'U' ∧ jsToUpperChar c = 'G'
  · rw [if_pos h7] at h
    obtain rfl := Option.some.inj h
    exact ⟨'0', '8', by decide, by decide, by decide⟩
  rw [if_neg h7] at h
  by_cases h8 : jsToUpperChar a = 'S' ∧ jsToUpperChar b = 'E' ∧ jsToUpperChar c = 'P'
  · rw [if_pos h8] at h
    obtain rfl := Option.some.inj h
    exact ⟨'0', '9', by decide, by decide, by decide⟩
  rw [if_neg h8] at h
  by_cases h9 : jsToUpperChar a = 'O' ∧ jsToUpperChar b = 'C' ∧ jsToUpperChar c = 'T'
  · rw [if_pos h9] at h
    obtain rfl := Option.some.inj h
    exact ⟨'1', '0', by decide, by decide, by decide⟩
  rw [if_neg h9] at h
  by_cases h10 : jsToUpperChar a = 'N' ∧ jsToUpperChar b = 'O' ∧ jsToUpperChar c = 'V'
  · rw [if_pos h10] at h
    obtain rfl := Option.some.inj h
    exact ⟨'1', '1', by decide, by decide, by decide⟩
  rw [if_neg h10] at h
  by_cases h11 : jsToUpperChar a = 'D' ∧ jsToUpperChar b = 'E' ∧ jsToUpperChar c = 'C'
  · rw [if_pos h11] at h
    obtain rfl := Option.some.inj h
    exact ⟨'1', '2', by decide, by decide, by decide⟩
  rw [if_neg h11] at h
  exact absurd h (by simp)

theorem monLookupCS_digits {a b c : Char} {m : String}
    (h : LabelPatterns.monLookupCS a b c = some m) :
    ∃ p q, jsIsDigit p = true ∧ jsIsDigit q = true ∧ m = String.mk [p, q] := by
  unfold LabelPatterns.monLookupCS at h
  by_cases h0 : a = 'J' ∧ b = 'A' ∧ c = 'N'
  · rw [if_pos h0] at h
    obtain rfl := Option.some.inj h
    exact ⟨'0', '1', by decide, by decide, by decide⟩
  rw [if_neg h0] at h
  by_cases h1 : a = 'F' ∧ b = 'E' ∧ c = 'B'
  · rw [if_pos h1] at h
    obtain rfl := Option.some.inj h
    exact ⟨'0', '2', by decide, by decide, by decide⟩
  rw [if_neg h1] at h
  by_cases h2 : a = 'M' ∧ b = 'A' ∧ c = 'R'
  · rw [if_pos h2] at h
    obtain rfl := Option.some.inj h
    exact ⟨'0', '3', by decide, by decide, by decide⟩
  rw [if_neg h2] at h
  by_cases h3 : a = 'A' ∧ b = 'P' ∧ c = 'R'
  · rw [if_pos h3] at h
    obtain rfl := Option.some.inj h
    exact ⟨'0', '4', by decide, by decide, by decide⟩
  rw [if_neg h3] at h
  by_cases h4 : a = 'M' ∧ b = 'A' ∧ c = 'Y'
  · rw [if_pos h4] at h
    obtain rfl := Option.some.inj h
    exact ⟨'0', '5', by decide, by decide, by decide⟩
  rw [if_neg h4] at h
  by_cases h5 : a = 'J' ∧ b = 'U' ∧ c = 'N'
  · rw [if_pos h5] at h
    obtain rfl := Option.some.inj h
    exact ⟨'0', '6', by decide, by decide, by decide⟩
  rw [if_neg h5] at h
  by_cases h6 : a = 'J' ∧ b = 'U' ∧ c = 'L'
  · rw [if_pos h6] at h
    obtain rfl := Option.some.inj h
    exact ⟨'0', '7', by decide, by decide, by decide⟩
  rw [if_neg h6] at h
  by_cases h7 : a = 'A' ∧ b = 'U' ∧ c = 'G'
  · rw [if_pos h7] at h
    obtain rfl := Option.some.inj h
    exact ⟨'0', '8', by decide, by decide, by decide⟩
  rw [if_neg h7] at h
  by_cases h8 : a = 'S' ∧ b = 'E' ∧ c = 'P'
  · rw [if_pos h8] at h
    obtain rfl := Option.some.inj h
    exact ⟨'0', '9', by decide, by decide, by decide⟩
  rw [if_neg h8] at h
  by_cases h9 : a = 'O' ∧ b = 'C' ∧ c = 'T'
  · rw [if_pos h9] at h
    obtain rfl := Option.some.inj h
    exact ⟨'1', '0', by decide, by decide, by decide⟩
  rw [if_neg h9] at h
  by_cases h10 : a = 'N' ∧ b = 'O' ∧ c = 'V'
  · rw [if_pos h10] at h
    obtain rfl := Option.some.inj h
    exact ⟨'1', '1', by decide, by decide, by decide⟩
  rw [if_neg h10] at h
  by_cases h11 : a = 'D' ∧ b = 'E' ∧ c = 'C'
  · rw [if_pos h11] at h
    obtain rfl := Option.some.inj h
    exact ⟨'1', '2', by decide, by decide, by decide⟩
  rw [if_neg h11] at h
  exact absurd h (by simp)

theorem list_four {l : List Char} (h : l.length = 4) :
    ∃ a b c d, l = [a, b, c, d] := by
  match l, h with
  | [a, b, c, d], _ => exact ⟨a, b, c, d, rfl⟩

theorem afterSpaces4_digits {l : List Char} {y : String}
    (h : LabelFormats.afterSpaces4 l = some y) :
    ∃ y1 y2 y3 y4, jsIsDigit y1 = true ∧ jsIsDigit y2 = true ∧
      jsIsDigit y3 = true ∧ jsIsDigit y4 = true ∧ y = String.mk [y1, y2, y3, y4] := by
  unfold LabelFormats.afterSpaces4 at h
  repeat' split at h
  all_goals simp at h
  subst h
  refine ⟨_, _, _, _, ?_, ?_, ?_, ?_, rfl⟩ <;> simp_all [Bool.and_eq_true]

theorem padStart2_one (a : Char) : padStart2 (String.mk [a]) = String.mk ['0', a] := rfl

theorem padStart2_two (a b : Char) : padStart2 (String.mk [a, b]) = String.mk [a, b] := rfl

theorem d12Then_pad {l : List Char} {m : String} {rest : List Char}
    (h : LabelFormats.d12Then l = some (m, rest)) :
    ∃ p q, jsIsDigit p = true ∧ jsIsDigit q = true ∧ padStart2 m = String.mk [p, q] := by
  unfold LabelFormats.d12Then at h
  repeat' split at h
  all_goals simp at h
  all_goals obtain ⟨hm, hr⟩ := h
  all_goals subst hm
  · exact ⟨'0', _, by decide, by simp_all, padStart2_one _⟩
  · refine ⟨_, _, ?_, ?_, padStart2_two _ _⟩ <;> simp_all [Bool.and_eq_true]
  · exact ⟨'0', _, by decide, by simp_all, padStart2_one _⟩

theorem d4Then_digits {l : List Char} {y : String} {rest : List Char}
    (h : LabelFormats.d4Then l = some (y, rest)) :
    ∃ a b c d, jsIsDigit a = true ∧ jsIsDigit b = true ∧
      jsIsDigit c = true ∧ jsIsDigit d = true ∧ y = String.mk [a, b, c, d] := by
  unfold LabelFormats.d4Then at h
  repeat' split at h
  all_goals simp at h
  obtain ⟨hm, hr⟩ := h
  subst hm
  refine ⟨_, _, _, _, ?_, ?_, ?_, ?_, rfl⟩ <;> simp_all [Bool.and_eq_true]
theorem pYyyyMmm_canon {s : String} {y m : String}
    (h : LabelFormats.pYyyyMmm s = some (y, m)) :
    canonicalYM (y ++ "-" ++ m) = true := by
  unfold LabelFormats.pYyyyMmm at h
  repeat' split at h
  all_goals simp [Option.map_eq_some'] at h
  obtain ⟨hmm, hy⟩ := h
  subst hy
  obtain ⟨p, q, hp, hq, rfl⟩ := monLookup_digits hmm
  exact canonicalYM_build (by simp_all) (by simp_all) (by simp_all) (by simp_all) hp hq

theorem pSlashMdy_canon {s : String} {m d y : String}
    (h : LabelFormats.pSlashMdy s = some (m, d, y)) :
    canonicalYM (jsSlice0 7 (y ++ "-" ++ padStart2 m ++ "-" ++ padStart2 d)) = true := by
  unfold LabelFormats.pSlashMdy at h
  repeat' split at h
  all_goals simp at h
  rename_i x1 mA restA eqA x2 mB restB eqB x3 yC eqC
  obtain ⟨rfl, rfl, rfl⟩ := h
  obtain ⟨p, q, hp, hq, hpm⟩ := d12Then_pad eqA
  obtain ⟨r, t, hr, ht, hpd⟩ := d12Then_pad eqB
  obtain ⟨a, b, c, e, ha, hb, hc, he, hyC⟩ := d4Then_digits eqC
  rw [hpm, hpd, hyC]
  show canonicalYM (String.mk [a, b, c, e, '-', p, q]) = true
  simp [canonicalYM, ha, hb, hc, he, hp, hq]

theorem pMmmYyyy_canon {s : String} {m y : String}
    (h : LabelFormats.pMmmYyyy s = some (m, y)) :
    canonicalYM (y ++ "-" ++ m) = true := by
  unfold LabelFormats.pMmmYyyy at h
  repeat' split at h
  all_goals simp [Option.map_eq_some'] at h
  obtain ⟨hys, hm⟩ := h
  subst hm
  obtain ⟨p, q, hp, hq, rfl⟩ := monLookup_digits (by assumption)
  obtain ⟨a, b, c, e, ha, hb, hc, he, rfl⟩ := afterSpaces4_digits hys
  show canonicalYM (String.mk [a, b, c, e, '-', p, q]) = true
  simp [canonicalYM, ha, hb, hc, he, hp, hq]

theorem pMmmYyyyNoSpace_canon {s : String} {m y : String}
    (h : LabelFormats.pMmmYyyyNoSpace s = some (m, y)) :
    canonicalYM (y ++ "-" ++ m) = true := by
  unfold LabelFormats.pMmmYyyyNoSpace at h
  repeat' split at h
  all_goals simp at h
  obtain ⟨hm, hy⟩ := h
  subst hm
  subst hy
  obtain ⟨p, q, hp, hq, rfl⟩ := monLookup_digits (by assumption)
  exact canonicalYM_build (by simp_all) (by simp_all) (by simp_all) (by simp_all) hp hq

theorem pMmYyyy_canon {s : String} {m y : String}
    (h : LabelFormats.pMmYyyy s = some (m, y)) :
    canonicalYM (y ++ "-" ++ padStart2 m) = true := by
  unfold LabelFormats.pMmYyyy at h
  repeat' split at h
  all_goals simp at h
  rename_i x1 mA restA eqA x2 yB eqB
  obtain ⟨rfl, rfl⟩ := h
  obtain ⟨p, q, hp, hq, hpm⟩ := d12Then_pad eqA
  obtain ⟨a, b, c, e, ha, hb, hc, he, hyB⟩ := d4Then_digits eqB
  rw [hpm, hyB]
  exact canonicalYM_build ha hb hc he hp hq

theorem pYyyyMmSlash_canon {s : String} {y m : String}
    (h : LabelFormats.pYyyyMmSlash s = some (y, m)) :
    canonicalYM (y ++ "-" ++ padStart2 m) = true := by
  unfold LabelFormats.pYyyyMmSlash at h
  repeat' split at h
  all_goals simp at h
  rename_i x1 yA restA eqA x2 mB eqB
  obtain ⟨rfl, rfl⟩ := h
  obtain ⟨a, b, c, e, ha, hb, hc, he, hyA⟩ := d4Then_digits eqA
  obtain ⟨p, q, hp, hq, hpm⟩ := d12Then_pad eqB
  rw [hpm, hyA]
  exact canonicalYM_build ha hb hc he hp hq
theorem pYyyyMmmU_canon {s : String} {y m : String}
    (h : LabelPatterns.pYyyyMmmU s = some (y, m)) :
    canonicalYM (y ++ "-" ++ m) = true := by
  unfold LabelPatterns.pYyyyMmmU at h
  repeat' split at h
  all_goals simp [Option.map_eq_some'] at h
  obtain ⟨hmm, hy⟩ := h
  subst hy
  obtain ⟨p, q, hp, hq, rfl⟩ := monLookupCS_digits hmm
  exact canonicalYM_build (by simp_all) (by simp_all) (by simp_all) (by simp_all) hp hq

theorem pMmmYyyyU_canon {s : String} {m y : String}
    (h : LabelPatterns.pMmmYyyyU s = some (m, y)) :
    canonicalYM (y ++ "-" ++ m) = true := by
  unfold LabelPatterns.pMmmYyyyU at h
  repeat' split at h
  all_goals simp [Option.map_eq_some'] at h
  obtain ⟨hys, hm⟩ := h
  subst hm
  obtain ⟨p, q, hp, hq, rfl⟩ := monLookupCS_digits (by assumption)
  obtain ⟨a, b, c, e, ha, hb, hc, he, rfl⟩ := afterSpaces4_digits hys
  show canonicalYM (String.mk [a, b, c, e, '-', p, q]) = true
  simp [canonicalYM, ha, hb, hc, he, hp, hq]

theorem pMmmYyyyNoSpaceU_canon {s : String} {m y : String}
    (h : LabelPatterns.pMmmYyyyNoSpaceU s = some (m, y)) :
    canonicalYM (y ++ "-" ++ m) = true := by
  unfold LabelPatterns.pMmmYyyyNoSpaceU at h
  repeat' split at h
  all_goals simp at h
  obtain ⟨hm, hy⟩ := h
  subst hm
  subst hy
  obtain ⟨p, q, hp, hq, rfl⟩ := monLookupCS_digits (by assumption)
  exact canonicalYM_build (by simp_all) (by simp_all) (by simp_all) (by simp_all) hp hq

theorem pMmYy_pad {s : String} {m yy : String}
    (h : LabelPatterns.pMmYy s = some (m, yy)) :
    (∃ p q, jsIsDigit p = true ∧ jsIsDigit q = true ∧ padStart2 m = String.mk [p, q]) ∧
    (∃ a b, jsIsDigit a = true ∧ jsIsDigit b = true ∧ yy = String.mk [a, b]) := by
  unfold LabelPatterns.pMmYy at h
  repeat' split at h
  all_goals simp at h
  rename_i x0 mS r1L cA cB heqd hcond
  obtain ⟨rfl, rfl⟩ := h
  refine ⟨d12Then_pad heqd, cA, cB, ?_, ?_, rfl⟩ <;> simp_all [Bool.and_eq_true]

/-- For every two-digit year, both pivot results render as four digit
characters (`Nat.repr` of 19xx and 20xx). -/
theorem reprYear_digits : ∀ yy : Nat, yy < 100 →
    ((toString (1900 + yy)).data.length = 4 ∧ (toString (1900 + yy)).data.all jsIsDigit = true) ∧
    ((toString (2000 + yy)).data.length = 4 ∧ (toString (2000 + yy)).data.all jsIsDigit = true) := by
  decide

theorem canonicalYM_of_shape {y m : String}
    (hy : y.data.length = 4 ∧ y.data.all jsIsDigit = true)
    (hm : ∃ p q, jsIsDigit p = true ∧ jsIsDigit q = true ∧ m = String.mk [p, q]) :
    canonicalYM (y ++ "-" ++ m) = true := by
  obtain ⟨p, q, hp, hq, rfl⟩ := hm
  obtain ⟨l⟩ := y
  obtain ⟨a, b, c, d, rfl⟩ := list_four (by simpa using hy.1)
  have hall := hy.2
  simp only [List.all_cons, List.all_nil, Bool.and_eq_true, Bool.and_true] at hall
  refine canonicalYM_build ?_ ?_ ?_ ?_ hp hq <;> simp_all

/-- Outputs of `labelFormats.normalizeExpiry`: either the input unchanged, or a
canonical `YYYY-MM` string. -/
theorem ocrNorm_out (x : String) :
    LabelFormats.normalizeExpiry x = x ∨
      canonicalYM (LabelFormats.normalizeExpiry x) = true := by
  unfold LabelFormats.normalizeExpiry
  cases h1 : LabelFormats.pYyyyMmm x with
  | some ym =>
    obtain ⟨y, m⟩ := ym
    right
    simp only [h1]
    exact pYyyyMmm_canon h1
  | none =>
  simp only [h1]
  cases h2 : LabelFormats.pMmmYyyy x with
  | some my =>
    obtain ⟨m, y⟩ := my
    right
    simp only [h2]
    exact pMmmYyyy_canon h2
  | none =>
  simp only [h2]
  cases h3 : LabelFormats.pMmmYyyyNoSpace x with
  | some my =>
    obtain ⟨m, y⟩ := my
    right
    simp only [h3]
    exact pMmmYyyyNoSpace_canon h3
  | none =>
  simp only [h3]
  cases h4 : LabelFormats.pSlashMdy x with
  | some mdy =>
    obtain ⟨m, d, y⟩ := mdy
    right
    simp only [h4]
    exact pSlashMdy_canon h4
  | none =>
  simp only [h4]
  cases h5 : LabelFormats.pMmYyyy x with
  | some my =>
    obtain ⟨m, y⟩ := my
    right
    simp only [h5]
    exact pMmYyyy_canon h5
  | none =>
  simp only [h5]
  cases h6 : LabelFormats.pYyyyMmSlash x with
  | some ym =>
    obtain ⟨y, m⟩ := ym
    right
    simp only [h6]
    exact pYyyyMmSlash_canon h6
  | none =>
  simp only [h6]
  left
  trivial
theorem digitsToNat_two_le99 {a b : Char} (ha : jsIsDigit a = true) (hb : jsIsDigit b = true) :
    digitsToNat (String.mk [a, b]) ≤ 99 := by
  have h1 : a.toNat ≤ 57 := (digit_bounds ha).2
  have h2 : b.toNat ≤ 57 := (digit_bounds hb).2
  show (0 * 10 + (a.toNat - 48)) * 10 + (b.toNat - 48) ≤ 99
  omega

/-- Outputs of `normalizeExpiryForMapping`: the input unchanged, or canonical
`YYYY-MM`. -/
theorem forMapping_out (value : String) :
    LabelPatterns.normalizeExpiryForMapping value = value ∨
      canonicalYM (LabelPatterns.normalizeExpiryForMapping value) = true := by
  unfold LabelPatterns.normalizeExpiryForMapping
  cases h1 : LabelPatterns.pYyyyMmmU (jsUpper (jsTrim value)) with
  | some ym =>
    obtain ⟨y, m⟩ := ym
    right
    simp only [h1]
    exact pYyyyMmmU_canon h1
  | none =>
  simp only [h1]
  cases h2 : LabelPatterns.pMmmYyyyU (jsUpper (jsTrim value)) with
  | some my =>
    obtain ⟨m, y⟩ := my
    right
    simp only [h2]
    exact pMmmYyyyU_canon h2
  | none =>
  simp only [h2]
  cases h3 : LabelPatterns.pMmmYyyyNoSpaceU (jsUpper (jsTrim value)) with
  | some my =>
    obtain ⟨m, y⟩ := my
    right
    simp only [h3]
    exact pMmmYyyyNoSpaceU_canon h3
  | none =>
  simp only [h3]
  cases h4 : LabelFormats.pYyyyMmSlash (jsUpper (jsTrim value)) with
  | some ym =>
    obtain ⟨y, m⟩ := ym
    right
    simp only [h4]
    exact pYyyyMmSlash_canon h4
  | none =>
  simp only [h4]
  cases h5 : LabelPatterns.pMmYy (jsUpper (jsTrim value)) with
  | some myy =>
    obtain ⟨mR, yyS⟩ := myy
    simp only [h5]
    obtain ⟨⟨p, q, hp, hq, hpm⟩, ⟨a, b, ha, hb, hyy⟩⟩ := pMmYy_pad h5
    have hle : digitsToNat yyS ≤ 99 := by rw [hyy]; exact digitsToNat_two_le99 ha hb
    rw [if_pos hle]
    split
    · right
      rw [hpm]
      split
      · refine canonicalYM_of_shape ⟨?_, ?_⟩ ⟨p, q, hp, hq, rfl⟩
        · exact ((reprYear_digits (digitsToNat yyS) (by omega)).1).1
        · exact ((reprYear_digits (digitsToNat yyS) (by omega)).1).2
      · refine canonicalYM_of_shape ⟨?_, ?_⟩ ⟨p, q, hp, hq, rfl⟩
        · exact ((reprYear_digits (digitsToNat yyS) (by omega)).2).1
        · exact ((reprYear_digits (digitsToNat yyS) (by omega)).2).2
    · left
      rfl
  | none =>
  simp only [h5]
  left
  trivial

theorem pYyyyMmOpt_canon {s : String} {y m : String}
    (h : ScanditMap.pYyyyMmOpt s = some (y, m)) :
    canonicalYM (y ++ "-" ++ padStart2 m) = true := by
  unfold ScanditMap.pYyyyMmOpt at h
  repeat' split at h
  all_goals simp at h
  · rename_i x0 yA restA eqA x1 mB eqB
    obtain ⟨rfl, rfl⟩ := h
    obtain ⟨a, b, c, e, ha, hb, hc, he, hyA⟩ := d4Then_digits eqA
    obtain ⟨p, q, hp, hq, hpm⟩ := d12Then_pad eqB
    rw [hpm, hyA]
    exact canonicalYM_build ha hb hc he hp hq
  · rename_i x0 yA restA eqA x1 mB restB eqB x2 dC eqC
    obtain ⟨rfl, rfl⟩ := h
    obtain ⟨a, b, c, e, ha, hb, hc, he, hyA⟩ := d4Then_digits eqA
    obtain ⟨p, q, hp, hq, hpm⟩ := d12Then_pad eqB
    rw [hpm, hyA]
    exact canonicalYM_build ha hb hc he hp hq

theorem pDashDmy_canon {s : String} {d m y : String}
    (h : ScanditMap.pDashDmy s = some (d, m, y)) :
    canonicalYM (y ++ "-" ++ padStart2 m) = true := by
  unfold ScanditMap.pDashDmy at h
  repeat' split at h
  all_goals simp at h
  rename_i x1 mA restA eqA x2 mB restB eqB x3 yC eqC
  obtain ⟨rfl, rfl, rfl⟩ := h
  obtain ⟨p, q, hp, hq, hpm⟩ := d12Then_pad eqB
  obtain ⟨a, b, c, e, ha, hb, hc, he, hyC⟩ := d4Then_digits eqC
  rw [hpm, hyC]
  exact canonicalYM_build ha hb hc he hp hq
theorem pSlashMdy_canonYM {s : String} {m d y : String}
    (h : LabelFormats.pSlashMdy s = some (m, d, y)) :
    canonicalYM (y ++ "-" ++ padStart2 m) = true := by
  unfold LabelFormats.pSlashMdy at h
  repeat' split at h
  all_goals simp at h
  rename_i x1 mA restA eqA x2 mB restB eqB x3 yC eqC
  obtain ⟨rfl, rfl, rfl⟩ := h
  obtain ⟨p, q, hp, hq, hpm⟩ := d12Then_pad eqA
  obtain ⟨a, b, c, e, ha, hb, hc, he, hyC⟩ := d4Then_digits eqC
  rw [hpm, hyC]
  exact canonicalYM_build ha hb hc he hp hq

/-- Outputs of the mapper's `normalizeExpiry`: the trimmed input, or canonical
`YYYY-MM`. -/
theorem mapperNorm_out (value : String) :
    ScanditMap.normalizeExpiry value = jsTrim value ∨
      canonicalYM (ScanditMap.normalizeExpiry value) = true := by
  unfold ScanditMap.normalizeExpiry
  by_cases hne : LabelPatterns.normalizeExpiryForMapping (jsTrim value) ≠ jsTrim value
  · rw [if_pos hne]
    rcases forMapping_out (jsTrim value) with he | hc
    · exact absurd he hne
    · exact Or.inr hc
  · rw [if_neg hne]
    cases h1 : ScanditMap.pYyyyMmOpt (jsTrim value) with
    | some ym =>
      obtain ⟨y, m⟩ := ym
      right
      simp only [h1]
      exact pYyyyMmOpt_canon h1
    | none =>
    simp only [h1]
    cases h2 : LabelFormats.pSlashMdy (jsTrim value) with
    | some mdy =>
      obtain ⟨m, d, y⟩ := mdy
      right
      simp only [h2]
      exact pSlashMdy_canonYM h2
    | none =>
    simp only [h2]
    cases h3 : ScanditMap.pDashDmy (jsTrim value) with
    | some dmy =>
      obtain ⟨d, m, y⟩ := dmy
      right
      simp only [h3]
      exact pDashDmy_canon h3
    | none =>
    simp only [h3]
    cases h4 : LabelFormats.pMmYyyy (jsTrim value) with
    | some my =>
      obtain ⟨m, y⟩ := my
      right
      simp only [h4]
      exact pMmYyyy_canon h4
    | none =>
    simp only [h4]
    left
    trivial
theorem canonicalYM_elim {s : String} (h : canonicalYM s = true) :
    ∃ y1 y2 y3 y4 m1 m2, s.data = [y1, y2, y3, y4, '-', m1, m2] ∧
      jsIsDigit y1 = true ∧ jsIsDigit y2 = true ∧ jsIsDigit y3 = true ∧
      jsIsDigit y4 = true ∧ jsIsDigit m1 = true ∧ jsIsDigit m2 = true := by
  unfold canonicalYM at h
  split at h
  · rename_i y1 y2 y3 y4 m1 m2 heq
    refine ⟨y1, y2, y3, y4, m1, m2, heq, ?_, ?_, ?_, ?_, ?_, ?_⟩ <;>
      simp_all [Bool.and_eq_true]
  · simp at h

theorem ocrNorm_fix_of_canonicalYM {s : String} (h : canonicalYM s = true) :
    LabelFormats.normalizeExpiry s = s := by
  obtain ⟨y1, y2, y3, y4, m1, m2, hd, h1, h2, h3, h4, h5, h6⟩ := canonicalYM_elim h
  have hne3 : y3 ≠ '/' := digit_ne_of_lt h3 (by decide)
  have hA : LabelFormats.pYyyyMmm s = none := by
    unfold LabelFormats.pYyyyMmm
    rw [hd]
    simp
  have hB : LabelFormats.pMmmYyyy s = none := by
    unfold LabelFormats.pMmmYyyy
    rw [hd]
    simp [monLookup_digit_none h1]
  have hC : LabelFormats.pMmmYyyyNoSpace s = none := by
    unfold LabelFormats.pMmmYyyyNoSpace
    rw [hd]
    simp [monLookup_digit_none h1]
  have hD : LabelFormats.pSlashMdy s = none := by
    unfold LabelFormats.pSlashMdy
    rw [hd]
    simp [LabelFormats.d12Then, h1, h2, hne3]
  have hE : LabelFormats.pMmYyyy s = none := by
    unfold LabelFormats.pMmYyyy
    rw [hd]
    simp [LabelFormats.d12Then, h1, h2, hne3]
  have hF : LabelFormats.pYyyyMmSlash s = none := by
    unfold LabelFormats.pYyyyMmSlash
    rw [hd]
    simp [LabelFormats.d4Then, h1, h2, h3, h4]
  unfold LabelFormats.normalizeExpiry
  rw [hA, hB, hC, hD, hE, hF]
theorem canonicalYMD_elim {s : String} (h : canonicalYMD s = true) :
    ∃ y1 y2 y3 y4 m1 m2 d1 d2,
      s.data = [y1, y2, y3, y4, '-', m1, m2, '-', d1, d2] ∧
      jsIsDigit y1 = true ∧ jsIsDigit y2 = true ∧ jsIsDigit y3 = true ∧
      jsIsDigit y4 = true ∧ jsIsDigit m1 = true ∧ jsIsDigit m2 = true ∧
      jsIsDigit d1 = true ∧ jsIsDigit d2 = true := by
  unfold canonicalYMD at h
  split at h
  · rename_i y1 y2 y3 y4 m1 m2 d1 d2 heq
    refine ⟨y1, y2, y3, y4, m1, m2, d1, d2, heq, ?_, ?_, ?_, ?_, ?_, ?_, ?_, ?_⟩ <;>
      simp_all [Bool.and_eq_true]
  · simp at h

theorem ocrNorm_fix_of_canonicalYMD {s : String} (h : canonicalYMD s = true) :
    LabelFormats.normalizeExpiry s = s := by
  obtain ⟨y1, y2, y3, y4, m1, m2, d1, d2, hd, h1, h2, h3, h4, h5, h6, h7, h8⟩ :=
    canonicalYMD_elim h
  have hne3 : y3 ≠ '/' := digit_ne_of_lt h3 (by decide)
  have hA : LabelFormats.pYyyyMmm s = none := by
    unfold LabelFormats.pYyyyMmm
    rw [hd]
    simp
  have hB : LabelFormats.pMmmYyyy s = none := by
    unfold LabelFormats.pMmmYyyy
    rw [hd]
    simp [monLookup_digit_none h1]
  have hC : LabelFormats.pMmmYyyyNoSpace s = none := by
    unfold LabelFormats.pMmmYyyyNoSpace
    rw [hd]
  have hD : LabelFormats.pSlashMdy s = none := by
    unfold LabelFormats.pSlashMdy
    rw [hd]
    simp [LabelFormats.d12Then, h1, h2, hne3]
  have hE : LabelFormats.pMmYyyy s = none := by
    unfold LabelFormats.pMmYyyy
    rw [hd]
    simp [LabelFormats.d12Then, h1, h2, hne3]
  have hF : LabelFormats.pYyyyMmSlash s = none := by
    unfold LabelFormats.pYyyyMmSlash
    rw [hd]
    simp [LabelFormats.d4Then, h1, h2, h3, h4]
  unfold LabelFormats.normalizeExpiry
  rw [hA, hB, hC, hD, hE, hF]
theorem takeCount_shape {p : Char → Bool} :
    ∀ {n : Nat} {l xs rest : List Char},
      Gs1.takeCount p n l = some (xs, rest) → xs.length = n ∧ xs.all p = true
  | 0, l, xs, rest, h => by
    simp only [Gs1.takeCount, Option.some.injEq, Prod.mk.injEq] at h
    obtain ⟨rfl, rfl⟩ := h
    simp
  | n + 1, [], xs, rest, h => by simp [Gs1.takeCount] at h
  | n + 1, c :: cs, xs, rest, h => by
    simp only [Gs1.takeCount] at h
    split at h
    · rcases Option.map_eq_some'.mp h with ⟨⟨xs2, rest2⟩, heq, hfe⟩
      obtain ⟨hl, ha⟩ := takeCount_shape heq
      obtain ⟨rfl, rfl⟩ := Prod.mk.injEq .. ▸ hfe
      simp_all
    · simp at h

theorem searchAi_some {α : Type} {a b : Char} {payload : List Char → Option α} :
    ∀ {l : List Char} {r : α},
      Gs1.searchAi a b payload l = some r → ∃ ds, payload ds = some r
  | [], r, h => by simp [Gs1.searchAi] at h
  | c :: cs, r, h => by
    unfold Gs1.searchAi at h
    by_cases hca : c = a
    · rw [if_pos hca] at h
      cases cs with
      | nil => simp at h
      | cons d ds =>
        dsimp only at h
        by_cases hdb : d = b
        · rw [if_pos hdb] at h
          cases hp : payload ds with
          | some r2 =>
            rw [hp] at h
            simp only [Option.some.injEq] at h
            exact ⟨ds, by rw [hp, h]⟩
          | none =>
            rw [hp] at h
            exact searchAi_some h
        · rw [if_neg hdb] at h
          exact searchAi_some h
    · rw [if_neg hca] at h
      exact searchAi_some h

theorem searchExp17_digits {l cap : List Char} (h : Gs1.searchExp17 l = some cap) :
    cap.length = 6 ∧ cap.all jsIsDigit = true := by
  obtain ⟨ds, hds⟩ := searchAi_some h
  rcases Option.map_eq_some'.mp hds with ⟨⟨xs, rest⟩, heq, hfe⟩
  obtain ⟨hl, ha⟩ := takeCount_shape heq
  rw [show (xs, rest).1 = xs from rfl] at hfe
  subst hfe
  exact ⟨hl, ha⟩

theorem list_six {l : List Char} (h : l.length = 6) :
    ∃ a b c d e f, l = [a, b, c, d, e, f] := by
  match l, h with
  | [a, b, c, d, e, f], _ => exact ⟨a, b, c, d, e, f, rfl⟩

/-- The expiry of the positional GS1 fallback is empty or `YYYY-MM-DD`. -/
theorem parseConcatenatedGs1_expiry {s : String} {r : Gs1.Gs1LabelResult}
    (h : Gs1.parseConcatenatedGs1 s = some r) :
    r.expiry = "" ∨ canonicalYMD r.expiry = true := by
  simp only [Gs1.parseConcatenatedGs1] at h
  split at h
  · simp at h
  · split at h
    · simp at h
    · obtain rfl := Option.some.inj h
      cases hexp : Gs1.searchExp17 (stripWs s).data with
      | none => left; simp [hexp]
      | some cap =>
        right
        obtain ⟨hl, ha⟩ := searchExp17_digits hexp
        obtain ⟨a, b, c, d, e, f, rfl⟩ := list_six hl
        simp only [List.all_cons, List.all_nil, Bool.and_eq_true, Bool.and_true] at ha
        obtain ⟨h1, h2, h3, h4, h5, h6⟩ := ha
        simp only [hexp]
        split
        · show canonicalYMD (String.mk ['1', '9', a, b, '-', c, d, '-', e, f]) = true
          simp [canonicalYMD, h1, h2, h3, h4, h5, h6]
          exact ⟨by decide, by decide⟩
        · show canonicalYMD (String.mk ['2', '0', a, b, '-', c, d, '-', e, f]) = true
          simp [canonicalYMD, h1, h2, h3, h4, h5, h6]
          exact ⟨by decide, by decide⟩
theorem jsTruthyO_some {u : String} : jsTruthyO (some u) = true ↔ u ≠ "" := by
  constructor
  · intro h heq
    subst heq
    exact absurd h (by decide)
  · intro hne
    have hemp : u.isEmpty = false := by
      cases hemp : u.isEmpty
      · rfl
      · exact absurd ((String.isEmpty_iff u).mp (by simp [hemp])) hne
    simp [jsTruthyO, hemp]

theorem jsTruthyO_some_false {u : String} : jsTruthyO (some u) = false ↔ u = "" := by
  rw [← Bool.not_eq_true, jsTruthyO_some]
  simp

/-- The final clean-up step guarantees that a non-empty `upc_gtin` or `ref`
value never remains as `batch_no` or `lot_no`. -/
theorem applyBarcodeRefClear_inv (j : ScanditMap.LabelJson) :
    (∀ u, (ScanditMap.applyBarcodeRefClear j).upc_gtin = some u → u ≠ "" →
      (ScanditMap.applyBarcodeRefClear j).batch_no ≠ u ∧
      (ScanditMap.applyBarcodeRefClear j).lot_no ≠ u) ∧
    (∀ u, (ScanditMap.applyBarcodeRefClear j).ref = some u → u ≠ "" →
      (ScanditMap.applyBarcodeRefClear j).batch_no ≠ u ∧
      (ScanditMap.applyBarcodeRefClear j).lot_no ≠ u) := by
  obtain ⟨bn, ln, ex, ug, se, rf⟩ := j
  unfold ScanditMap.applyBarcodeRefClear
  by_cases hu : jsTruthyO ug <;> by_cases hr : jsTruthyO rf <;>
    simp only [hu, hr, if_true, if_false, Bool.false_eq_true] <;>
    constructor <;>
    intro u hequ hne <;>
    subst hequ <;>
    constructor <;>
    first
      | exact absurd (jsTruthyO_some.mpr hne) hu
      | exact absurd (jsTruthyO_some.mpr hne) hr
      | (split_ifs <;> simp_all [jsTruthyO_some, jsTruthyO_some_false] <;> aesop)
namespace LabelFormats

/-- Running maximum of scores, starting from `s`. -/
def msAux (rs : List LabelFormatResult) (s : Nat) : Nat :=
  rs.foldl (fun m r => max m (score r)) s

/-- The maximal score over a list of matcher results. -/
def maxScore (rs : List LabelFormatResult) : Nat := msAux rs 0

theorem msAux_cons {r : LabelFormatResult} {rs : List LabelFormatResult} {s : Nat} :
    msAux (r :: rs) s = msAux rs (max s (score r)) := rfl

theorem le_msAux (rs : List LabelFormatResult) (s : Nat) : s ≤ msAux rs s := by
  induction rs generalizing s with
  | nil => exact le_refl s
  | cons r rest ih => exact le_trans (le_max_left s (score r)) (ih (max s (score r)))

theorem score_le_msAux {r : LabelFormatResult} {rs : List LabelFormatResult} {s : Nat}
    (h : r ∈ rs) : score r ≤ msAux rs s := by
  induction rs generalizing s with
  | nil => cases h
  | cons x rest ih =>
    cases h with
    | head =>
      exact le_trans (le_max_right s (score r)) (le_msAux rest (max s (score r)))
    | tail _ hmem => exact ih hmem

theorem selKeep {rs : List LabelFormatResult} {b : LabelFormatResult} {s : Nat}
    (h : ∀ x ∈ rs, score x ≤ s) : rs.foldl selStep (b, s) = (b, s) := by
  induction rs with
  | nil => rfl
  | cons r rest ih =>
    have hr : score r ≤ s := h r (List.mem_cons_self r rest)
    show List.foldl selStep (selStep (b, s) r) rest = (b, s)
    rw [show selStep (b, s) r = (b, s) from if_neg (by omega)]
    exact ih (fun x hx => h x (List.mem_cons_of_mem r hx))

theorem selScore (rs : List LabelFormatResult) :
    ∀ b s, (rs.foldl selStep (b, s)).2 = msAux rs s := by
  induction rs with
  | nil => intro b s; rfl
  | cons r rest ih =>
    intro b s
    show (List.foldl selStep (selStep (b, s) r) rest).2 = msAux rest (max s (score r))
    by_cases hgt : score r > s
    · rw [show selStep (b, s) r = (r, score r) from if_pos hgt,
          show max s (score r) = score r from max_eq_right hgt.le]
      exact ih r (score r)
    · rw [show selStep (b, s) r = (b, s) from if_neg hgt,
          show max s (score r) = s from max_eq_left (by omega)]
      exact ih b s

theorem selFind (rs : List LabelFormatResult) :
    ∀ b s, s < msAux rs s →
      rs.find? (fun r => score r == msAux rs s) = some (rs.foldl selStep (b, s)).1 := by
  induction rs with
  | nil => intro b s h; exact absurd h (by simp [msAux])
  | cons r rest ih =>
    intro b s hs
    rw [msAux_cons] at hs
    by_cases hgt : score r > s
    · have hmax : max s (score r) = score r := max_eq_right hgt.le
      rw [msAux_cons, hmax]
      by_cases heq : score r = msAux rest (score r)
      · rw [List.find?_cons_of_pos _ (by rw [← heq]; simp)]
        have hkeep : List.foldl selStep (selStep (b, s) r) rest = (r, score r) := by
          rw [show selStep (b, s) r = (r, score r) from if_pos hgt]
          exact selKeep (fun x hx => le_trans (score_le_msAux hx) (le_of_eq heq.symm))
        show some r = some (List.foldl selStep (selStep (b, s) r) rest).1
        rw [hkeep]
      · have hlt : score r < msAux rest (score r) :=
          lt_of_le_of_ne (le_msAux rest (score r)) heq
        rw [List.find?_cons_of_neg _ (by simpa using heq)]
        show _ = some (List.foldl selStep (selStep (b, s) r) rest).1
        rw [show selStep (b, s) r = (r, score r) from if_pos hgt]
        exact ih r (score r) hlt
    · have hmax : max s (score r) = s := max_eq_left (by omega)
      rw [hmax] at hs
      rw [msAux_cons, hmax]
      have hrne : score r ≠ msAux rest s := by omega
      rw [List.find?_cons_of_neg _ (by simpa using hrne)]
      show _ = some (List.foldl selStep (selStep (b, s) r) rest).1
      rw [show selStep (b, s) r = (b, s) from if_neg hgt]
      exact ih b s hs

theorem selectBest_score (rs : List LabelFormatResult) :
    (selectBest rs).2 = maxScore rs := selScore rs {} 0

/-- If every matcher scores zero, the loop keeps the empty record. -/
theorem selectBest_zero {rs : List LabelFormatResult} (h : maxScore rs = 0) :
    (selectBest rs).1 = ({} : LabelFormatResult) := by
  unfold selectBest
  rw [selKeep (fun x hx => le_trans (score_le_msAux hx) (le_of_eq h))]

/-- With a positive maximal score, the loop returns the first matcher result
attaining the maximum. -/
theorem selectBest_first {rs : List LabelFormatResult} (h : 0 < maxScore rs) :
    rs.find? (fun r => score r == maxScore rs) = some (selectBest rs).1 :=
  selFind rs {} 0 h

end LabelFormats
theorem parseConcatenatedGs1_batch_eq {s : String} {r : Gs1.Gs1LabelResult}
    (h : Gs1.parseConcatenatedGs1 s = some r) : r.batch_no = r.lot_no := by
  simp only [Gs1.parseConcatenatedGs1] at h
  split at h
  · simp at h
  · split at h
    · simp at h
    · obtain rfl := Option.some.inj h
      rfl

theorem mk_ne_empty {c : Char} {l : List Char} : String.mk (c :: l) ≠ "" :=
  fun h => List.noConfusion (congrArg String.data h)

theorem jsSlice0_ne_empty {s : String} {n : Nat} (hn : 0 < n) (hs : s.data ≠ []) :
    jsSlice0 n s ≠ "" := by
  unfold jsSlice0
  cases hd : s.data with
  | nil => exact absurd hd hs
  | cons c l =>
    cases n with
    | zero => omega
    | succ k => exact mk_ne_empty
theorem parseGs1_some_batch_eq {lib : String → Gs1.LibOutcome} {raw : String}
    {r : Gs1.Gs1LabelResult} (h : Gs1.parseGs1ToLabelJson lib raw = some r) :
    r.batch_no = r.lot_no := by
  simp only [Gs1.parseGs1ToLabelJson] at h
  repeat' split at h
  all_goals
    first
      | exact parseConcatenatedGs1_batch_eq h
      | (obtain rfl := Option.some.inj h; rfl)
      | simp at h

theorem parseGs1_none_sound {lib : String → Gs1.LibOutcome} {raw : String}
    (h : Gs1.parseGs1ToLabelJson lib raw = none) :
    Gs1.parseConcatenatedGs1 (Gs1.preprocess raw) = none ∧
    (Gs1.preprocess raw ≠ "" → ∀ d, lib (Gs1.preprocess raw) = .ret (some d) →
      d.nonEmptyKeys = true →
      Gs1.elToStr d.batch = "" ∧ Gs1.elToStr d.expDate = "" ∧
      Gs1.elToStr d.gtin = "" ∧ Gs1.elToStr d.serial = "") := by
  simp only [Gs1.parseGs1ToLabelJson] at h
  split at h
  · rename_i hnorm
    constructor
    · rw [hnorm]
      decide
    · intro hne
      exact absurd hnorm hne
  · rename_i hnorm
    cases hl : lib (Gs1.preprocess raw) with
    | throws =>
      rw [hl] at h
      refine ⟨h, fun hne d hd => ?_⟩
      exact absurd hd (by simp)
    | ret dopt =>
      cases dopt with
      | none =>
        rw [hl] at h
        refine ⟨h, fun hne d hd => ?_⟩
        exact absurd hd (by simp)
      | some data =>
        rw [hl] at h
        dsimp only at h
        by_cases hk : data.nonEmptyKeys
        · rw [if_pos hk] at h
          by_cases hb : Gs1.elToStr data.batch = ""
          case neg => simp [hb] at h
          by_cases hg : Gs1.elToStr data.gtin = ""
          case neg => simp [hg] at h
          by_cases hs : Gs1.elToStr data.serial = ""
          case neg => simp [hs] at h
          by_cases he : Gs1.elToStr data.expDate = ""
          case neg =>
            have hdata : (Gs1.elToStr data.expDate).data ≠ [] := by
              intro hx
              apply he
              cases hq : Gs1.elToStr data.expDate with
              | mk l =>
                rw [hq] at hx
                simp only at hx
                rw [hx]
            have hexp :
                (if Gs1.elToStr data.expDate = "" then ""
                 else if jsLen (Gs1.elToStr data.expDate) ≥ 10 then
                   jsSlice0 10 (Gs1.elToStr data.expDate)
                 else Gs1.elToStr data.expDate) ≠ "" := by
              rw [if_neg he]
              split
              · exact jsSlice0_ne_empty (by omega) hdata
              · exact he
            simp [hexp] at h
          -- all four observable fields empty
          have hguard :
              (decide (Gs1.elToStr data.batch ≠ "") ||
               decide ((if Gs1.elToStr data.expDate = "" then ""
                        else if jsLen (Gs1.elToStr data.expDate) ≥ 10 then
                          jsSlice0 10 (Gs1.elToStr data.expDate)
                        else Gs1.elToStr data.expDate) ≠ "") ||
               decide (Gs1.elToStr data.gtin ≠ "") ||
               decide (Gs1.elToStr data.serial ≠ "")) = false := by
            simp [hb, hg, hs, he]
          rw [hguard] at h
          simp only [Bool.false_eq_true, if_false] at h
          refine ⟨h, fun hne d hd hk2 => ?_⟩
          have hdd : data = d := by
            injection hd with h2
            exact Option.some.inj h2
          subst hdd
          exact ⟨hb, he, hg, hs⟩
        · rw [if_neg hk] at h
          refine ⟨h, fun hne d hd hk2 => ?_⟩
          have hdd : data = d := by
            injection hd with h2
            exact Option.some.inj h2
          subst hdd
          exact absurd hk2 hk
theorem lookup_product_code :
    ScanditMap.fieldToOutputKeys "Product code" =
      some [LabelPatterns.OutputKey.batch_no, LabelPatterns.OutputKey.lot_no] := rfl

theorem lookup_batch_lot_numeric :
    ScanditMap.fieldToOutputKeys "Batch/Lot (numeric)" =
      some [LabelPatterns.OutputKey.batch_no, LabelPatterns.OutputKey.lot_no] := rfl

/-- A misread "Product code" field is a no-op of the field loop: no output key
is written and its line is excluded from the raw text. -/
theorem processField_misread (st : ScanditMap.MapState) (f : ScanditMap.ScanditField)
    (hname : f.name = "Product code")
    (hmis : ScanditMap.isProductCodeMisread (jsTrim f.value) = true) :
    ScanditMap.processField st f = st := by
  unfold ScanditMap.processField
  rw [hname]
  simp [hmis, lookup_product_code]

/-- A "Batch/Lot (numeric)" field whose trimmed value is a plausible `YYMMDD`
date writes the raw value to `expiry` only (the line is still recorded). -/
theorem processField_yymmdd (st : ScanditMap.MapState) (f : ScanditMap.ScanditField)
    (hname : f.name = "Batch/Lot (numeric)")
    (hyy : ScanditMap.isLikelyYYMMDD (jsTrim f.value) = true) :
    ScanditMap.processField st f =
      { st with json := { st.json with expiry := jsTrim f.value },
                lines := st.lines ++ [f.name ++ ": " ++ f.value] } := by
  unfold ScanditMap.processField
  rw [hname]
  simp [hyy, lookup_batch_lot_numeric]
/-- The disjunction of the patterns handled by `labelFormats.normalizeExpiry`. -/
def ocrRecognized (raw : String) : Bool :=
  (LabelFormats.pYyyyMmm raw).isSome || (LabelFormats.pMmmYyyy raw).isSome ||
  (LabelFormats.pMmmYyyyNoSpace raw).isSome || (LabelFormats.pSlashMdy raw).isSome ||
  (LabelFormats.pMmYyyy raw).isSome || (LabelFormats.pYyyyMmSlash raw).isSome

/-- The disjunction of the patterns handled by the mapper's `normalizeExpiry`
(on an already-trimmed value). -/
def mapperRecognized (v : String) : Bool :=
  (!(LabelPatterns.normalizeExpiryForMapping v == v)) ||
  (ScanditMap.pYyyyMmOpt v).isSome || (LabelFormats.pSlashMdy v).isSome ||
  (ScanditMap.pDashDmy v).isSome || (LabelFormats.pMmYyyy v).isSome

theorem isSome_false {α : Type} {o : Option α} (h : o.isSome = false) : o = none := by
  cases o <;> simp_all

theorem ocr_passthrough (raw : String) (h : ocrRecognized raw = false) :
    LabelFormats.normalizeExpiry raw = raw := by
  simp only [ocrRecognized, Bool.or_eq_false_iff] at h
  obtain ⟨⟨⟨⟨⟨h1, h2⟩, h3⟩, h4⟩, h5⟩, h6⟩ := h
  unfold LabelFormats.normalizeExpiry
  rw [isSome_false h1, isSome_false h2, isSome_false h3, isSome_false h4,
    isSome_false h5, isSome_false h6]

theorem mapper_passthrough (v : String) (ht : jsTrim v = v)
    (h : mapperRecognized v = false) : ScanditMap.normalizeExpiry v = v := by
  simp only [mapperRecognized, Bool.or_eq_false_iff, Bool.not_eq_false',
    beq_iff_eq] at h
  obtain ⟨⟨⟨⟨h1, h2⟩, h3⟩, h4⟩, h5⟩ := h
  unfold ScanditMap.normalizeExpiry
  rw [ht, if_neg (by rw [h1]; exact fun hc => hc rfl)]
  rw [isSome_false h2, isSome_false h3, isSome_false h4, isSome_false h5]
/-! ## A declarative semantics for the regex interpreter, and the canonical
shape of every expiry produced by the OCR matchers -/

namespace Rex

/-- Declarative matching: `Matches ci rx l` — the regex can consume exactly the
character list `l` (word-boundary and anchor conditions are forgotten, so this
is an over-approximation of the consumed text, which is all the shape lemmas
need). -/
inductive Matches (ci : Bool) : Rx → List Char → Prop
  | eps : Matches ci .eps []
  | cls {k : CC} {c : Char} : CC.matches ci k c = true → Matches ci (.cls k) [c]
  | lit {s : String} {l : List Char} :
      List.Forall₂ (fun p c => CC.matches ci (.ch p) c = true) s.data l →
      Matches ci (.lit s) l
  | seq {a b : Rx} {l1 l2 : List Char} :
      Matches ci a l1 → Matches ci b l2 → Matches ci (.seq a b) (l1 ++ l2)
  | altL {a b : Rx} {l : List Char} : Matches ci a l → Matches ci (.alt a b) l
  | altR {a b : Rx} {l : List Char} : Matches ci b l → Matches ci (.alt a b) l
  | optS {a : Rx} {l : List Char} : Matches ci a l → Matches ci (.opt a) l
  | optN {a : Rx} : Matches ci (.opt a) []
  | rep {k : CC} {lo : Nat} {hi : Option Nat} {lz : Bool} {l : List Char} :
      (∀ c ∈ l, CC.matches ci k c = true) → lo ≤ l.length →
      (∀ h, hi = some h → l.length ≤ h) → Matches ci (.rep k lo hi lz) l
  | grp {i : Nat} {a : Rx} {l : List Char} : Matches ci a l → Matches ci (.grp i a) l
  | wb : Matches ci .wb []
  | eos : Matches ci .eos []

/-- A group numbered `j` somewhere inside `rx` can capture `l`. -/
inductive GMatch (ci : Bool) : Rx → Nat → List Char → Prop
  | here {i : Nat} {a : Rx} {l : List Char} : Matches ci a l → GMatch ci (.grp i a) i l
  | under {i j : Nat} {a : Rx} {l : List Char} : GMatch ci a j l → GMatch ci (.grp i a) j l
  | seqL {a b : Rx} {j : Nat} {l : List Char} : GMatch ci a j l → GMatch ci (.seq a b) j l
  | seqR {a b : Rx} {j : Nat} {l : List Char} : GMatch ci b j l → GMatch ci (.seq a b) j l
  | altL {a b : Rx} {j : Nat} {l : List Char} : GMatch ci a j l → GMatch ci (.alt a b) j l
  | altR {a b : Rx} {j : Nat} {l : List Char} : GMatch ci b j l → GMatch ci (.alt a b) j l
  | opt {a : Rx} {j : Nat} {l : List Char} : GMatch ci a j l → GMatch ci (.opt a) j l

/-- The group indices recorded on every successful path through `rx`. -/
def musts : Rx → List Nat
  | .seq a b => musts a ++ musts b
  | .grp i a => i :: musts a
  | _ => []

theorem take_one_drop {inp : List Char} {pos : Nat} {c : Char}
    (h : inp.get? pos = some c) : (inp.drop pos).take 1 = [c] := by
  have hlt : pos < inp.length := by
    by_contra hge
    rw [List.get?_eq_none.mpr (Nat.le_of_not_lt hge)] at h
    exact Option.noConfusion h
  rw [List.drop_eq_getElem_cons hlt, List.take_succ_cons, List.take_zero]
  have := List.get?_eq_getElem? inp pos
  rw [this, List.getElem?_eq_getElem hlt] at h
  exact congrArg (fun x => [x]) (Option.some.inj h)

theorem slice_split {inp : List Char} {a b c : Nat} (h1 : a ≤ b) (h2 : b ≤ c) :
    (inp.drop a).take (c - a) = (inp.drop a).take (b - a) ++ (inp.drop b).take (c - b) := by
  have hc : c - a = (b - a) + (c - b) := by omega
  rw [hc, List.take_add]
  congr 1
  rw [List.drop_drop]
  have hba : a + (b - a) = b := by omega
  rw [hba]

theorem litMatch_sound {ci : Bool} {inp : List Char} :
    ∀ {ps : List Char} {pos p2 : Nat}, litMatch ci inp ps pos = some p2 →
      pos ≤ p2 ∧ List.Forall₂ (fun p c => CC.matches ci (.ch p) c = true) ps
        ((inp.drop pos).take (p2 - pos))
  | [], pos, p2, h => by
    obtain rfl := Option.some.inj h
    simp only [Nat.sub_self, List.take_zero]
    exact ⟨Nat.le_refl _, List.Forall₂.nil⟩
  | p :: ps, pos, p2, h => by
    simp only [litMatch] at h
    cases hg : inp.get? pos with
    | none => rw [hg] at h; exact Option.noConfusion h
    | some c =>
      rw [hg] at h
      dsimp only at h
      by_cases hm : CC.matches ci (.ch p) c = true
      · rw [if_pos hm] at h
        obtain ⟨hle, hf⟩ := litMatch_sound h
        refine ⟨Nat.le_trans (Nat.le_succ pos) hle, ?_⟩
        have hsplit := @slice_split inp _ _ _ (Nat.le_succ pos) hle
        have h1 : pos + 1 - pos = 1 := by omega
        rw [hsplit, h1, take_one_drop hg]
        exact List.Forall₂.cons hm hf
      · rw [if_neg hm] at h; exact Option.noConfusion h

theorem runLenAux_le {ci : Bool} {k : CC} : ∀ l : List Char, runLenAux ci k l ≤ l.length
  | [] => Nat.le_refl 0
  | c :: cs => by
    simp only [runLenAux]
    split
    · simpa [Nat.add_comm] using Nat.succ_le_succ (runLenAux_le cs)
    · exact Nat.zero_le _

theorem runLenAux_prefix {ci : Bool} {k : CC} :
    ∀ (l : List Char) (n : Nat), n ≤ runLenAux ci k l →
      ∀ c ∈ l.take n, CC.matches ci k c = true
  | l, 0, _, c, hc => by simp at hc
  | [], _ + 1, hn, c, hc => by simp at hc
  | a :: as, n + 1, hn, c, hc => by
    simp only [runLenAux] at hn
    by_cases hm : CC.matches ci k a = true
    · rw [if_pos hm] at hn
      rcases (List.mem_cons).mp (by simpa [List.take_succ_cons] using hc) with rfl | hmem
      · exact hm
      · exact runLenAux_prefix as n (by omega) c hmem
    · rw [if_neg hm] at hn
      omega

theorem repCands_mem {lo : Nat} {hi : Option Nat} {lz : Bool} {run n : Nat}
    (h : n ∈ repCands lo hi lz run) :
    lo ≤ n ∧ n ≤ run ∧ ∀ h2, hi = some h2 → n ≤ h2 := by
  simp only [repCands] at h
  by_cases hlt : min run (hi.getD run) < lo
  · rw [if_pos hlt] at h
    simp at h
  · rw [if_neg hlt] at h
    obtain ⟨i, hi2, hn⟩ := List.mem_map.mp h
    rw [List.mem_range] at hi2
    have hmin1 : min run (hi.getD run) ≤ run := Nat.min_le_left _ _
    have hmin2 : ∀ h2, hi = some h2 → min run (hi.getD run) ≤ h2 := by
      intro h2 he; rw [he]; exact Nat.min_le_right _ _
    refine ⟨?_, ?_, ?_⟩
    · cases lz <;> simp at hn <;> omega
    · cases lz <;> simp at hn <;> omega
    · intro h2 he
      have := hmin2 h2 he
      cases lz <;> simp at hn <;> omega

end Rex
namespace Rex

/-- Soundness of the backtracking matcher: on success, the consumed span is in
the declarative language, every newly recorded capture is a group match, every
mandatory group is recorded, and the continuation fired on the end position
with the new captures prepended. -/
theorem mrun_sound {ci : Bool} {inp : List Char} :
    ∀ (rx : Rx) {pos : Nat} {caps : Caps}
      {k : Nat → Caps → Option (Nat × Caps)} {res : Nat × Caps},
      mrun ci inp rx pos caps k = some res →
      ∃ p2 ncaps, pos ≤ p2 ∧
        Matches ci rx ((inp.drop pos).take (p2 - pos)) ∧
        (∀ e ∈ ncaps, ∃ l : List Char, e.2 = String.mk l ∧ GMatch ci rx e.1 l) ∧
        (∀ j ∈ musts rx, ∃ e ∈ ncaps, e.1 = j) ∧
        k p2 (ncaps ++ caps) = some res := by
  intro rx
  induction rx with
  | rfail =>
    intro pos caps k res h
    simp [mrun] at h
  | eps =>
    intro pos caps k res h
    simp only [mrun] at h
    exact ⟨pos, [], Nat.le_refl _,
      by simpa [Nat.sub_self] using @Matches.eps ci,
      by simp, by simp [musts], by simpa using h⟩
  | cls kc =>
    intro pos caps k res h
    simp only [mrun] at h
    cases hg : inp.get? pos with
    | none => rw [hg] at h; exact Option.noConfusion h
    | some c =>
      rw [hg] at h
      dsimp only at h
      by_cases hm : CC.matches ci kc c = true
      · rw [if_pos hm] at h
        refine ⟨pos + 1, [], Nat.le_succ _, ?_, by simp, by simp [musts], by simpa using h⟩
        have h1 : pos + 1 - pos = 1 := by omega
        rw [h1, take_one_drop hg]
        exact Matches.cls hm
      · rw [if_neg hm] at h; exact Option.noConfusion h
  | lit s =>
    intro pos caps k res h
    simp only [mrun] at h
    cases hg : litMatch ci inp s.data pos with
    | none => rw [hg] at h; exact Option.noConfusion h
    | some p2 =>
      rw [hg] at h
      obtain ⟨hle, hf⟩ := litMatch_sound hg
      exact ⟨p2, [], hle, Matches.lit hf, by simp, by simp [musts], by simpa using h⟩
  | seq a b iha ihb =>
    intro pos caps k res h
    simp only [mrun] at h
    obtain ⟨p2, nA, hle1, hmA, hcA, hgA, hk1⟩ := iha h
    obtain ⟨p3, nB, hle2, hmB, hcB, hgB, hk2⟩ := ihb hk1
    refine ⟨p3, nB ++ nA, Nat.le_trans hle1 hle2, ?_, ?_, ?_, ?_⟩
    · rw [slice_split hle1 hle2]
      exact Matches.seq hmA hmB
    · intro e he
      rcases List.mem_append.mp he with h' | h'
      · obtain ⟨l, h1, h2⟩ := hcB e h'
        exact ⟨l, h1, GMatch.seqR h2⟩
      · obtain ⟨l, h1, h2⟩ := hcA e h'
        exact ⟨l, h1, GMatch.seqL h2⟩
    · intro j hj
      rcases List.mem_append.mp (by simpa [musts] using hj) with h' | h'
      · obtain ⟨e, he, h1⟩ := hgA j h'
        exact ⟨e, List.mem_append.mpr (Or.inr he), h1⟩
      · obtain ⟨e, he, h1⟩ := hgB j h'
        exact ⟨e, List.mem_append.mpr (Or.inl he), h1⟩
    · simpa [List.append_assoc] using hk2
  | alt a b iha ihb =>
    intro pos caps k res h
    simp only [mrun] at h
    cases ha : mrun ci inp a pos caps k with
    | some r =>
      rw [ha] at h
      obtain rfl := Option.some.inj h
      obtain ⟨p2, nA, hle, hm, hc, _, hk⟩ := iha ha
      refine ⟨p2, nA, hle, Matches.altL hm, ?_, by simp [musts], hk⟩
      intro e he
      obtain ⟨l, h1, h2⟩ := hc e he
      exact ⟨l, h1, GMatch.altL h2⟩
    | none =>
      rw [ha] at h
      obtain ⟨p2, nB, hle, hm, hc, _, hk⟩ := ihb h
      refine ⟨p2, nB, hle, Matches.altR hm, ?_, by simp [musts], hk⟩
      intro e he
      obtain ⟨l, h1, h2⟩ := hc e he
      exact ⟨l, h1, GMatch.altR h2⟩
  | opt a iha =>
    intro pos caps k res h
    simp only [mrun] at h
    cases ha : mrun ci inp a pos caps k with
    | some r =>
      rw [ha] at h
      obtain rfl := Option.some.inj h
      obtain ⟨p2, nA, hle, hm, hc, _, hk⟩ := iha ha
      refine ⟨p2, nA, hle, Matches.optS hm, ?_, by simp [musts], hk⟩
      intro e he
      obtain ⟨l, h1, h2⟩ := hc e he
      exact ⟨l, h1, GMatch.opt h2⟩
    | none =>
      rw [ha] at h
      exact ⟨pos, [], Nat.le_refl _,
        by simpa [Nat.sub_self] using @Matches.optN ci a,
        by simp, by simp [musts], by simpa using h⟩
  | rep kc lo hi lz =>
    intro pos caps k res h
    simp only [mrun] at h
    obtain ⟨n, hnmem, hk⟩ := List.exists_of_findSome?_eq_some h
    obtain ⟨hlo, hrun, hhi⟩ := repCands_mem hnmem
    have hlen : ((inp.drop pos).take n).length = n := by
      rw [List.length_take]
      have := @runLenAux_le ci kc (inp.drop pos)
      omega
    refine ⟨pos + n, [], Nat.le_add_right _ _, ?_, by simp, by simp [musts], by simpa using hk⟩
    have hn : pos + n - pos = n := by omega
    rw [hn]
    refine Matches.rep ?_ (by omega) ?_
    · exact runLenAux_prefix _ n hrun
    · intro h2 he
      rw [hlen]
      exact hhi h2 he
  | grp i a iha =>
    intro pos caps k res h
    simp only [mrun] at h
    obtain ⟨p2, nA, hle, hm, hc, hg, hk⟩ := iha h
    refine ⟨p2, (i, String.mk ((inp.drop pos).take (p2 - pos))) :: nA, hle,
      Matches.grp hm, ?_, ?_, by simpa using hk⟩
    · intro e he
      rcases List.mem_cons.mp he with rfl | h'
      · exact ⟨_, rfl, GMatch.here hm⟩
      · obtain ⟨l, h1, h2⟩ := hc e h'
        exact ⟨l, h1, GMatch.under h2⟩
    · intro j hj
      rcases List.mem_cons.mp (by simpa [musts] using hj) with rfl | h'
      · exact ⟨_, List.mem_cons_self _ _, rfl⟩
      · obtain ⟨e, he, h1⟩ := hg j h'
        exact ⟨e, List.mem_cons_of_mem _ he, h1⟩
  | wb =>
    intro pos caps k res h
    simp only [mrun] at h
    by_cases hb : isBoundary inp pos = true
    · rw [if_pos hb] at h
      exact ⟨pos, [], Nat.le_refl _,
        by simpa [Nat.sub_self] using @Matches.wb ci,
        by simp, by simp [musts], by simpa using h⟩
    · rw [if_neg hb] at h; exact Option.noConfusion h
  | eos =>
    intro pos caps k res h
    simp only [mrun] at h
    by_cases hb : pos = inp.length
    · rw [if_pos hb] at h
      exact ⟨pos, [], Nat.le_refl _,
        by simpa [Nat.sub_self] using @Matches.eos ci,
        by simp, by simp [musts], by simpa using h⟩
    · rw [if_neg hb] at h; exact Option.noConfusion h

end Rex
namespace Rex

theorem searchAux_sound {ci : Bool} {rx : Rx} {inp : List Char} :
    ∀ {pos fuel : Nat} {m : MRes}, searchAux ci rx inp pos fuel = some m →
      Matches ci rx m.whole.data ∧
      (∀ e ∈ m.groups, ∃ l : List Char, e.2 = String.mk l ∧ GMatch ci rx e.1 l) ∧
      (∀ j ∈ musts rx, ∃ e ∈ m.groups, e.1 = j) := by
  intro pos fuel
  induction fuel generalizing pos with
  | zero => intro m h; simp [searchAux] at h
  | succ fuel ih =>
    intro m h
    simp only [searchAux] at h
    cases hr : mrun ci inp rx pos [] (fun p c => some (p, c)) with
    | some pr =>
      rw [hr] at h
      obtain ⟨e2, caps⟩ := pr
      obtain rfl := Option.some.inj h
      obtain ⟨p2, ncaps, _, hm, hc, hg, hk⟩ := mrun_sound rx hr
      obtain ⟨rfl, rfl⟩ := Prod.mk.injEq _ _ _ _ ▸ Option.some.inj hk
      simp only [List.append_nil]
      exact ⟨hm, hc, hg⟩
    | none =>
      rw [hr] at h
      exact ih h

theorem jsMatch_sound {ci : Bool} {rx : Rx} {s : String} {m : MRes}
    (h : jsMatch ci rx s = some m) :
    Matches ci rx m.whole.data ∧
    (∀ e ∈ m.groups, ∃ l : List Char, e.2 = String.mk l ∧ GMatch ci rx e.1 l) ∧
    (∀ j ∈ musts rx, ∃ e ∈ m.groups, e.1 = j) :=
  searchAux_sound h

/-- On a successful match, a mandatory group's accessor returns a string the
group can capture. -/
theorem jsMatch_grpD {ci : Bool} {rx : Rx} {s : String} {m : MRes} {i : Nat}
    (h : jsMatch ci rx s = some m) (hi : i ∈ musts rx) :
    GMatch ci rx i (m.grpD i).data := by
  obtain ⟨-, hc, hg⟩ := jsMatch_sound h
  obtain ⟨e, he, hkey⟩ := hg i hi
  have hfind : (m.groups.find? (fun p => p.1 = i)).isSome := by
    rw [List.find?_isSome]
    exact ⟨e, he, by simp [hkey]⟩
  obtain ⟨e2, hfe⟩ := Option.isSome_iff_exists.mp hfind
  have he2mem := List.mem_of_find?_eq_some hfe
  have he2key : e2.1 = i := by simpa using List.find?_some hfe
  obtain ⟨l, hl, hgm⟩ := hc e2 he2mem
  have : m.grpD i = e2.2 := by
    unfold MRes.grpD MRes.grp?
    rw [hfe]
    rfl
  rw [this, hl]
  simpa [he2key] using hgm

end Rex
namespace Rex

theorem seq_inv {ci : Bool} {a b : Rx} {l : List Char} (h : Matches ci (.seq a b) l) :
    ∃ l1 l2, l = l1 ++ l2 ∧ Matches ci a l1 ∧ Matches ci b l2 := by
  cases h
  exact ⟨_, _, rfl, by assumption, by assumption⟩

theorem cls_inv {ci : Bool} {k : CC} {l : List Char} (h : Matches ci (.cls k) l) :
    ∃ c, l = [c] ∧ CC.matches ci k c = true := by
  cases h
  exact ⟨_, rfl, by assumption⟩

theorem rep_inv {ci : Bool} {k : CC} {lo : Nat} {hi : Option Nat} {lz : Bool}
    {l : List Char} (h : Matches ci (.rep k lo hi lz) l) :
    (∀ c ∈ l, CC.matches ci k c = true) ∧ lo ≤ l.length ∧
      ∀ h2, hi = some h2 → l.length ≤ h2 := by
  cases h
  exact ⟨by assumption, by assumption, by assumption⟩

theorem alt_inv {ci : Bool} {a b : Rx} {l : List Char} (h : Matches ci (.alt a b) l) :
    Matches ci a l ∨ Matches ci b l := by
  cases h
  · exact Or.inl (by assumption)
  · exact Or.inr (by assumption)

theorem lit_inv {ci : Bool} {s : String} {l : List Char} (h : Matches ci (.lit s) l) :
    List.Forall₂ (fun p c => CC.matches ci (.ch p) c = true) s.data l := by
  cases h
  assumption

theorem grp_minv {ci : Bool} {i : Nat} {a : Rx} {l : List Char}
    (h : Matches ci (.grp i a) l) : Matches ci a l := by
  cases h
  assumption

theorem gm_seq_inv {ci : Bool} {a b : Rx} {j : Nat} {l : List Char}
    (h : GMatch ci (.seq a b) j l) : GMatch ci a j l ∨ GMatch ci b j l := by
  cases h
  · exact Or.inl (by assumption)
  · exact Or.inr (by assumption)

theorem gm_grp_inv {ci : Bool} {i j : Nat} {a : Rx} {l : List Char}
    (h : GMatch ci (.grp i a) j l) :
    (j = i ∧ Matches ci a l) ∨ GMatch ci a j l := by
  cases h
  · exact Or.inl ⟨rfl, by assumption⟩
  · exact Or.inr (by assumption)

/-- No `grp` node anywhere in the regex. -/
def grpFree : Rx → Bool
  | .seq a b => grpFree a && grpFree b
  | .alt a b => grpFree a && grpFree b
  | .opt a => grpFree a
  | .grp _ _ => false
  | _ => true

theorem gmatch_not_grpFree {ci : Bool} {rx : Rx} {j : Nat} {l : List Char}
    (h : GMatch ci rx j l) : grpFree rx = false := by
  induction h <;> simp [grpFree, *]

theorem CC_ch_true {a c : Char} (h : CC.matches true (.ch a) c = true) :
    jsToUpperChar c = jsToUpperChar a := by
  simpa [CC.matches] using h

theorem CC_ch_false {a c : Char} (h : CC.matches false (.ch a) c = true) :
    c = a := by
  simpa [CC.matches] using h

theorem CC_digit {ci : Bool} {c : Char} (h : CC.matches ci .digit c = true) :
    jsIsDigit c = true := by
  simpa [CC.matches] using h

theorem forall2_three {R : Char → Char → Prop} {l : List Char} {a b c : Char}
    (h : List.Forall₂ R [a, b, c] l) :
    ∃ x y z, l = [x, y, z] ∧ R a x ∧ R b y ∧ R c z := by
  rcases h with _ | ⟨h1, _ | ⟨h2, _ | ⟨h3, hnil⟩⟩⟩
  cases hnil
  exact ⟨_, _, _, rfl, h1, h2, h3⟩

theorem list_two {l : List Char} (h : l.length = 2) : ∃ a b, l = [a, b] := by
  match l, h with
  | [a, b], _ => exact ⟨a, b, rfl⟩

end Rex

/-- A case-insensitive month-alternation match is a three-character list that
`monLookup` resolves. -/
theorem monthsRx_lookup {mn : List Char}
    (h : Rex.Matches true LabelFormats.monthsRx mn) :
    ∃ m1 m2 m3 mm, mn = [m1, m2, m3] ∧ LabelFormats.monLookup m1 m2 m3 = some mm := by
  unfold LabelFormats.monthsRx Rex.ralt at h
  simp only [List.map, List.foldr] at h
  rcases Rex.alt_inv h with hm | h
  · have hf := Rex.lit_inv hm
    have hdata : ("JAN" : String).data = ['J', 'A', 'N'] := rfl
    rw [hdata] at hf
    obtain ⟨x, y, z, rfl, r1, r2, r3⟩ := Rex.forall2_three hf
    have hx : jsToUpperChar x = 'J' := (Rex.CC_ch_true r1).trans (by decide)
    have hy : jsToUpperChar y = 'A' := (Rex.CC_ch_true r2).trans (by decide)
    have hz : jsToUpperChar z = 'N' := (Rex.CC_ch_true r3).trans (by decide)
    refine ⟨x, y, z, "01", rfl, ?_⟩
    unfold LabelFormats.monLookup
    rw [hx, hy, hz]
    decide
  rcases Rex.alt_inv h with hm | h
  · have hf := Rex.lit_inv hm
    have hdata : ("FEB" : String).data = ['F', 'E', 'B'] := rfl
    rw [hdata] at hf
    obtain ⟨x, y, z, rfl, r1, r2, r3⟩ := Rex.forall2_three hf
    have hx : jsToUpperChar x = 'F' := (Rex.CC_ch_true r1).trans (by decide)
    have hy : jsToUpperChar y = 'E' := (Rex.CC_ch_true r2).trans (by decide)
    have hz : jsToUpperChar z = 'B' := (Rex.CC_ch_true r3).trans (by decide)
    refine ⟨x, y, z, "02", rfl, ?_⟩
    unfold LabelFormats.monLookup
    rw [hx, hy, hz]
    decide
  rcases Rex.alt_inv h with hm | h
  · have hf := Rex.lit_inv hm
    have hdata : ("MAR" : String).data = ['M', 'A', 'R'] := rfl
    rw [hdata] at hf
    obtain ⟨x, y, z, rfl, r1, r2, r3⟩ := Rex.forall2_three hf
    have hx : jsToUpperChar x = 'M' := (Rex.CC_ch_true r1).trans (by decide)
    have hy : jsToUpperChar y = 'A' := (Rex.CC_ch_true r2).trans (by decide)
    have hz : jsToUpperChar z = 'R' := (Rex.CC_ch_true r3).trans (by decide)
    refine ⟨x, y, z, "03", rfl, ?_⟩
    unfold LabelFormats.monLookup
    rw [hx, hy, hz]
    decide
  rcases Rex.alt_inv h with hm | h
  · have hf := Rex.lit_inv hm
    have hdata : ("APR" : String).data = ['A', 'P', 'R'] := rfl
    rw [hdata] at hf
    obtain ⟨x, y, z, rfl, r1, r2, r3⟩ := Rex.forall2_three hf
    have hx : jsToUpperChar x = 'A' := (Rex.CC_ch_true r1).trans (by decide)
    have hy : jsToUpperChar y = 'P' := (Rex.CC_ch_true r2).trans (by decide)
    have hz : jsToUpperChar z = 'R' := (Rex.CC_ch_true r3).trans (by decide)
    refine ⟨x, y, z, "04", rfl, ?_⟩
    unfold LabelFormats.monLookup
    rw [hx, hy, hz]
    decide
  rcases Rex.alt_inv h with hm | h
  · have hf := Rex.lit_inv hm
    have hdata : ("MAY" : String).data = ['M', 'A', 'Y'] := rfl
    rw [hdata] at hf
    obtain ⟨x, y, z, rfl, r1, r2, r3⟩ := Rex.forall2_three hf
    have hx : jsToUpperChar x = 'M' := (Rex.CC_ch_true r1).trans (by decide)
    have hy : jsToUpperChar y = 'A' := (Rex.CC_ch_true r2).trans (by decide)
    have hz : jsToUpperChar z = 'Y' := (Rex.CC_ch_true r3).trans (by decide)
    refine ⟨x, y, z, "05", rfl, ?_⟩
    unfold LabelFormats.monLookup
    rw [hx, hy, hz]
    decide
  rcases Rex.alt_inv h with hm | h
  · have hf := Rex.lit_inv hm
    have hdata : ("JUN" : String).data = ['J', 'U', 'N'] := rfl
    rw [hdata] at hf
    obtain ⟨x, y, z, rfl, r1, r2, r3⟩ := Rex.forall2_three hf
    have hx : jsToUpperChar x = 'J' := (Rex.CC_ch_true r1).trans (by decide)
    have hy : jsToUpperChar y = 'U' := (Rex.CC_ch_true r2).trans (by decide)
    have hz : jsToUpperChar z = 'N' := (Rex.CC_ch_true r3).trans (by decide)
    refine ⟨x, y, z, "06", rfl, ?_⟩
    unfold LabelFormats.monLookup
    rw [hx, hy, hz]
    decide
  rcases Rex.alt_inv h with hm | h
  · have hf := Rex.lit_inv hm
    have hdata : ("JUL" : String).data = ['J', 'U', 'L'] := rfl
    rw [hdata] at hf
    obtain ⟨x, y, z, rfl, r1, r2, r3⟩ := Rex.forall2_three hf
    have hx : jsToUpperChar x = 'J' := (Rex.CC_ch_true r1).trans (by decide)
    have hy : jsToUpperChar y = 'U' := (Rex.CC_ch_true r2).trans (by decide)
    have hz : jsToUpperChar z = 'L' := (Rex.CC_ch_true r3).trans (by decide)
    refine ⟨x, y, z, "07", rfl, ?_⟩
    unfold LabelFormats.monLookup
    rw [hx, hy, hz]
    decide
  rcases Rex.alt_inv h with hm | h
  · have hf := Rex.lit_inv hm
    have hdata : ("AUG" : String).data = ['A', 'U', 'G'] := rfl
    rw [hdata] at hf
    obtain ⟨x, y, z, rfl, r1, r2, r3⟩ := Rex.forall2_three hf
    have hx : jsToUpperChar x = 'A' := (Rex.CC_ch_true r1).trans (by decide)
    have hy : jsToUpperChar y = 'U' := (Rex.CC_ch_true r2).trans (by decide)
    have hz : jsToUpperChar z = 'G' := (Rex.CC_ch_true r3).trans (by decide)
    refine ⟨x, y, z, "08", rfl, ?_⟩
    unfold LabelFormats.monLookup
    rw [hx, hy, hz]
    decide
  rcases Rex.alt_inv h with hm | h
  · have hf := Rex.lit_inv hm
    have hdata : ("SEP" : String).data = ['S', 'E', 'P'] := rfl
    rw [hdata] at hf
    obtain ⟨x, y, z, rfl, r1, r2, r3⟩ := Rex.forall2_three hf
    have hx : jsToUpperChar x = 'S' := (Rex.CC_ch_true r1).trans (by decide)
    have hy : jsToUpperChar y = 'E' := (Rex.CC_ch_true r2).trans (by decide)
    have hz : jsToUpperChar z = 'P' := (Rex.CC_ch_true r3).trans (by decide)
    refine ⟨x, y, z, "09", rfl, ?_⟩
    unfold LabelFormats.monLookup
    rw [hx, hy, hz]
    decide
  rcases Rex.alt_inv h with hm | h
  · have hf := Rex.lit_inv hm
    have hdata : ("OCT" : String).data = ['O', 'C', 'T'] := rfl
    rw [hdata] at hf
    obtain ⟨x, y, z, rfl, r1, r2, r3⟩ := Rex.forall2_three hf
    have hx : jsToUpperChar x = 'O' := (Rex.CC_ch_true r1).trans (by decide)
    have hy : jsToUpperChar y = 'C' := (Rex.CC_ch_true r2).trans (by decide)
    have hz : jsToUpperChar z = 'T' := (Rex.CC_ch_true r3).trans (by decide)
    refine ⟨x, y, z, "10", rfl, ?_⟩
    unfold LabelFormats.monLookup
    rw [hx, hy, hz]
    decide
  rcases Rex.alt_inv h with hm | h
  · have hf := Rex.lit_inv hm
    have hdata : ("NOV" : String).data = ['N', 'O', 'V'] := rfl
    rw [hdata] at hf
    obtain ⟨x, y, z, rfl, r1, r2, r3⟩ := Rex.forall2_three hf
    have hx : jsToUpperChar x = 'N' := (Rex.CC_ch_true r1).trans (by decide)
    have hy : jsToUpperChar y = 'O' := (Rex.CC_ch_true r2).trans (by decide)
    have hz : jsToUpperChar z = 'V' := (Rex.CC_ch_true r3).trans (by decide)
    refine ⟨x, y, z, "11", rfl, ?_⟩
    unfold LabelFormats.monLookup
    rw [hx, hy, hz]
    decide
  rcases Rex.alt_inv h with hm | h
  · have hf := Rex.lit_inv hm
    have hdata : ("DEC" : String).data = ['D', 'E', 'C'] := rfl
    rw [hdata] at hf
    obtain ⟨x, y, z, rfl, r1, r2, r3⟩ := Rex.forall2_three hf
    have hx : jsToUpperChar x = 'D' := (Rex.CC_ch_true r1).trans (by decide)
    have hy : jsToUpperChar y = 'E' := (Rex.CC_ch_true r2).trans (by decide)
    have hz : jsToUpperChar z = 'C' := (Rex.CC_ch_true r3).trans (by decide)
    refine ⟨x, y, z, "12", rfl, ?_⟩
    unfold LabelFormats.monLookup
    rw [hx, hy, hz]
    decide
  cases h
theorem toNat_ofNat_valid {n : Nat} (h : n.isValidChar) : (Char.ofNat n).toNat = n := by
  unfold Char.ofNat
  rw [dif_pos h]
  unfold Char.ofNatAux Char.toNat
  simp [UInt32.toNat, BitVec.toNat_ofNatLt]

/-- `toUpperCase` moves nothing onto a character outside `A`–`Z`. -/
theorem jsToUpperChar_fix {c t : Char} (ht : ¬ (65 ≤ t.toNat ∧ t.toNat ≤ 90))
    (h : jsToUpperChar c = t) : c = t := by
  unfold jsToUpperChar at h
  split at h
  · rename_i hlc
    exfalso
    simp only [Bool.and_eq_true, decide_eq_true_eq] at hlc
    obtain ⟨h1, h2⟩ := hlc
    simp only [Char.le_def, UInt32.le_def, BitVec.le_def] at h1 h2
    have h1' : 97 ≤ c.toNat := h1
    have h2' : c.toNat ≤ 122 := h2
    have hval : t.toNat = c.toNat - 32 := by
      rw [← h]
      exact toNat_ofNat_valid (Or.inl (by omega))
    omega
  · exact h

/-- Under the case-insensitive character test, a pattern character outside
`A`–`Z` is matched only by itself. -/
theorem CC_ch_ci_symbol {a c : Char} (ha : ¬ (65 ≤ a.toNat ∧ a.toNat ≤ 90))
    (hup : jsToUpperChar a = a)
    (h : Rex.CC.matches true (.ch a) c = true) : c = a :=
  jsToUpperChar_fix ha ((Rex.CC_ch_true h).trans hup)
theorem digit_not_space {c : Char} (h : jsIsDigit c = true) : jsIsSpace c = false := by
  unfold jsIsSpace
  simp only [Bool.or_eq_false_iff, decide_eq_false_iff_not]
  refine ⟨⟨⟨⟨⟨?_, ?_⟩, ?_⟩, ?_⟩, ?_⟩, ?_⟩ <;> exact digit_ne_of_lt h (by decide)

theorem rdig_exact {ci : Bool} {n : Nat} {l : List Char}
    (h : Rex.Matches ci (Rex.rdig n n) l) :
    l.length = n ∧ ∀ c ∈ l, jsIsDigit c = true := by
  obtain ⟨hd, hlo, hhi⟩ := Rex.rep_inv h
  exact ⟨Nat.le_antisymm (hhi n rfl) hlo, fun c hc => Rex.CC_digit (hd c hc)⟩

theorem rdig12_cases {ci : Bool} {l : List Char}
    (h : Rex.Matches ci (Rex.rdig 1 2) l) :
    (∃ a, l = [a] ∧ jsIsDigit a = true) ∨
    (∃ a b, l = [a, b] ∧ jsIsDigit a = true ∧ jsIsDigit b = true) := by
  obtain ⟨hd, hlo, hhi⟩ := Rex.rep_inv h
  have h2 := hhi 2 rfl
  match l, hlo, h2 with
  | [a], _, _ =>
    exact Or.inl ⟨a, rfl, Rex.CC_digit (hd a (by simp))⟩
  | [a, b], _, _ =>
    exact Or.inr ⟨a, b, rfl, Rex.CC_digit (hd a (by simp)), Rex.CC_digit (hd b (by simp))⟩

/-- The consumed text of `/\d{4}-\d{2}(-\d{2})?/` sliced to 7 characters is a
canonical `YYYY-MM`. -/
theorem eYyyyMmDash_shape {l : List Char}
    (h : Rex.Matches false LabelFormats.eYyyyMmDash l) :
    canonicalYM (jsSlice0 7 (String.mk l)) = true := by
  unfold LabelFormats.eYyyyMmDash Rex.rcat Rex.rch at h
  simp only [List.foldr] at h
  obtain ⟨l1, r1, rfl, h1, hA⟩ := Rex.seq_inv h
  obtain ⟨l2, r2, rfl, h2, hB⟩ := Rex.seq_inv hA
  obtain ⟨l3, r3, rfl, h3, hC⟩ := Rex.seq_inv hB
  obtain ⟨hl1, hd1⟩ := rdig_exact h1
  obtain ⟨y1, y2, y3, y4, rfl⟩ := list_four hl1
  obtain ⟨cd, rfl, hcd⟩ := Rex.cls_inv h2
  obtain rfl := Rex.CC_ch_false hcd
  obtain ⟨hl3, hd3⟩ := rdig_exact h3
  obtain ⟨p, q, rfl⟩ := Rex.list_two hl3
  simp only [List.cons_append, List.nil_append]
  have ht : jsSlice0 7 (String.mk (y1 :: y2 :: y3 :: y4 :: '-' :: p :: q :: r3)) =
      String.mk [y1, y2, y3, y4, '-', p, q] := rfl
  rw [ht]
  have hy1 := hd1 y1 (by simp)
  have hy2 := hd1 y2 (by simp)
  have hy3 := hd1 y3 (by simp)
  have hy4 := hd1 y4 (by simp)
  have hp := hd3 p (by simp)
  have hq := hd3 q (by simp)
  simp [canonicalYM, hy1, hy2, hy3, hy4, hp, hq]
namespace Rex

theorem eps_inv {ci : Bool} {l : List Char} (h : Matches ci .eps l) : l = [] := by
  cases h
  rfl

end Rex

/-- Group 1 of `/\b(\d{4}-(?:JAN|…|DEC))\b/i` is an input `pYyyyMmm` accepts. -/
theorem eY4Mmm_grp1 {l : List Char}
    (h : Rex.GMatch true LabelFormats.eY4Mmm 1 l) :
    (LabelFormats.pYyyyMmm (String.mk l)).isSome = true := by
  unfold LabelFormats.eY4Mmm Rex.rcat Rex.rch at h
  simp only [List.foldr] at h
  rcases Rex.gm_seq_inv h with hg | h
  · exact absurd (Rex.gmatch_not_grpFree hg) (by decide)
  rcases Rex.gm_seq_inv h with h | hg
  swap
  · exact absurd (Rex.gmatch_not_grpFree hg) (by decide)
  rcases Rex.gm_grp_inv h with ⟨-, hm⟩ | hg
  swap
  · exact absurd (Rex.gmatch_not_grpFree hg) (by decide)
  obtain ⟨l1, r1, rfl, h1, hA⟩ := Rex.seq_inv hm
  obtain ⟨l2, r2, rfl, h2, hB⟩ := Rex.seq_inv hA
  obtain ⟨l3, r3, rfl, h3, hC⟩ := Rex.seq_inv hB
  obtain rfl := Rex.eps_inv hC
  obtain ⟨hl1, hd1⟩ := rdig_exact h1
  obtain ⟨y1, y2, y3, y4, rfl⟩ := list_four hl1
  obtain ⟨cd, rfl, hcd⟩ := Rex.cls_inv h2
  obtain rfl := CC_ch_ci_symbol (a := '-') (by decide) (by decide) hcd
  obtain ⟨m1, m2, m3, mm, rfl, hmon⟩ := monthsRx_lookup h3
  have hy1 := hd1 y1 (by simp)
  have hy2 := hd1 y2 (by simp)
  have hy3 := hd1 y3 (by simp)
  have hy4 := hd1 y4 (by simp)
  simp only [List.cons_append, List.nil_append, List.append_nil]
  simp [LabelFormats.pYyyyMmm, hy1, hy2, hy3, hy4, hmon]

/-- Groups 1 and 2 of `/EXP\s+(JAN|…|DEC)\s+(\d{4})/i` joined by a space form
an input `pMmmYyyy` accepts. -/
theorem eExpMmmYyyy_grps {l1 l2 : List Char}
    (h1 : Rex.GMatch true LabelFormats.eExpMmmYyyy 1 l1)
    (h2 : Rex.GMatch true LabelFormats.eExpMmmYyyy 2 l2) :
    (LabelFormats.pMmmYyyy (String.mk l1 ++ " " ++ String.mk l2)).isSome = true := by
  unfold LabelFormats.eExpMmmYyyy Rex.rcat at h1 h2
  simp only [List.foldr] at h1 h2
  -- group 1: the month alternation
  rcases Rex.gm_seq_inv h1 with hg | h1
  · exact absurd (Rex.gmatch_not_grpFree hg) (by decide)
  rcases Rex.gm_seq_inv h1 with hg | h1
  · exact absurd (Rex.gmatch_not_grpFree hg) (by decide)
  rcases Rex.gm_seq_inv h1 with h1 | h1
  case inr =>
    rcases Rex.gm_seq_inv h1 with hg | h1
    · exact absurd (Rex.gmatch_not_grpFree hg) (by decide)
    rcases Rex.gm_seq_inv h1 with h1 | hg
    swap
    · exact absurd (Rex.gmatch_not_grpFree hg) (by decide)
    rcases Rex.gm_grp_inv h1 with ⟨h12, -⟩ | hg
    · exact absurd h12 (by decide)
    · exact absurd (Rex.gmatch_not_grpFree hg) (by decide)
  rcases Rex.gm_grp_inv h1 with ⟨-, hm1⟩ | hg
  swap
  · exact absurd (Rex.gmatch_not_grpFree hg) (by decide)
  -- group 2: the four digits
  rcases Rex.gm_seq_inv h2 with hg | h2
  · exact absurd (Rex.gmatch_not_grpFree hg) (by decide)
  rcases Rex.gm_seq_inv h2 with hg | h2
  · exact absurd (Rex.gmatch_not_grpFree hg) (by decide)
  rcases Rex.gm_seq_inv h2 with h2 | h2
  case inl =>
    rcases Rex.gm_grp_inv h2 with ⟨h21, -⟩ | hg
    · exact absurd h21 (by decide)
    · exact absurd (Rex.gmatch_not_grpFree hg) (by decide)
  rcases Rex.gm_seq_inv h2 with hg | h2
  · exact absurd (Rex.gmatch_not_grpFree hg) (by decide)
  rcases Rex.gm_seq_inv h2 with h2 | hg
  swap
  · exact absurd (Rex.gmatch_not_grpFree hg) (by decide)
  rcases Rex.gm_grp_inv h2 with ⟨-, hm2⟩ | hg
  swap
  · exact absurd (Rex.gmatch_not_grpFree hg) (by decide)
  obtain ⟨m1, m2, m3, mm, rfl, hmon⟩ := monthsRx_lookup hm1
  obtain ⟨hl2, hd2⟩ := rdig_exact hm2
  obtain ⟨y1, y2, y3, y4, rfl⟩ := list_four hl2
  have hy1 := hd2 y1 (by simp)
  have hy2 := hd2 y2 (by simp)
  have hy3 := hd2 y3 (by simp)
  have hy4 := hd2 y4 (by simp)
  have hdata : (String.mk [m1, m2, m3] ++ " " ++ String.mk [y1, y2, y3, y4]).data =
      [m1, m2, m3, ' ', y1, y2, y3, y4] := by
    simp [String.data_append]
  simp [LabelFormats.pMmmYyyy, hdata, hmon, LabelFormats.afterSpaces4,
    List.dropWhile, digit_not_space hy1, hy1, hy2, hy3, hy4,
    show jsIsSpace ' ' = true from by decide]
/-- Groups 1 and 2 of `/EXP\s+(JAN|…|DEC)(\d{4})/i` concatenated form an input
`pMmmYyyyNoSpace` accepts. -/
theorem eExpMmmYyyyNoSpace_grps {l1 l2 : List Char}
    (h1 : Rex.GMatch true LabelFormats.eExpMmmYyyyNoSpace 1 l1)
    (h2 : Rex.GMatch true LabelFormats.eExpMmmYyyyNoSpace 2 l2) :
    (LabelFormats.pMmmYyyyNoSpace (String.mk l1 ++ String.mk l2)).isSome = true := by
  unfold LabelFormats.eExpMmmYyyyNoSpace Rex.rcat at h1 h2
  simp only [List.foldr] at h1 h2
  rcases Rex.gm_seq_inv h1 with hg | h1
  · exact absurd (Rex.gmatch_not_grpFree hg) (by decide)
  rcases Rex.gm_seq_inv h1 with hg | h1
  · exact absurd (Rex.gmatch_not_grpFree hg) (by decide)
  rcases Rex.gm_seq_inv h1 with h1 | h1
  case inr =>
    rcases Rex.gm_seq_inv h1 with h1 | hg
    swap
    · exact absurd (Rex.gmatch_not_grpFree hg) (by decide)
    rcases Rex.gm_grp_inv h1 with ⟨h12, -⟩ | hg
    · exact absurd h12 (by decide)
    · exact absurd (Rex.gmatch_not_grpFree hg) (by decide)
  rcases Rex.gm_grp_inv h1 with ⟨-, hm1⟩ | hg
  swap
  · exact absurd (Rex.gmatch_not_grpFree hg) (by decide)
  rcases Rex.gm_seq_inv h2 with hg | h2
  · exact absurd (Rex.gmatch_not_grpFree hg) (by decide)
  rcases Rex.gm_seq_inv h2 with hg | h2
  · exact absurd (Rex.gmatch_not_grpFree hg) (by decide)
  rcases Rex.gm_seq_inv h2 with h2 | h2
  case inl =>
    rcases Rex.gm_grp_inv h2 with ⟨h21, -⟩ | hg
    · exact absurd h21 (by decide)
    · exact absurd (Rex.gmatch_not_grpFree hg) (by decide)
  rcases Rex.gm_seq_inv h2 with h2 | hg
  swap
  · exact absurd (Rex.gmatch_not_grpFree hg) (by decide)
  rcases Rex.gm_grp_inv h2 with ⟨-, hm2⟩ | hg
  swap
  · exact absurd (Rex.gmatch_not_grpFree hg) (by decide)
  obtain ⟨m1, m2, m3, mm, rfl, hmon⟩ := monthsRx_lookup hm1
  obtain ⟨hl2, hd2⟩ := rdig_exact hm2
  obtain ⟨y1, y2, y3, y4, rfl⟩ := list_four hl2
  have hy1 := hd2 y1 (by simp)
  have hy2 := hd2 y2 (by simp)
  have hy3 := hd2 y3 (by simp)
  have hy4 := hd2 y4 (by simp)
  have hdata : (String.mk [m1, m2, m3] ++ String.mk [y1, y2, y3, y4]).data =
      [m1, m2, m3, y1, y2, y3, y4] := by
    simp [String.data_append]
  simp [LabelFormats.pMmmYyyyNoSpace, hdata, hmon, hy1, hy2, hy3, hy4]

/-- Group 1 of the `EXPIRATION DATE` regex is an input `pYyyyMmSlash` accepts. -/
theorem eExpirationDate_grp1 {l : List Char}
    (h : Rex.GMatch true LabelFormats.eExpirationDate 1 l) :
    (LabelFormats.pYyyyMmSlash (String.mk l)).isSome = true := by
  unfold LabelFormats.eExpirationDate Rex.rcat Rex.rch at h
  simp only [List.foldr] at h
  rcases Rex.gm_seq_inv h with hg | h
  · exact absurd (Rex.gmatch_not_grpFree hg) (by decide)
  rcases Rex.gm_seq_inv h with hg | h
  · exact absurd (Rex.gmatch_not_grpFree hg) (by decide)
  rcases Rex.gm_seq_inv h with hg | h
  · exact absurd (Rex.gmatch_not_grpFree hg) (by decide)
  rcases Rex.gm_seq_inv h with hg | h
  · exact absurd (Rex.gmatch_not_grpFree hg) (by decide)
  rcases Rex.gm_seq_inv h with hg | h
  · exact absurd (Rex.gmatch_not_grpFree hg) (by decide)
  rcases Rex.gm_seq_inv h with hg | h
  · exact absurd (Rex.gmatch_not_grpFree hg) (by decide)
  rcases Rex.gm_seq_inv h with h | hg
  swap
  · exact absurd (Rex.gmatch_not_grpFree hg) (by decide)
  rcases Rex.gm_grp_inv h with ⟨-, hm⟩ | hg
  swap
  · exact absurd (Rex.gmatch_not_grpFree hg) (by decide)
  obtain ⟨l1, r1, rfl, h1, hA⟩ := Rex.seq_inv hm
  obtain ⟨l2, r2, rfl, h2, hB⟩ := Rex.seq_inv hA
  obtain ⟨l3, r3, rfl, h3, hC⟩ := Rex.seq_inv hB
  obtain rfl := Rex.eps_inv hC
  obtain ⟨hl1, hd1⟩ := rdig_exact h1
  obtain ⟨y1, y2, y3, y4, rfl⟩ := list_four hl1
  obtain ⟨cd, rfl, hcd⟩ := Rex.cls_inv h2
  obtain rfl := CC_ch_ci_symbol (a := '/') (by decide) (by decide) hcd
  have hy1 := hd1 y1 (by simp)
  have hy2 := hd1 y2 (by simp)
  have hy3 := hd1 y3 (by simp)
  have hy4 := hd1 y4 (by simp)
  rcases rdig12_cases h3 with ⟨a, rfl, ha⟩ | ⟨a, b, rfl, ha, hb⟩ <;>
    simp [LabelFormats.pYyyyMmSlash, LabelFormats.d4Then, LabelFormats.d12Then,
      hy1, hy2, hy3, hy4, ha, *]

/-- Group 1 of the `EXP MM/YYYY` regex is an input `pMmYyyy` accepts. -/
theorem eExpSlash_grp1 {l : List Char}
    (h : Rex.GMatch true LabelFormats.eExpSlash 1 l) :
    (LabelFormats.pMmYyyy (String.mk l)).isSome = true := by
  unfold LabelFormats.eExpSlash Rex.rcat Rex.rch at h
  simp only [List.foldr] at h
  rcases Rex.gm_seq_inv h with hg | h
  · exact absurd (Rex.gmatch_not_grpFree hg) (by decide)
  rcases Rex.gm_seq_inv h with h | hg
  swap
  · exact absurd (Rex.gmatch_not_grpFree hg) (by decide)
  rcases Rex.gm_grp_inv h with ⟨-, hm⟩ | hg
  swap
  · exact absurd (Rex.gmatch_not_grpFree hg) (by decide)
  obtain ⟨l1, r1, rfl, h1, hA⟩ := Rex.seq_inv hm
  obtain ⟨l2, r2, rfl, h2, hB⟩ := Rex.seq_inv hA
  obtain ⟨l3, r3, rfl, h3, hC⟩ := Rex.seq_inv hB
  obtain rfl := Rex.eps_inv hC
  obtain ⟨cd, rfl, hcd⟩ := Rex.cls_inv h2
  obtain rfl := CC_ch_ci_symbol (a := '/') (by decide) (by decide) hcd
  obtain ⟨hl3, hd3⟩ := rdig_exact h3
  obtain ⟨y1, y2, y3, y4, rfl⟩ := list_four hl3
  have hy1 := hd3 y1 (by simp)
  have hy2 := hd3 y2 (by simp)
  have hy3 := hd3 y3 (by simp)
  have hy4 := hd3 y4 (by simp)
  rcases rdig12_cases h1 with ⟨a, rfl, ha⟩ | ⟨a, b, rfl, ha, hb⟩ <;>
    simp [LabelFormats.pMmYyyy, LabelFormats.d4Then, LabelFormats.d12Then,
      hy1, hy2, hy3, hy4, ha, show jsIsDigit '/' = false from by decide, *]

/-- Group 1 of the plain `MM/YYYY` regex is an input `pMmYyyy` accepts. -/
theorem eSlashPlain_grp1 {l : List Char}
    (h : Rex.GMatch false LabelFormats.eSlashPlain 1 l) :
    (LabelFormats.pMmYyyy (String.mk l)).isSome = true := by
  unfold LabelFormats.eSlashPlain Rex.rcat Rex.rch at h
  simp only [List.foldr] at h
  rcases Rex.gm_grp_inv h with ⟨-, hm⟩ | hg
  swap
  · exact absurd (Rex.gmatch_not_grpFree hg) (by decide)
  obtain ⟨l1, r1, rfl, h1, hA⟩ := Rex.seq_inv hm
  obtain ⟨l2, r2, rfl, h2, hB⟩ := Rex.seq_inv hA
  obtain ⟨l3, r3, rfl, h3, hC⟩ := Rex.seq_inv hB
  obtain rfl := Rex.eps_inv hC
  obtain ⟨cd, rfl, hcd⟩ := Rex.cls_inv h2
  obtain rfl := Rex.CC_ch_false hcd
  obtain ⟨hl3, hd3⟩ := rdig_exact h3
  obtain ⟨y1, y2, y3, y4, rfl⟩ := list_four hl3
  have hy1 := hd3 y1 (by simp)
  have hy2 := hd3 y2 (by simp)
  have hy3 := hd3 y3 (by simp)
  have hy4 := hd3 y4 (by simp)
  rcases rdig12_cases h1 with ⟨a, rfl, ha⟩ | ⟨a, b, rfl, ha, hb⟩ <;>
    simp [LabelFormats.pMmYyyy, LabelFormats.d4Then, LabelFormats.d12Then,
      hy1, hy2, hy3, hy4, ha, show jsIsDigit '/' = false from by decide, *]
/-- On an input one of its six patterns accepts, `labelFormats.normalizeExpiry`
returns a canonical `YYYY-MM`. -/
theorem ocrNorm_canon_of_recognized {x : String} (hr : ocrRecognized x = true) :
    canonicalYM (LabelFormats.normalizeExpiry x) = true := by
  unfold LabelFormats.normalizeExpiry
  cases h1 : LabelFormats.pYyyyMmm x with
  | some ym =>
    obtain ⟨y, m⟩ := ym
    simp only [h1]
    exact pYyyyMmm_canon h1
  | none =>
  simp only [h1]
  cases h2 : LabelFormats.pMmmYyyy x with
  | some my =>
    obtain ⟨m, y⟩ := my
    simp only [h2]
    exact pMmmYyyy_canon h2
  | none =>
  simp only [h2]
  cases h3 : LabelFormats.pMmmYyyyNoSpace x with
  | some my =>
    obtain ⟨m, y⟩ := my
    simp only [h3]
    exact pMmmYyyyNoSpace_canon h3
  | none =>
  simp only [h3]
  cases h4 : LabelFormats.pSlashMdy x with
  | some mdy =>
    obtain ⟨m, d, y⟩ := mdy
    simp only [h4]
    exact pSlashMdy_canon h4
  | none =>
  simp only [h4]
  cases h5 : LabelFormats.pMmYyyy x with
  | some my =>
    obtain ⟨m, y⟩ := my
    simp only [h5]
    exact pMmYyyy_canon h5
  | none =>
  simp only [h5]
  cases h6 : LabelFormats.pYyyyMmSlash x with
  | some ym =>
    obtain ⟨y, m⟩ := ym
    simp only [h6]
    exact pYyyyMmSlash_canon h6
  | none =>
  exfalso
  unfold ocrRecognized at hr
  rw [h1, h2, h3, h4, h5, h6] at hr
  simp at hr
/-- The expiry of a matcher result is absent or canonical `YYYY-MM`. -/
def expiryCanon (r : LabelFormats.LabelFormatResult) : Prop :=
  r.expiry = none ∨ ∃ e, r.expiry = some e ∧ canonicalYM e = true

theorem canonicalYM_ne_empty {e : String} (h : canonicalYM e = true) : e ≠ "" := by
  obtain ⟨y1, y2, y3, y4, m1, m2, hdata, -⟩ := canonicalYM_elim h
  intro he
  rw [he] at hdata
  simp at hdata

theorem gs1Style_expiry (t : String) :
    expiryCanon (LabelFormats.gs1Style.extract t) := by
  unfold expiryCanon LabelFormats.gs1Style
  simp only
  cases hm : Rex.jsMatch false LabelFormats.eYyyyMmDash t with
  | none =>
    left
    simp only [hm]
    repeat' split
    all_goals rfl
  | some m =>
    right
    refine ⟨jsSlice0 7 m.whole, ?_, ?_⟩
    · simp only [hm]
      repeat' split
      all_goals rfl
    · have hms := (Rex.jsMatch_sound hm).1
      have hsh := eYyyyMmDash_shape hms
      have heta : String.mk m.whole.data = m.whole := rfl
      rw [heta] at hsh
      exact hsh

theorem numericLot_expiry (t : String) :
    expiryCanon (LabelFormats.numericLotYyyyMmm.extract t) := by
  unfold expiryCanon LabelFormats.numericLotYyyyMmm
  simp only
  cases hm : Rex.jsMatch true LabelFormats.eY4Mmm t with
  | none =>
    left
    simp only [hm]
    repeat' split
    all_goals rfl
  | some m =>
    right
    refine ⟨LabelFormats.normalizeExpiry (m.grpD 1), ?_, ?_⟩
    · simp only [hm]
    · apply ocrNorm_canon_of_recognized
      have hg := Rex.jsMatch_grpD hm (i := 1) (by decide)
      have hp := eY4Mmm_grp1 hg
      unfold ocrRecognized
      have heta : String.mk (m.grpD 1).data = m.grpD 1 := rfl
      rw [heta] at hp
      simp [hp]

theorem lotExp_expiry (t : String) :
    expiryCanon (LabelFormats.lotExpMmmYyyy.extract t) := by
  unfold expiryCanon LabelFormats.lotExpMmmYyyy
  simp only
  cases hm2 : Rex.jsMatch true LabelFormats.eExpMmmYyyy t with
  | some m =>
    have hg1 := Rex.jsMatch_grpD hm2 (i := 1) (by decide)
    have hg2 := Rex.jsMatch_grpD hm2 (i := 2) (by decide)
    have hp := eExpMmmYyyy_grps hg1 hg2
    have heta : (String.mk (m.grpD 1).data ++ " " ++ String.mk (m.grpD 2).data) =
        (m.grpD 1 ++ " " ++ m.grpD 2) := rfl
    rw [heta] at hp
    have he : canonicalYM
        (LabelFormats.normalizeExpiry (m.grpD 1 ++ " " ++ m.grpD 2)) = true := by
      apply ocrNorm_canon_of_recognized
      unfold ocrRecognized
      simp [hp]
    right
    refine ⟨LabelFormats.normalizeExpiry (m.grpD 1 ++ " " ++ m.grpD 2), ?_, he⟩
    have ht := jsTruthyO_some.mpr (canonicalYM_ne_empty he)
    simp only [hm2]
    cases hm1 : Rex.jsMatch true LabelFormats.eLotSix t with
    | some m1 =>
      simp only [hm1]
      simp [ht]
    | none =>
      simp only [hm1]
      simp [ht]
  | none =>
    simp only [hm2]
    cases hm3 : Rex.jsMatch true LabelFormats.eExpMmmYyyyNoSpace t with
    | some m =>
      have hg1 := Rex.jsMatch_grpD hm3 (i := 1) (by decide)
      have hg2 := Rex.jsMatch_grpD hm3 (i := 2) (by decide)
      have hp := eExpMmmYyyyNoSpace_grps hg1 hg2
      have heta : (String.mk (m.grpD 1).data ++ String.mk (m.grpD 2).data) =
          (m.grpD 1 ++ m.grpD 2) := rfl
      rw [heta] at hp
      have he : canonicalYM
          (LabelFormats.normalizeExpiry (m.grpD 1 ++ m.grpD 2)) = true := by
        apply ocrNorm_canon_of_recognized
        unfold ocrRecognized
        simp [hp]
      right
      refine ⟨LabelFormats.normalizeExpiry (m.grpD 1 ++ m.grpD 2), ?_, he⟩
      simp only [hm3]
      cases hm1 : Rex.jsMatch true LabelFormats.eLotSix t with
      | some m1 =>
        simp only [hm1]
        rfl
      | none =>
        simp only [hm1]
        rfl
    | none =>
      left
      simp only [hm3]
      cases hm1 : Rex.jsMatch true LabelFormats.eLotSix t with
      | some m1 =>
        simp only [hm1]
        rfl
      | none =>
        simp only [hm1]
        rfl

theorem lotNumber_expiry (t : String) :
    expiryCanon (LabelFormats.lotNumberExpirationDate.extract t) := by
  unfold expiryCanon LabelFormats.lotNumberExpirationDate
  simp only
  cases hm : Rex.jsMatch true LabelFormats.eExpirationDate t with
  | none =>
    left
    simp only [hm]
    repeat' split
    all_goals rfl
  | some m =>
    right
    refine ⟨LabelFormats.normalizeExpiry (m.grpD 1), ?_, ?_⟩
    · simp only [hm]
    · apply ocrNorm_canon_of_recognized
      have hg := Rex.jsMatch_grpD hm (i := 1) (by decide)
      have hp := eExpirationDate_grp1 hg
      have heta : String.mk (m.grpD 1).data = m.grpD 1 := rfl
      rw [heta] at hp
      unfold ocrRecognized
      simp [hp]

theorem lotHash_expiry (t : String) :
    expiryCanon (LabelFormats.lotHashExpSlash.extract t) := by
  unfold expiryCanon LabelFormats.lotHashExpSlash
  simp only
  cases hs : Rex.jsMatch true LabelFormats.eExpSlash t with
  | some m =>
    have hg := Rex.jsMatch_grpD hs (i := 1) (by decide)
    have hp := eExpSlash_grp1 hg
    have heta : String.mk (m.grpD 1).data = m.grpD 1 := rfl
    rw [heta] at hp
    have he : canonicalYM (LabelFormats.normalizeExpiry (m.grpD 1)) = true := by
      apply ocrNorm_canon_of_recognized
      unfold ocrRecognized
      simp [hp]
    right
    refine ⟨LabelFormats.normalizeExpiry (m.grpD 1), ?_, he⟩
    simp only [hs]
    repeat' split
    all_goals rfl
  | none =>
    simp only [hs]
    cases hq : Rex.jsMatch false LabelFormats.eSlashPlain t with
    | some m =>
      have hg := Rex.jsMatch_grpD hq (i := 1) (by decide)
      have hp := eSlashPlain_grp1 hg
      have heta : String.mk (m.grpD 1).data = m.grpD 1 := rfl
      rw [heta] at hp
      have he : canonicalYM (LabelFormats.normalizeExpiry (m.grpD 1)) = true := by
        apply ocrNorm_canon_of_recognized
        unfold ocrRecognized
        simp [hp]
      right
      refine ⟨LabelFormats.normalizeExpiry (m.grpD 1), ?_, he⟩
      simp only [hq]
      repeat' split
      all_goals rfl
    | none =>
      left
      simp only [hq]
      repeat' split
      all_goals rfl

theorem fallback_expiry (t : String) :
    expiryCanon (LabelFormats.fallback.extract t) := by
  unfold expiryCanon LabelFormats.fallback
  simp only
  cases hm : Rex.jsMatch false LabelFormats.eYyyyMmDash t with
  | some m =>
    right
    refine ⟨jsSlice0 7 m.whole, ?_, ?_⟩
    · simp only [hm]
      repeat' split
      all_goals rfl
    · have hms := (Rex.jsMatch_sound hm).1
      have hsh := eYyyyMmDash_shape hms
      have heta : String.mk m.whole.data = m.whole := rfl
      rw [heta] at hsh
      exact hsh
  | none =>
    simp only [hm]
    cases hq : Rex.jsMatch false LabelFormats.eSlashPlain t with
    | some m =>
      have hg := Rex.jsMatch_grpD hq (i := 1) (by decide)
      have hp := eSlashPlain_grp1 hg
      have heta : String.mk (m.grpD 1).data = m.grpD 1 := rfl
      rw [heta] at hp
      have he : canonicalYM (LabelFormats.normalizeExpiry (m.grpD 1)) = true := by
        apply ocrNorm_canon_of_recognized
        unfold ocrRecognized
        simp [hp]
      right
      refine ⟨LabelFormats.normalizeExpiry (m.grpD 1), ?_, he⟩
      simp only [hq]
      repeat' split
      all_goals rfl
    | none =>
      left
      simp only [hq]
      repeat' split
      all_goals rfl
/-- The selection loop keeps the empty record or returns one of its inputs. -/
theorem selectBest_cases (rs : List LabelFormats.LabelFormatResult) :
    (LabelFormats.selectBest rs).1 = ({} : LabelFormats.LabelFormatResult) ∨
      (LabelFormats.selectBest rs).1 ∈ rs := by
  have aux : ∀ (l : List LabelFormats.LabelFormatResult)
      (acc : LabelFormats.LabelFormatResult × Nat),
      (List.foldl LabelFormats.selStep acc l).1 = acc.1 ∨
        (List.foldl LabelFormats.selStep acc l).1 ∈ l := by
    intro l
    induction l with
    | nil => intro acc; exact Or.inl rfl
    | cons r rest ih =>
      intro acc
      rw [List.foldl_cons]
      rcases ih (LabelFormats.selStep acc r) with h | h
      · rw [h]
        unfold LabelFormats.selStep
        split
        · exact Or.inr (List.mem_cons_self _ _)
        · exact Or.inl rfl
      · exact Or.inr (List.mem_cons_of_mem _ h)
  exact aux rs ({}, 0)

/-- A canonical `YYYY-MM` value has no surrounding whitespace. -/
theorem canonicalYM_trim {e : String} (h : canonicalYM e = true) : jsTrim e = e := by
  obtain ⟨y1, y2, y3, y4, m1, m2, hdata, h1, h2, h3, h4, h5, h6⟩ := canonicalYM_elim h
  have hs1 := digit_not_space h1
  have hs6 := digit_not_space h6
  have he : e = String.mk [y1, y2, y3, y4, '-', m1, m2] := by
    have heta : String.mk e.data = e := rfl
    rw [← heta, hdata]
  rw [he]
  unfold jsTrim
  simp [List.dropWhile, hs1, hs6]

/-- Every non-empty expiry `extractLabelFromOcr` returns is canonical
`YYYY-MM`. -/
theorem extractLabelFromOcr_expiry (x : String) :
    (LabelFormats.extractLabelFromOcr x).expiry = "" ∨
      canonicalYM (LabelFormats.extractLabelFromOcr x).expiry = true := by
  simp only [LabelFormats.extractLabelFromOcr]
  rcases selectBest_cases (LabelFormats.LABEL_FORMATS.map
      (fun f => f.extract (jsTrim (jsCollapseWs x)))) with hb | hb
  · left
    repeat' split
    all_goals simp only [hb]
    all_goals rfl
  · obtain ⟨f, hf, hfe⟩ := List.mem_map.mp hb
    have hec : expiryCanon ((LabelFormats.selectBest (LabelFormats.LABEL_FORMATS.map
        (fun f => f.extract (jsTrim (jsCollapseWs x))))).1) := by
      rw [← hfe]
      simp only [LabelFormats.LABEL_FORMATS, List.mem_cons, List.not_mem_nil,
        or_false] at hf
      rcases hf with rfl | rfl | rfl | rfl | rfl | rfl
      exacts [gs1Style_expiry _, numericLot_expiry _, lotExp_expiry _,
        lotNumber_expiry _, lotHash_expiry _, fallback_expiry _]
    rcases hec with hnone | ⟨e, hsome, hcan⟩
    · left
      repeat' split
      all_goals simp only [hnone]
      all_goals rfl
    · right
      repeat' split
      all_goals simp only [hsome, Option.getD_some]
      all_goals rw [canonicalYM_trim hcan]
      all_goals exact hcan

/-! ## Claim theorems -/

/-- C1 (amended).  After `scanditFieldsToLabelJson`'s final clean-up, a
non-empty `upc_gtin` (productId) or `ref` (reference) value never remains in
`batch_no` or `lot_no`; the original four-way pairwise claim — no two of the
four fields equal — is refuted separately, since `ref` may equal `upc_gtin`. -/
theorem claim_C1 (lib : String → Gs1.LibOutcome) (fields : List ScanditMap.ScanditField) :
    (∀ u, (ScanditMap.scanditFieldsToLabelJson lib fields).labelJson.upc_gtin = some u →
      u ≠ "" →
      (ScanditMap.scanditFieldsToLabelJson lib fields).labelJson.batch_no ≠ u ∧
      (ScanditMap.scanditFieldsToLabelJson lib fields).labelJson.lot_no ≠ u) ∧
    (∀ u, (ScanditMap.scanditFieldsToLabelJson lib fields).labelJson.ref = some u →
      u ≠ "" →
      (ScanditMap.scanditFieldsToLabelJson lib fields).labelJson.batch_no ≠ u ∧
      (ScanditMap.scanditFieldsToLabelJson lib fields).labelJson.lot_no ≠ u) := by
  simp only [ScanditMap.scanditFieldsToLabelJson]
  exact applyBarcodeRefClear_inv _

theorem claim_C1_witness :
    (ScanditMap.scanditFieldsToLabelJson Gs1.libThrows
        [⟨"Barcode", "123456"⟩]).labelJson.upc_gtin = some "123456" ∧
    (ScanditMap.scanditFieldsToLabelJson Gs1.libThrows
        [⟨"Barcode", "123456"⟩]).labelJson.batch_no ≠ "123456" ∧
    (ScanditMap.scanditFieldsToLabelJson Gs1.libThrows
        [⟨"Barcode", "123456"⟩]).labelJson.lot_no ≠ "123456" :=
  have h : (ScanditMap.scanditFieldsToLabelJson Gs1.libThrows
      [⟨"Barcode", "123456"⟩]).labelJson.upc_gtin = some "123456" := by decide
  ⟨h, (claim_C1 Gs1.libThrows [⟨"Barcode", "123456"⟩]).1 "123456" h (by decide)⟩

/-- Refutes C1 as stated: a record where `ref` and `upc_gtin` hold the same
non-empty value. -/
theorem claim_C1_cex :
    (ScanditMap.scanditFieldsToLabelJson Gs1.libThrows
        [⟨"Ref no", "456085"⟩, ⟨"Barcode", "456085"⟩]).labelJson.ref = some "456085" ∧
    (ScanditMap.scanditFieldsToLabelJson Gs1.libThrows
        [⟨"Ref no", "456085"⟩, ⟨"Barcode", "456085"⟩]).labelJson.upc_gtin = some "456085" ∧
    ("456085" : String) ≠ "" := by
  exact ⟨by decide, by decide, by decide⟩
/-- C2 (amended).  The expiry values produced by the GS1 positional fallback
are empty or canonical `YYYY-MM-DD`, every non-empty expiry returned by
`extractLabelFromOcr` is canonical `YYYY-MM`, and both expiry normalizers
return either their (trimmed) input unchanged or a canonical `YYYY-MM`; the
full claim — every non-empty `expiry` leaving the engine is canonical — is
refuted separately, since the mapper's `YYMMDD` redirect stores the raw six
digits. -/
theorem claim_C2 :
    (∀ s r, Gs1.parseConcatenatedGs1 s = some r →
       r.expiry = "" ∨ canonicalYMD r.expiry = true) ∧
    (∀ x, LabelFormats.normalizeExpiry x = x ∨
       canonicalYM (LabelFormats.normalizeExpiry x) = true) ∧
    (∀ v, ScanditMap.normalizeExpiry v = jsTrim v ∨
       canonicalYM (ScanditMap.normalizeExpiry v) = true) ∧
    (∀ x, (LabelFormats.extractLabelFromOcr x).expiry = "" ∨
       canonicalYM (LabelFormats.extractLabelFromOcr x).expiry = true) :=
  ⟨fun _ _ h => parseConcatenatedGs1_expiry h, ocrNorm_out, mapperNorm_out,
   extractLabelFromOcr_expiry⟩

theorem claim_C2_witness :
    Gs1.parseConcatenatedGs1 "0100350111561014211010454151481217270531107981055" =
      some ⟨"7981055", "7981055", "2027-05-31",
        some "00350111561014", some "10104541514812172705"⟩ ∧
    (Gs1.Gs1LabelResult.expiry ⟨"7981055", "7981055", "2027-05-31",
        some "00350111561014", some "10104541514812172705"⟩ = "" ∨
      canonicalYMD (Gs1.Gs1LabelResult.expiry ⟨"7981055", "7981055", "2027-05-31",
        some "00350111561014", some "10104541514812172705"⟩) = true) :=
  have h : Gs1.parseConcatenatedGs1 "0100350111561014211010454151481217270531107981055" =
      some ⟨"7981055", "7981055", "2027-05-31",
        some "00350111561014", some "10104541514812172705"⟩ := by decide
  ⟨h, claim_C2.1 _ _ h⟩

/-- Refutes C2 as stated: the mapper returns the raw, non-canonical expiry
`"261201"` to its caller. -/
theorem claim_C2_cex :
    (ScanditMap.scanditFieldsToLabelJson Gs1.libThrows
        [⟨"Batch/Lot (numeric)", "261201"⟩]).labelJson.expiry = "261201" ∧
    canonicalYM "261201" = false ∧ canonicalYMD "261201" = false := by
  exact ⟨by decide, by decide, by decide⟩

/-- C3 (amended).  In the field loop a plausible-`YYMMDD` "Batch/Lot (numeric)"
value is written to `expiry` only — raw, not normalized — and not to
`batch_no`/`lot_no`, and an invalid one fills `batch_no` and `lot_no` with
`expiry` untouched; but end to end the raw-text fallback pass copies the same
six digits into `lot_no`, so "writes nothing to batch_no/lot_no" is refuted
separately; in the example traces the external GS1 library is never consulted
(no barcode field is present), so they are stated at the throwing stub. -/
theorem claim_C3 :
    (∀ st f, ScanditMap.ScanditField.name f = "Batch/Lot (numeric)" →
       ScanditMap.isLikelyYYMMDD (jsTrim f.value) = true →
       ScanditMap.processField st f =
         { st with json := { st.json with expiry := jsTrim f.value },
                   lines := st.lines ++ [f.name ++ ": " ++ f.value] }) ∧
    (ScanditMap.scanditFieldsToLabelJson Gs1.libThrows
        [⟨"Batch/Lot (numeric)", "261201"⟩] =
       ⟨{ batch_no := "", lot_no := "261201", expiry := "261201" },
        "Batch/Lot (numeric): 261201"⟩) ∧
    (ScanditMap.scanditFieldsToLabelJson Gs1.libThrows
        [⟨"Batch/Lot (numeric)", "999999"⟩] =
       ⟨{ batch_no := "999999", lot_no := "999999", expiry := "" },
        "Batch/Lot (numeric): 999999"⟩) :=
  ⟨fun st f h1 h2 => processField_yymmdd st f h1 h2, by decide, by decide⟩

theorem claim_C3_witness :
    ScanditMap.processField ⟨{ batch_no := "", lot_no := "", expiry := "" }, [], []⟩
        ⟨"Batch/Lot (numeric)", "261201"⟩ =
      ⟨{ batch_no := "", lot_no := "", expiry := "261201" },
       ["Batch/Lot (numeric): 261201"], []⟩ :=
  claim_C3.1 ⟨{ batch_no := "", lot_no := "", expiry := "" }, [], []⟩
    ⟨"Batch/Lot (numeric)", "261201"⟩ rfl (by decide)

/-- Refutes C3 as stated: on the valid `YYMMDD` input `261201` the mapper does
write `lot_no`, and the stored expiry is not normalized. -/
theorem claim_C3_cex :
    (ScanditMap.scanditFieldsToLabelJson Gs1.libThrows
        [⟨"Batch/Lot (numeric)", "261201"⟩]).labelJson.lot_no = "261201" ∧
    ("261201" : String) ≠ "" := by
  exact ⟨by decide, by decide⟩
/-- C4.  The mapper's expiry normalizer sends each of the spec's example
notations — including the 50-pivot two-digit year — to `"2027-03"`, the
month/day/year form is truncated to `YYYY-MM`, the pivot maps `12/50` to 1950,
and each normalizer returns any input matching none of its patterns unchanged
(up to the initial trim), so it never fails. -/
theorem claim_C4 :
    (ScanditMap.normalizeExpiry "2027-MAR" = "2027-03" ∧
     ScanditMap.normalizeExpiry "MAR 2027" = "2027-03" ∧
     ScanditMap.normalizeExpiry "MAR2027" = "2027-03" ∧
     ScanditMap.normalizeExpiry "03/2027" = "2027-03" ∧
     ScanditMap.normalizeExpiry "2027/03" = "2027-03" ∧
     ScanditMap.normalizeExpiry "03/27" = "2027-03") ∧
    (ScanditMap.normalizeExpiry "04/15/2027" = "2027-04" ∧
     ScanditMap.normalizeExpiry "12/50" = "1950-12") ∧
    (∀ raw, ocrRecognized raw = false → LabelFormats.normalizeExpiry raw = raw) ∧
    (∀ v, jsTrim v = v → mapperRecognized v = false →
       ScanditMap.normalizeExpiry v = v) :=
  ⟨by decide, by decide, ocr_passthrough, mapper_passthrough⟩

theorem claim_C4_witness :
    (ocrRecognized "junk" = false ∧ LabelFormats.normalizeExpiry "junk" = "junk") ∧
    (jsTrim "junk" = "junk" ∧ mapperRecognized "junk" = false ∧
      ScanditMap.normalizeExpiry "junk" = "junk") :=
  ⟨⟨by decide, claim_C4.2.2.1 "junk" (by decide)⟩,
   ⟨by decide, by decide, claim_C4.2.2.2 "junk" (by decide) (by decide)⟩⟩

/-- C5.  On the separator-less example the positional fallback extracts the
full 14-digit GTIN and the batch `7981055` — not the `10` embedded in the
GTIN — and in general the batch of any successful fallback parse is the
AI-10-after-`17YYMMDD` match bounded by AI `21` when one exists, otherwise the
run-to-end match, otherwise empty. -/
theorem claim_C5 :
    (Gs1.parseConcatenatedGs1 "0100350111561014211010454151481217270531107981055" =
       some ⟨"7981055", "7981055", "2027-05-31",
         some "00350111561014", some "10104541514812172705"⟩) ∧
    (∀ s r, Gs1.parseConcatenatedGs1 s = some r →
       r.batch_no =
         (match Gs1.searchBatchBeforeSerial (stripWs s).data with
          | some b => String.mk b
          | none =>
            match Gs1.searchBatchToEnd (stripWs s).data with
            | some b => String.mk b
            | none => "")) := by
  refine ⟨by decide, fun s r h => ?_⟩
  simp only [Gs1.parseConcatenatedGs1] at h
  split at h
  · simp at h
  · split at h
    · simp at h
    · obtain rfl := Option.some.inj h
      rfl

theorem claim_C5_witness :
    Gs1.parseConcatenatedGs1 "010035011156101417270531107981055" =
      some ⟨"7981055", "7981055", "2027-05-31", some "00350111561014", none⟩ ∧
    Gs1.Gs1LabelResult.batch_no
        ⟨"7981055", "7981055", "2027-05-31", some "00350111561014", none⟩ =
      (match Gs1.searchBatchBeforeSerial
          (stripWs "010035011156101417270531107981055").data with
       | some b => String.mk b
       | none =>
         match Gs1.searchBatchToEnd
             (stripWs "010035011156101417270531107981055").data with
         | some b => String.mk b
         | none => "") :=
  have h : Gs1.parseConcatenatedGs1 "010035011156101417270531107981055" =
      some ⟨"7981055", "7981055", "2027-05-31", some "00350111561014", none⟩ := by decide
  ⟨h, claim_C5.2 _ _ h⟩
/-- C6 (amended).  The selection loop over the matcher results returns the
maximal score; if every matcher scores zero it keeps the empty record,
otherwise it returns the first result attaining the maximum (ties keep the
first, priority-ordered); on the spec's example text the score-2 result
`lotNo = 20054138`, `expiry = 2027-02` is selected.  The claim that the
returned record always *is* a matcher result is refuted separately: the
short-first-line back-fill can rewrite `batch_no` after selection. -/
theorem claim_C6 :
    (∀ rs, (LabelFormats.selectBest rs).2 = LabelFormats.maxScore rs) ∧
    (∀ rs, LabelFormats.maxScore rs = 0 →
       (LabelFormats.selectBest rs).1 = ({} : LabelFormats.LabelFormatResult)) ∧
    (∀ rs, 0 < LabelFormats.maxScore rs →
       rs.find? (fun r => LabelFormats.score r == LabelFormats.maxScore rs) =
         some (LabelFormats.selectBest rs).1) ∧
    (LabelFormats.extractLabelFromOcr "Lot No.: 20054138\nExp.: 2027-02" =
       ⟨"", "20054138", "2027-02"⟩) :=
  ⟨LabelFormats.selectBest_score, fun _ h => LabelFormats.selectBest_zero h,
   fun _ h => LabelFormats.selectBest_first h, by decide⟩

theorem claim_C6_witness :
    (LabelFormats.maxScore [] = 0 ∧
      (LabelFormats.selectBest []).1 = ({} : LabelFormats.LabelFormatResult)) ∧
    (0 < LabelFormats.maxScore [⟨none, some "A", none⟩] ∧
      List.find?
          (fun r => LabelFormats.score r ==
            LabelFormats.maxScore [⟨none, some "A", none⟩])
          [⟨none, some "A", none⟩] =
        some (LabelFormats.selectBest [⟨none, some "A", none⟩]).1) :=
  ⟨⟨by decide, claim_C6.2.1 [] (by decide)⟩,
   ⟨by decide, claim_C6.2.2.1 [⟨none, some "A", none⟩] (by decide)⟩⟩

/-- Refutes C6 as stated: with a short alphanumeric first OCR line, the
returned `batch_no` is `"XYZ"` although no registered matcher produced it. -/
theorem claim_C6_cex :
    (LabelFormats.extractLabelFromOcr
        "XYZ\nLot No.: 20054138\nExp.: 2027-02").batch_no = "XYZ" ∧
    (∀ f ∈ LabelFormats.LABEL_FORMATS,
      ((LabelFormats.LabelFormat.extract f
          (jsTrim (jsCollapseWs "XYZ\nLot No.: 20054138\nExp.: 2027-02"))).batch_no.getD "")
        ≠ "XYZ") := by
  exact ⟨by decide, by decide⟩

/-- C7.  `parseGs1ToLabelJson` returns `none` only when nothing was found:
the positional fallback found no field, and any data object the external
library returned with a truthy key set had empty GTIN, expiry, batch and
serial renderings. -/
theorem claim_C7 (lib : String → Gs1.LibOutcome) (raw : String)
    (h : Gs1.parseGs1ToLabelJson lib raw = none) :
    Gs1.parseConcatenatedGs1 (Gs1.preprocess raw) = none ∧
    (Gs1.preprocess raw ≠ "" → ∀ d, lib (Gs1.preprocess raw) = .ret (some d) →
      d.nonEmptyKeys = true →
      Gs1.elToStr d.batch = "" ∧ Gs1.elToStr d.expDate = "" ∧
      Gs1.elToStr d.gtin = "" ∧ Gs1.elToStr d.serial = "") :=
  parseGs1_none_sound h

theorem claim_C7_witness :
    Gs1.parseGs1ToLabelJson Gs1.libThrows "no gs1 here" = none ∧
    Gs1.parseConcatenatedGs1 (Gs1.preprocess "no gs1 here") = none :=
  have h : Gs1.parseGs1ToLabelJson Gs1.libThrows "no gs1 here" = none := by decide
  ⟨h, (claim_C7 Gs1.libThrows "no gs1 here" h).1⟩

/-- C8.  A "Product code" field whose value is at most three characters or a
known OCR confusion (`L0T`, `EXP`, `LAY0UT`, …) is discarded: the misread test
accepts exactly those values, such a field leaves the loop state untouched —
no output key, no raw-text line — and end to end it yields the empty record
and empty raw text. -/
theorem scandit_congr_foldl (lib : String → Gs1.LibOutcome)
    (fields fields' : List ScanditMap.ScanditField)
    (h : fields.foldl ScanditMap.processField
          ⟨{ batch_no := "", lot_no := "", expiry := "" }, [], []⟩ =
        fields'.foldl ScanditMap.processField
          ⟨{ batch_no := "", lot_no := "", expiry := "" }, [], []⟩) :
    ScanditMap.scanditFieldsToLabelJson lib fields =
      ScanditMap.scanditFieldsToLabelJson lib fields' := by
  unfold ScanditMap.scanditFieldsToLabelJson
  rw [h]

theorem claim_C8 :
    (ScanditMap.isProductCodeMisread "L0T" = true ∧
     ScanditMap.isProductCodeMisread "EXP" = true ∧
     ScanditMap.isProductCodeMisread "LAY0UT" = true ∧
     ScanditMap.isProductCodeMisread "AB" = true ∧
     ScanditMap.isProductCodeMisread "B0Z7" = false) ∧
    (∀ st f, ScanditMap.ScanditField.name f = "Product code" →
       ScanditMap.isProductCodeMisread (jsTrim f.value) = true →
       ScanditMap.processField st f = st) ∧
    (∀ lib v, ScanditMap.isProductCodeMisread (jsTrim v) = true →
       ScanditMap.scanditFieldsToLabelJson lib [⟨"Product code", v⟩] =
         ⟨{ batch_no := "", lot_no := "", expiry := "" }, ""⟩) := by
  refine ⟨by decide, fun st f h1 h2 => processField_misread st f h1 h2, ?_⟩
  intro lib v hv
  have h0 := processField_misread ⟨{ batch_no := "", lot_no := "", expiry := "" }, [], []⟩
    ⟨"Product code", v⟩ rfl hv
  have hc := scandit_congr_foldl lib [⟨"Product code", v⟩] []
    (by rw [List.foldl_cons, List.foldl_nil, h0]; rfl)
  rw [hc]
  rfl

theorem claim_C8_witness :
    ScanditMap.scanditFieldsToLabelJson Gs1.libThrows [⟨"Product code", "L0T"⟩] =
      ⟨{ batch_no := "", lot_no := "", expiry := "" }, ""⟩ :=
  claim_C8.2.2 Gs1.libThrows "L0T" (by decide)
/-- C9.  The OCR expiry normalizer is idempotent on every input — its output is
either the input itself or a canonical `YYYY-MM`, and canonical `YYYY-MM` and
`YYYY-MM-DD` values are returned unchanged. -/
theorem claim_C9 :
    (∀ x, LabelFormats.normalizeExpiry (LabelFormats.normalizeExpiry x) =
       LabelFormats.normalizeExpiry x) ∧
    (∀ s, canonicalYM s = true ∨ canonicalYMD s = true →
       LabelFormats.normalizeExpiry s = s) := by
  constructor
  · intro x
    rcases ocrNorm_out x with h | h
    · rw [h]
      exact h
    · exact ocrNorm_fix_of_canonicalYM h
  · intro s h
    rcases h with h | h
    · exact ocrNorm_fix_of_canonicalYM h
    · exact ocrNorm_fix_of_canonicalYMD h

theorem claim_C9_witness :
    (canonicalYM "2027-03" = true ∨ canonicalYMD "2027-03" = true) ∧
    LabelFormats.normalizeExpiry "2027-03" = "2027-03" :=
  have h : canonicalYM "2027-03" = true ∨ canonicalYMD "2027-03" = true :=
    Or.inl (by decide)
  ⟨h, claim_C9.2 "2027-03" h⟩

/-- C10 (implicit).  Whenever `parseGs1ToLabelJson` returns a result, its
`batch_no` and `lot_no` are the same string: both the library path and the
positional fallback copy the single AI-10 value into both roles. -/
theorem claim_C10 (lib : String → Gs1.LibOutcome) (raw : String)
    (r : Gs1.Gs1LabelResult) (h : Gs1.parseGs1ToLabelJson lib raw = some r) :
    r.batch_no = r.lot_no :=
  parseGs1_some_batch_eq h

theorem claim_C10_witness :
    Gs1.parseGs1ToLabelJson Gs1.libThrows
        "0100350111561014211010454151481217270531107981055" =
      some ⟨"7981055", "7981055", "2027-05-31",
        some "00350111561014", some "10104541514812172705"⟩ ∧
    Gs1.Gs1LabelResult.batch_no ⟨"7981055", "7981055", "2027-05-31",
        some "00350111561014", some "10104541514812172705"⟩ =
      Gs1.Gs1LabelResult.lot_no ⟨"7981055", "7981055", "2027-05-31",
        some "00350111561014", some "10104541514812172705"⟩ :=
  have h : Gs1.parseGs1ToLabelJson Gs1.libThrows
      "0100350111561014211010454151481217270531107981055" =
    some ⟨"7981055", "7981055", "2027-05-31",
      some "00350111561014", some "10104541514812172705"⟩ := by decide
  ⟨h, claim_C10 Gs1.libThrows _ _ h⟩
